import Mathlib

/-!
# NAAN_OS: filesystem reader and executor helpers

A shallow embedding of parts of `student-distrib/filesystem.c` and
`student-distrib/systemcalls.c`.

Conventions of the embedding.

* `uint32_t` values are natural numbers; every `uint32_t` addition or
  multiplication that the C code performs is followed by `% U32`.
* Physical memory is a function from addresses to bytes. A byte read
  normalises the stored value with `% 256`; a `uint32_t` read is little-endian.
* A buffer the kernel writes into (`uint8_t* buf`) is a function from the index
  `i` to the byte `buf[i]`. Buffers are assumed not to overlap the filesystem
  image.
* A string the kernel only reads (`const uint8_t*`) is the list of the bytes
  found from the pointer onwards; reading past the end of the list yields NUL.
* A `for`/`while` loop guarded by `i < n` is a recursion on the number
  `n - i` of iterations the guard still allows, so every loop below is total.
-/

namespace NaanOS

/-! ## Constants (types.h, systemcalls.h, filesystem.h) -/

/-- Number of values of a `uint32_t`. -/
abbrev U32 : Nat := 4294967296

/-- Constant `KBYTE_4` of types.h. -/
abbrev KBYTE_4 : Nat := 4096

/-- Constant `BYTE_64` of types.h. -/
abbrev BYTE_64 : Nat := 64

/-- Constant `BYTE_33` of types.h. -/
abbrev BYTE_33 : Nat := 33

/-- Constant `BYTE_32` of types.h. -/
abbrev BYTE_32 : Nat := 32

/-- Constant `BYTE_4` of types.h. -/
abbrev BYTE_4 : Nat := 4

/-- Constant `FILE_NAME_CHAR` of types.h. -/
abbrev FILE_NAME_CHAR : Nat := 32

/-- Constant `MAX_BUFFER_SIZE` of types.h. -/
abbrev MAX_BUFFER_SIZE : Nat := 128

/-- Constant `SPACE` of systemcalls.h. -/
abbrev SPACE : Nat := 32

/-- Constant `MAX_PROC` of systemcalls.h. -/
abbrev MAX_PROC : Nat := 6

/-- Constant `MAX_DENTRIES` of filesystem.h. -/
abbrev MAX_DENTRIES : Nat := 63

/-! ## Memory -/

/-- The byte stored at a 32-bit address: `*((uint8_t*) addr)`. -/
def read_u8 (mem : Nat → Nat) (addr : Nat) : Nat :=
  mem (addr % U32) % 256

/-- The little-endian word stored at a 32-bit address: `*((uint32_t*) addr)`. -/
def read_u32 (mem : Nat → Nat) (addr : Nat) : Nat :=
  read_u8 mem addr + 256 * read_u8 mem (addr + 1) + 65536 * read_u8 mem (addr + 2)
    + 16777216 * read_u8 mem (addr + 3)

/-- The four little-endian bytes of a `uint32_t` field. -/
def le32 (v : Nat) : List Nat :=
  [v % 256, v / 256 % 256, v / 65536 % 256, v / 16777216 % 256]

/-! ## Data model (types.h, filesystem.c globals) -/

/-- The struct `dentry_t`. `file_name` lists the bytes of the 32-byte name field
from its start; bytes of the field that the list leaves out are NUL. -/
structure dentry_t where
  file_name : List Nat
  file_type : Nat
  inode_num : Nat
  reserved : List Nat
  deriving DecidableEq, Repr

/-- The globals of filesystem.c together with the memory that holds the image. -/
structure FileSystem where
  mem : Nat → Nat
  inode_addr : Nat
  data_addr : Nat
  dentries : Nat → dentry_t
  num_dentries : Nat
  num_inodes : Nat
  num_data : Nat
  dentries_read : Nat

/-! ## read_data (filesystem.c) -/

/-- The `for` loop of `read_data`. The first argument is `length - bytes_read`,
the number of iterations the guard `bytes_read < length` still allows; the
others are the loop variables `bytes_read`, `current_block_addr`,
`next_block_index`, `block_offset` and the buffer. The result is the returned
count and the buffer. -/
def read_data_loop (fs : FileSystem) (current_inode_addr offset inode_length
    start_block_index : Nat) :
    Nat → Nat → Nat → Nat → Nat → (Nat → Nat) → Nat × (Nat → Nat)
  | 0, bytes_read, _, _, _, buf => (bytes_read, buf)
  | remaining + 1, bytes_read, current_block_addr, next_block_index, block_offset, buf =>
    if (bytes_read + offset) % U32 > inode_length then
      (bytes_read, buf)
    else if (offset + bytes_read) % U32 / KBYTE_4 ≠ block_offset then
      let current_block_num := read_u32 fs.mem
        ((current_inode_addr + BYTE_4 + (start_block_index + next_block_index) * BYTE_4) % U32)
      let new_block_addr := (fs.data_addr + KBYTE_4 * current_block_num) % U32
      read_data_loop fs current_inode_addr offset inode_length start_block_index
        remaining (bytes_read + 1) new_block_addr (next_block_index + 1)
        ((offset + bytes_read) % U32 / KBYTE_4)
        (Function.update buf bytes_read
          (read_u8 fs.mem ((new_block_addr + (offset + bytes_read) % U32 % KBYTE_4) % U32)))
    else
      read_data_loop fs current_inode_addr offset inode_length start_block_index
        remaining (bytes_read + 1) current_block_addr next_block_index block_offset
        (Function.update buf bytes_read
          (read_u8 fs.mem ((current_block_addr + (offset + bytes_read) % U32 % KBYTE_4) % U32)))

/-- The function `read_data(inode, offset, buf, length)`: the returned count
(the value of the C `int bytes_read`, which the comparisons with the unsigned
`offset` and `length` read as unsigned) and the buffer afterwards. -/
def read_data (fs : FileSystem) (inode offset : Nat) (buf : Nat → Nat) (length : Nat) :
    Nat × (Nat → Nat) :=
  let current_inode_addr := (fs.inode_addr + inode * KBYTE_4) % U32
  if inode ≥ fs.num_inodes then (0, buf)
  else
    let inode_length := read_u32 fs.mem current_inode_addr
    if offset > inode_length then (0, buf)
    else
      let start_block_index := offset / KBYTE_4
      let start_block_num := read_u32 fs.mem
        ((current_inode_addr + (start_block_index + 1) * BYTE_4) % U32)
      let start_block_addr := (fs.data_addr + KBYTE_4 * start_block_num) % U32
      read_data_loop fs current_inode_addr offset inode_length start_block_index
        length 0 start_block_addr 1 start_block_index buf

/-! ## String helpers of lib.c -/

/-- Modelled from the spec: `strlen` of lib.c, which is not among the sources.
The number of bytes that precede the first NUL of the string. -/
def strlen : List Nat → Nat
  | [] => 0
  | c :: s => if c = 0 then 0 else strlen s + 1

/-- Modelled from the spec: `memset(s, c, n)` of lib.c, which is not among the
sources. The first `n` bytes of `s` become `c`. -/
def memset (s : Nat → Nat) (c n : Nat) : Nat → Nat :=
  fun i => if i < n then c else s i

/-- Modelled from the spec: `strncpy(dest, src, n)` of lib.c, which is not among
the sources. Exactly `n` bytes of `dest` are written: the bytes of `src` that
precede its first NUL, then NUL padding. -/
def strncpy (dest : Nat → Nat) (src : List Nat) (n : Nat) : Nat → Nat :=
  fun i => if i < n then (if i < strlen src then src.getD i 0 else 0) else dest i

/-- Modelled from the spec: `strncmp(s1, s2, n)` of lib.c, which is not among
the sources. Compares at most `n` bytes, stopping at the first difference or at
a NUL; the result is zero exactly when no difference was met. -/
def strncmp : List Nat → List Nat → Nat → Int
  | _, _, 0 => 0
  | s1, s2, n + 1 =>
    if s1.headD 0 ≠ s2.headD 0 ∨ s1.headD 0 = 0 then
      (s1.headD 0 : Int) - (s2.headD 0 : Int)
    else strncmp s1.tail s2.tail n

/-- The bytes of an ASCII string. -/
def ascii (s : String) : List Nat :=
  s.toList.map Char.toNat

/-- The bytes of a `size`-byte array, as a string to read. -/
def array_bytes (a : Nat → Nat) (size : Nat) : List Nat :=
  (List.range size).map a

/-- The 32 bytes of the name field of a dentry. -/
def file_name_field (d : dentry_t) : List Nat :=
  (d.file_name ++ List.replicate BYTE_32 0).take BYTE_32

/-- The memory found from `d.file_name` onwards: the name field, then the
fields `file_type`, `inode_num` and `reserved` of the same struct. A string
function handed `d.file_name` reads this. -/
def file_name_memory (d : dentry_t) : List Nat :=
  file_name_field d ++ le32 d.file_type ++ le32 d.inode_num ++ d.reserved

/-! ## read_dentry_by_name (filesystem.c) -/

/-- The `for` loop of `read_dentry_by_name`. The first argument is
`num_dentries - i`; the others are `i` and `temp_fname`. -/
def read_dentry_by_name_loop (fs : FileSystem) (fname : List Nat) (dentry : dentry_t) :
    Nat → Nat → (Nat → Nat) → Int × dentry_t
  | 0, _, _ => (-1, dentry)
  | remaining + 1, i, temp_fname =>
    let temp := strncpy temp_fname (file_name_memory (fs.dentries i)) BYTE_32
    if strlen fname = strlen (array_bytes temp BYTE_33) then
      if strncmp (array_bytes temp BYTE_33) fname (strlen fname) = 0 then
        (0, fs.dentries i)
      else read_dentry_by_name_loop fs fname dentry remaining (i + 1) temp
    else read_dentry_by_name_loop fs fname dentry remaining (i + 1) temp

/-- The function `read_dentry_by_name(fname, dentry)`: the return value and the
content of `*dentry` afterwards. -/
def read_dentry_by_name (fs : FileSystem) (fname : List Nat) (dentry : dentry_t) :
    Int × dentry_t :=
  read_dentry_by_name_loop fs fname dentry fs.num_dentries 0 (memset (fun _ => 0) 0 BYTE_33)

/-! ## read_directory (filesystem.c) -/

/-- The function `read_directory(buf, nbytes)`: the return value, the buffer
and the filesystem globals afterwards. -/
def read_directory (fs : FileSystem) (buf : Nat → Nat) (nbytes : Nat) :
    Nat × (Nat → Nat) × FileSystem :=
  if fs.dentries_read = fs.num_dentries then
    (0, buf, { fs with dentries_read := 0 })
  else
    let len_filename := strlen (file_name_memory (fs.dentries fs.dentries_read))
    let num_bytes_copy :=
      if nbytes > BYTE_32 then BYTE_32
      else if nbytes > len_filename then len_filename
      else nbytes
    (num_bytes_copy,
      strncpy buf (file_name_memory (fs.dentries fs.dentries_read)) num_bytes_copy,
      { fs with dentries_read := (fs.dentries_read + 1) % U32 })

/-! ## execute_parse_args (systemcalls.c) -/

/-- The loops "strip leading spaces" and "strip spaces in middle". The first
argument is `command_length - i`, the second is `i`; the result is `i`
afterwards. -/
def parse_strip_spaces (command : List Nat) : Nat → Nat → Nat
  | 0, i => i
  | remaining + 1, i =>
    if command.getD i 0 = SPACE then parse_strip_spaces command remaining (i + 1) else i

/-- The loop "fill up filename buffer". The first argument is
`command_length - i`; the others are `i`, `filename_idx` and `filename_buf`. The
result is `i` and the buffer afterwards. -/
def parse_fill_filename (command : List Nat) :
    Nat → Nat → Nat → (Nat → Nat) → Nat × (Nat → Nat)
  | 0, i, _, filename_buf => (i, filename_buf)
  | remaining + 1, i, filename_idx, filename_buf =>
    if command.getD i 0 ≠ SPACE ∧ filename_idx < FILE_NAME_CHAR then
      parse_fill_filename command remaining (i + 1) (filename_idx + 1)
        (Function.update filename_buf filename_idx (command.getD i 0))
    else (i, filename_buf)

/-- The loop "fill up args_buf". The first argument is `command_length - i`;
the others are `i`, `args_idx` and `args_buf`. The result is the buffer
afterwards. -/
def parse_fill_args (command : List Nat) : Nat → Nat → Nat → (Nat → Nat) → (Nat → Nat)
  | 0, _, _, args_buf => args_buf
  | remaining + 1, i, args_idx, args_buf =>
    if args_idx < MAX_BUFFER_SIZE then
      parse_fill_args command remaining (i + 1) (args_idx + 1)
        (Function.update args_buf args_idx (command.getD i 0))
    else args_buf

/-- The function `execute_parse_args(filename_buf, args_buf, command)`: the two
buffers afterwards. `command_length` is a `uint8_t`. -/
def execute_parse_args (filename_buf args_buf : Nat → Nat) (command : List Nat) :
    (Nat → Nat) × (Nat → Nat) :=
  let filename_buf0 := memset filename_buf 0 FILE_NAME_CHAR
  let args_buf0 := memset args_buf 0 MAX_BUFFER_SIZE
  let command_length := strlen command % 256
  let i1 := parse_strip_spaces command (command_length - 0) 0
  let r2 := parse_fill_filename command (command_length - i1) i1 0 filename_buf0
  let i3 := parse_strip_spaces command (command_length - r2.1) r2.1
  (r2.2, parse_fill_args command (command_length - i3) i3 0 args_buf0)

/-! ## execute_find_pid (systemcalls.c) -/

/-- The `for` loop of `execute_find_pid`. The first argument is `MAX_PROC - i`,
the second is `i`. -/
def execute_find_pid_loop (pid_array : Nat → Nat) : Nat → Nat → Int × (Nat → Nat)
  | 0, _ => (-1, pid_array)
  | remaining + 1, i =>
    if pid_array i = 0 then ((i : Int), Function.update pid_array i 1)
    else execute_find_pid_loop pid_array remaining (i + 1)

/-- The function `execute_find_pid()`: the return value and `pid_array`
afterwards. -/
def execute_find_pid (pid_array : Nat → Nat) : Int × (Nat → Nat) :=
  execute_find_pid_loop pid_array MAX_PROC 0

/-! ## Kernel state (types.h, systemcalls.c, paging.h, terminal.h) -/

/-- Constant `KERNEL_MEM_END` of paging.h. -/
abbrev KERNEL_MEM_END : Nat := 0x00800000

/-- Constant `_8KB_` of systemcalls.h. -/
abbrev _8KB_ : Nat := 0x00002000

/-- Constant `_4MB_` of types.h. -/
abbrev _4MB_ : Nat := 0x00400000

/-- Constant `PROGRAM_IMAGE_ADDR` of paging.h. -/
abbrev PROGRAM_IMAGE_ADDR : Nat := 0x8048000

/-- Constant `PAGE_DIR_MASK` of systemcalls.h. -/
abbrev PAGE_DIR_MASK : Nat := 0xFFC00000

/-- Constant `PAGE_BASE_ADDR_OFFSET` of paging.h. -/
abbrev PAGE_BASE_ADDR_OFFSET : Nat := 22

/-- Constant `USER_PAGE` of paging.h. -/
abbrev USER_PAGE : Nat := PROGRAM_IMAGE_ADDR >>> PAGE_BASE_ADDR_OFFSET

/-- Constant `USER_VID_MEM_PAGE` of paging.h. -/
abbrev USER_VID_MEM_PAGE : Nat := USER_PAGE + 1

/-- Constant `PRESENT` of paging.h. -/
abbrev PRESENT : Nat := 0x00000001

/-- Constant `RW` of paging.h. -/
abbrev RW : Nat := 0x00000002

/-- Constant `USER` of paging.h. -/
abbrev USER : Nat := 0x00000004

/-- Constant `FOUR_MB_PAGE` of paging.h. -/
abbrev FOUR_MB_PAGE : Nat := 0x00000080

/-- Constant `FD_ARRAY_SIZE` of types.h. -/
abbrev FD_ARRAY_SIZE : Nat := 8

/-- Constant `TERMINAL_COUNT` of types.h. -/
abbrev TERMINAL_COUNT : Nat := 3

/-- Constant `RTC_TYPE` of types.h. -/
abbrev RTC_TYPE : Nat := 0

/-- Constant `DIR_TYPE` of types.h. -/
abbrev DIR_TYPE : Nat := 1

/-- Constant `FILE_TYPE` of types.h. -/
abbrev FILE_TYPE : Nat := 2

/-- Constant `ELF_LENGTH` of systemcalls.h. -/
abbrev ELF_LENGTH : Nat := 3

/-- Constant `ELF_OFFSET` of systemcalls.h. -/
abbrev ELF_OFFSET : Nat := 1

/-- Constant `NEWLINE` of terminal.h. -/
abbrev NEWLINE : Nat := 0xA

/-- Constant `_512HZ_` of rtc.h. -/
abbrev _512HZ_ : Nat := 0x200

/-- Constant `_2HZ_` of rtc.h. -/
abbrev _2HZ_ : Nat := 0x02

/-- Modelled from the spec: `KERNEL_DS` of x86_desc.h, which is not among the
sources; the selector of the kernel data segment. -/
abbrev KERNEL_DS : Nat := 0x0018

/-- The value of an `int32_t` converted to `uint32_t`. -/
def to_u32 (x : Int) : Nat :=
  (x % 4294967296).toNat

/-- The value of a `uint32_t` converted to `int32_t`. -/
def to_i32 (n : Nat) : Int :=
  if n % U32 < 2147483648 then ((n % U32 : Nat) : Int) else ((n % U32 : Nat) : Int) - 4294967296

/-- The functions that the operation tables of systemcalls.c point to, and the
null function pointer. -/
inductive fn_t where
  | null
  | bad_call_open
  | bad_call_close
  | terminal_read
  | terminal_write
  | rtc_open
  | rtc_read
  | rtc_write
  | rtc_close
  | fs_open
  | fs_read
  | fs_write
  | fs_close
  deriving DecidableEq, Repr

/-- The struct `fops_t`: four function pointers. -/
structure fops_t where
  op_open : fn_t
  op_read : fn_t
  op_write : fn_t
  op_close : fn_t
  deriving DecidableEq, Repr

/-- The table `terminal_ops_table` of systemcalls.c. -/
def terminal_ops_table : fops_t :=
  ⟨fn_t.bad_call_open, fn_t.terminal_read, fn_t.terminal_write, fn_t.bad_call_close⟩

/-- The table `rtc_ops_table` of systemcalls.c. -/
def rtc_ops_table : fops_t :=
  ⟨fn_t.rtc_open, fn_t.rtc_read, fn_t.rtc_write, fn_t.rtc_close⟩

/-- The table `directory_ops_table` of systemcalls.c. -/
def directory_ops_table : fops_t :=
  ⟨fn_t.fs_open, fn_t.fs_read, fn_t.fs_write, fn_t.fs_close⟩

/-- The table `file_ops_table` of systemcalls.c. -/
def file_ops_table : fops_t :=
  ⟨fn_t.fs_open, fn_t.fs_read, fn_t.fs_write, fn_t.fs_close⟩

/-- The value `(fops_t) {NULL, NULL, NULL, NULL}`. -/
def null_ops_table : fops_t :=
  ⟨fn_t.null, fn_t.null, fn_t.null, fn_t.null⟩

/-- The struct `fd_array_t`. -/
structure fd_array_t where
  file_operations_table_ptr : fops_t
  inode : Nat
  file_position : Nat
  flags : Nat
  deriving DecidableEq, Repr

/-- The struct `pcb_t`. Pointers are addresses, `0` being `NULL`; `fd_array` and
`args` are indexed arrays of 8 entries and 128 bytes. -/
structure pcb_t where
  fd_array : Nat → fd_array_t
  args : Nat → Nat
  pid : Nat
  parent_pcb : Nat
  esp : Nat
  ebp : Nat
  terminal_id : Nat

/-- The struct `term_t`, without the cursor and the video page. -/
structure term_t where
  internal_buffer : Nat → Nat
  buffer_index : Nat
  enter_flag : Nat
  rtc_constant : Nat
  rtc_iterations : Nat
  curr_pcb : Nat
  active : Nat

/-- The kernel globals the system calls work on: the filesystem globals,
`pid_array`, the memory holding the PCBs (a PCB per address), the `terminal`
array, `curr_term`, `sched_term`, `exception_flag`, the page directory, the
user-video page table, the two TSS fields the kernel writes, and the Ctrl+L
globals of terminal.h. The screen and the memory of user programs are not part
of it. -/
structure KState where
  fs : FileSystem
  pid_array : Nat → Nat
  pcb_mem : Nat → pcb_t
  terminal : Nat → term_t
  curr_term : Nat
  sched_term : Nat
  exception_flag : Nat
  page_directory : Nat → Nat
  user_video_page_table : Nat → Nat
  tss_ss0 : Nat
  tss_esp0 : Nat
  ctrl_L_flag : Nat
  placeholder_buf : Nat → Nat
  placeholder_buf_index : Nat

/-- The PCB `terminal[sched_term].curr_pcb` points to. -/
def KState.cur (s : KState) : pcb_t :=
  s.pcb_mem (s.terminal s.sched_term).curr_pcb

/-- The state with the PCB that `terminal[sched_term].curr_pcb` points to
replaced. -/
def KState.set_cur (s : KState) (p : pcb_t) : KState :=
  { s with pcb_mem := Function.update s.pcb_mem (s.terminal s.sched_term).curr_pcb p }

/-- The state with `terminal[sched_term]` replaced. -/
def KState.set_term (s : KState) (t : term_t) : KState :=
  { s with terminal := Function.update s.terminal s.sched_term t }

/-- The PCB with `fd_array[fd]` replaced. -/
def pcb_t.set_fd (p : pcb_t) (fd : Nat) (e : fd_array_t) : pcb_t :=
  { p with fd_array := Function.update p.fd_array fd e }

/-! ## More helpers of lib.c -/

/-- Modelled from the spec: `strcpy(dest, src)` of lib.c, which is not among the
sources. The bytes of `src` up to and including its NUL are written. -/
def strcpy (dest : Nat → Nat) (src : List Nat) : Nat → Nat :=
  fun i => if i < strlen src then src.getD i 0 else if i = strlen src then 0 else dest i

/-- Modelled from the spec: `memcpy(dest, src, n)` of lib.c, which is not among
the sources. The first `n` bytes of `dest` become those of `src`. -/
def memcpy (dest src : Nat → Nat) (n : Nat) : Nat → Nat :=
  fun i => if i < n then src i else dest i

/-- The word whose four little-endian bytes are `b 0 .. b 3`. -/
def from_le32 (b : Nat → Nat) : Nat :=
  b 0 % 256 + 256 * (b 1 % 256) + 65536 * (b 2 % 256) + 16777216 * (b 3 % 256)

/-! ## File reads (filesystem.c, systemcalls.c) -/

/-- The content of an uninitialised local `dentry_t`. -/
def local_dentry : dentry_t :=
  ⟨[], 0, 0, []⟩

/-- The function `read_file(filename, offset, buf, nbytes)`: the return value
and the buffer afterwards. `nbytes` is an `int32_t` handed to the `uint32_t`
parameter `length` of `read_data`. -/
def read_file (fs : FileSystem) (filename : List Nat) (offset : Nat) (buf : Nat → Nat)
    (nbytes : Int) : Int × (Nat → Nat) :=
  if (read_dentry_by_name fs filename local_dentry).1 = -1 then (-1, buf)
  else
    (to_i32 (read_data fs (read_dentry_by_name fs filename local_dentry).2.inode_num offset buf
        (to_u32 nbytes)).1,
      (read_data fs (read_dentry_by_name fs filename local_dentry).2.inode_num offset buf
        (to_u32 nbytes)).2)

/-- The function `execute_executable_check(filename)`. The result of `read_file`
is stored in a `uint32_t`. -/
def execute_executable_check (fs : FileSystem) (filename : List Nat) : Int :=
  let buf := memset (fun _ => 0) 0 ELF_LENGTH
  let bytes_read := to_u32 (read_file fs filename ELF_OFFSET buf ELF_LENGTH).1
  if bytes_read < ELF_LENGTH then -1
  else if strncmp (array_bytes (read_file fs filename ELF_OFFSET buf ELF_LENGTH).2 ELF_LENGTH)
      (ascii "ELF") ELF_LENGTH ≠ 0 then -1
  else 0

/-- The loop of `fs_read` that looks for the first dentry with the inode number
of the descriptor. The first argument is `num_dentries - i`, the second `i`; the
result is the index found, if any. -/
def fs_read_find (fs : FileSystem) (inode_num : Nat) : Nat → Nat → Option Nat
  | 0, _ => none
  | remaining + 1, i =>
    if inode_num = (fs.dentries i).inode_num then some i
    else fs_read_find fs inode_num remaining (i + 1)

/-- The function `fs_read(fd, buf, nbytes)`: the return value, the state and the
buffer afterwards. -/
def fs_read (s : KState) (fd : Nat) (buf : Nat → Nat) (nbytes : Int) :
    Int × KState × (Nat → Nat) :=
  let inode_num := (s.cur.fd_array fd).inode
  let offset := (s.cur.fd_array fd).file_position
  match fs_read_find s.fs inode_num s.fs.num_dentries 0 with
  | none => (-1, s, buf)
  | some i =>
    let filename := array_bytes
      (strncpy (memset (fun _ => 0) 0 BYTE_33) (file_name_memory (s.fs.dentries i)) BYTE_32)
      BYTE_33
    if (s.fs.dentries i).file_type = FILE_TYPE ∨ (s.fs.dentries i).file_type = RTC_TYPE then
      let r := read_file s.fs filename offset buf nbytes
      if r.1 > 0 then
        (r.1, s.set_cur (s.cur.set_fd fd
          { s.cur.fd_array fd with file_position := (offset + to_u32 r.1) % U32 }), r.2)
      else (r.1, s, r.2)
    else if (s.fs.dentries i).file_type = DIR_TYPE then
      let r := read_directory s.fs buf (to_u32 nbytes)
      let s1 : KState := { s with fs := r.2.2 }
      if to_i32 r.1 > 0 then
        (to_i32 r.1, s1.set_cur (s1.cur.set_fd fd
          { s1.cur.fd_array fd with file_position := (offset + r.1) % U32 }), r.2.1)
      else (to_i32 r.1, s1, r.2.1)
    else (-1, s, buf)

/-- The function `fs_open(filename)`. -/
def fs_open (s : KState) (filename : List Nat) : Int :=
  if (read_dentry_by_name s.fs filename local_dentry).1 = -1 then -1 else 0

/-! ## Terminal and RTC drivers (terminal.c, rtc.c) -/

/-- What the keyboard interrupt handler has put in the line buffer of the
scheduled terminal, and its `buffer_index`, at the moment `terminal_read` sees
`enter_flag` set. -/
structure kbd_line where
  line : Nat → Nat
  index : Nat

/-- The loop of `terminal_read` that counts the bytes to hand out. The first
argument is `buffer_index - i`, the second is `i` (equal to `num_bytes_read`). -/
def terminal_read_count (nbytes : Int) : Nat → Nat → Nat
  | 0, i => i
  | remaining + 1, i =>
    if (i : Int) < nbytes - 1 then terminal_read_count nbytes remaining (i + 1) else i

/-- The function `terminal_read(fd, buf, nbytes)`: the return value, the state
and the buffer afterwards. `buf_addr` is the pointer `buf`, `buf` what it points
to. The wait for `enter_flag` is replaced by its outcome `kbd`; the echo of the
restored line is not modelled. -/
def terminal_read (s : KState) (buf_addr : Nat) (buf : Nat → Nat) (nbytes : Int)
    (kbd : kbd_line) : Int × KState × (Nat → Nat) :=
  if buf_addr = 0 ∨ nbytes < 0 then (-1, s, buf)
  else
    let s1 : KState :=
      if s.ctrl_L_flag ≠ 0 then
        { s.set_term { s.terminal s.sched_term with
            internal_buffer :=
              memcpy (s.terminal s.sched_term).internal_buffer s.placeholder_buf MAX_BUFFER_SIZE
            buffer_index := s.placeholder_buf_index } with ctrl_L_flag := 0 }
      else s
    let num_bytes_read := terminal_read_count nbytes kbd.index 0
    let buffer := Function.update (memcpy buf kbd.line num_bytes_read) num_bytes_read NEWLINE
    (to_i32 (num_bytes_read + 1),
      s1.set_term { s1.terminal s1.sched_term with
        internal_buffer := memset kbd.line 0 MAX_BUFFER_SIZE
        buffer_index := 0
        enter_flag := 0 },
      buffer)

/-- The loop of `terminal_write`. The first argument is `nbytes - i`; the others
are `i` and `num_bytes_typed`. Writing a character to the screen is not
modelled. -/
def terminal_write_loop (buf : Nat → Nat) : Nat → Nat → Nat → Nat
  | 0, _, num_bytes_typed => num_bytes_typed
  | remaining + 1, i, num_bytes_typed =>
    if buf i % 256 = 0 then terminal_write_loop buf remaining (i + 1) num_bytes_typed
    else terminal_write_loop buf remaining (i + 1) (num_bytes_typed + 1)

/-- The function `terminal_write(fd, buf, nbytes)`. -/
def terminal_write (buf_addr : Nat) (buf : Nat → Nat) (nbytes : Int) : Int :=
  if buf_addr = 0 ∨ nbytes < 0 then -1
  else to_i32 (terminal_write_loop buf nbytes.toNat 0 0)

/-- The function `rtc_open(filename)`: the return value and the state. -/
def rtc_open (s : KState) : Int × KState :=
  (0, s.set_term { s.terminal s.sched_term with rtc_constant := _512HZ_ / _2HZ_ })

/-- The function `rtc_read(fd, buf, nbytes)`: the return value and the state
once the interrupt handler has counted `rtc_iterations` down to 0. -/
def rtc_read (s : KState) : Int × KState :=
  (0, s.set_term { s.terminal s.sched_term with rtc_iterations := 0 })

/-- The function `rtc_write(fd, buf, nbytes)`: the return value and the state. -/
def rtc_write (s : KState) (buf_addr : Nat) (buf : Nat → Nat) (nbytes : Int) : Int × KState :=
  if buf_addr = 0 ∨ nbytes ≠ 4 then (-1, s)
  else
    let v := to_i32 (from_le32 buf)
    if v ≤ 1 ∨ (to_u32 v &&& to_u32 (v - 1)) ≠ 0 ∨ v > (_512HZ_ : Int) then (-1, s)
    else (0, s.set_term { s.terminal s.sched_term with rtc_constant := _512HZ_ / v.toNat })

/-! ## Dispatch through the operation tables -/

/-- A call `ops.open(filename)`. The result is `none` when the pointer is not one
of the open functions: the call then jumps through `NULL`, which is outside the
model. -/
def call_open (f : fn_t) (s : KState) (filename : List Nat) : Option (Int × KState) :=
  match f with
  | fn_t.bad_call_open => some (-1, s)
  | fn_t.rtc_open => some (rtc_open s)
  | fn_t.fs_open => some (fs_open s filename, s)
  | _ => none

/-- A call `ops.read(fd, buf, nbytes)`; `none` as for `call_open`. -/
def call_read (f : fn_t) (s : KState) (fd : Nat) (buf_addr : Nat) (buf : Nat → Nat)
    (nbytes : Int) (kbd : kbd_line) : Option (Int × KState × (Nat → Nat)) :=
  match f with
  | fn_t.terminal_read => some (terminal_read s buf_addr buf nbytes kbd)
  | fn_t.rtc_read => some ((rtc_read s).1, (rtc_read s).2, buf)
  | fn_t.fs_read => some (fs_read s fd buf nbytes)
  | _ => none

/-- A call `ops.write(fd, buf, nbytes)`; `none` as for `call_open`. -/
def call_write (f : fn_t) (s : KState) (buf_addr : Nat) (buf : Nat → Nat) (nbytes : Int) :
    Option (Int × KState) :=
  match f with
  | fn_t.terminal_write => some (terminal_write buf_addr buf nbytes, s)
  | fn_t.rtc_write => some (rtc_write s buf_addr buf nbytes)
  | fn_t.fs_write => some (-1, s)
  | _ => none

/-- A call `ops.close(fd)`; `none` as for `call_open`. -/
def call_close (f : fn_t) (s : KState) : Option (Int × KState) :=
  match f with
  | fn_t.bad_call_close => some (-1, s)
  | fn_t.rtc_close => some (0, s)
  | fn_t.fs_close => some (0, s)
  | _ => none

/-! ## open, read, write, close, getargs, vidmap (systemcalls.c) -/

/-- The loop of `open` that looks for a descriptor not in use. The first argument
is `FD_ARRAY_SIZE - fd`, the second `fd`; the result is `fd` after the loop. -/
def open_find_fd (p : pcb_t) : Nat → Nat → Nat
  | 0, fd => fd
  | remaining + 1, fd =>
    if (p.fd_array fd).flags = 0 then fd else open_find_fd p remaining (fd + 1)

/-- The function `open(filename)`: the return value and the state; `none` when a
call goes through a null function pointer. -/
def open_syscall (s : KState) (filename : List Nat) : Option (Int × KState) :=
  if (read_dentry_by_name s.fs filename local_dentry).1 = -1 then some (-1, s)
  else
    let dentry := (read_dentry_by_name s.fs filename local_dentry).2
    let fd := open_find_fd s.cur FD_ARRAY_SIZE 0
    if fd = FD_ARRAY_SIZE then some (-1, s)
    else
      let ops :=
        if dentry.file_type = RTC_TYPE then rtc_ops_table
        else if dentry.file_type = DIR_TYPE then directory_ops_table
        else if dentry.file_type = FILE_TYPE then file_ops_table
        else (s.cur.fd_array fd).file_operations_table_ptr
      let s1 := s.set_cur (s.cur.set_fd fd
        { file_operations_table_ptr := ops, inode := dentry.inode_num, file_position := 0,
          flags := 1 })
      match call_open ops.op_open s1 filename with
      | none => none
      | some r => if r.1 = -1 then some (-1, r.2) else some ((fd : Int), r.2)

/-- The function `read(fd, buf, nbytes)`: the return value, the state and the
buffer; `none` when the call goes through a null function pointer. -/
def read (s : KState) (fd : Int) (buf_addr : Nat) (buf : Nat → Nat) (nbytes : Int)
    (kbd : kbd_line) : Option (Int × KState × (Nat → Nat)) :=
  if fd < 0 ∨ fd ≥ FD_ARRAY_SIZE then some (-1, s, buf)
  else if fd = 1 then some (-1, s, buf)
  else if (s.cur.fd_array fd.toNat).flags = 0 then some (-1, s, buf)
  else call_read (s.cur.fd_array fd.toNat).file_operations_table_ptr.op_read s fd.toNat
    buf_addr buf nbytes kbd

/-- The function `write(fd, buf, nbytes)`: the return value and the state;
`none` when the call goes through a null function pointer. -/
def write (s : KState) (fd : Int) (buf_addr : Nat) (buf : Nat → Nat) (nbytes : Int) :
    Option (Int × KState) :=
  if fd < 0 ∨ fd ≥ FD_ARRAY_SIZE then some (-1, s)
  else if fd = 0 then some (-1, s)
  else if (s.cur.fd_array fd.toNat).flags = 0 then some (-1, s)
  else call_write (s.cur.fd_array fd.toNat).file_operations_table_ptr.op_write s
    buf_addr buf nbytes

/-- The function `close(fd)`: the return value and the state; `none` when the
call goes through a null function pointer. -/
def close (s : KState) (fd : Int) : Option (Int × KState) :=
  if fd < 0 ∨ fd ≥ FD_ARRAY_SIZE then some (-1, s)
  else if fd = 0 ∨ fd = 1 then some (-1, s)
  else if (s.cur.fd_array fd.toNat).flags = 0 then some (-1, s)
  else
    match call_close (s.cur.fd_array fd.toNat).file_operations_table_ptr.op_close s with
    | none => none
    | some r =>
      if r.1 ≠ 0 then some (-1, r.2)
      else some (0, r.2.set_cur (r.2.cur.set_fd fd.toNat
        { r.2.cur.fd_array fd.toNat with flags := 0 }))

/-- The bytes that follow `args` in a `pcb_t`: `pid`, `parent_pcb`, `esp`, `ebp`
and `terminal_id`. -/
def pcb_tail (p : pcb_t) : List Nat :=
  le32 p.pid ++ le32 p.parent_pcb ++ le32 p.esp ++ le32 p.ebp ++ [p.terminal_id % 256]

/-- The memory found from `p->args` onwards: the 128 bytes of `args`, then the
fields that follow in the struct. -/
def pcb_args_memory (p : pcb_t) : List Nat :=
  array_bytes p.args MAX_BUFFER_SIZE ++ pcb_tail p

/-- The function `getargs(buf, nbytes)`: the return value and the buffer
afterwards. `buf_addr` is the pointer `buf`, `buf` what it points to. -/
def getargs (s : KState) (buf_addr : Nat) (buf : Nat → Nat) (nbytes : Int) :
    Int × (Nat → Nat) :=
  if buf_addr = 0 ∨ nbytes ≤ 0 then (-1, buf)
  else if strlen (pcb_args_memory s.cur) = 0 then (-1, buf)
  else if strlen (pcb_args_memory s.cur) > to_u32 nbytes then (-1, buf)
  else (0, strcpy buf (pcb_args_memory s.cur))

/-- The function `vidmap(screen_start)`: the return value, the state and the
user memory afterwards. `user_mem` gives the pointer stored at each address;
flushing the TLB changes none of them. -/
def vidmap (s : KState) (screen_start : Nat) (user_mem : Nat → Nat) :
    Int × KState × (Nat → Nat) :=
  if screen_start = 0 then (-1, s, user_mem)
  else if screen_start &&& PAGE_DIR_MASK ≠ PROGRAM_IMAGE_ADDR &&& PAGE_DIR_MASK then
    (-1, s, user_mem)
  else
    (0, s, Function.update user_mem screen_start
      ((USER_VID_MEM_PAGE <<< PAGE_BASE_ADDR_OFFSET) % U32))

/-! ## execute, halt and the scheduler (systemcalls.c, scheduler.c, pit.c) -/

/-- Modelled from the spec: `VIDEO` of lib.h, which is not among the sources;
the address of the VGA text page. -/
abbrev VIDEO : Nat := 0xB8000

/-- The function `execute_program_paging(new_pid)`. -/
def execute_program_paging (s : KState) (new_pid : Nat) : KState :=
  { s with page_directory := (Function.update s.page_directory USER_PAGE
      (((KERNEL_MEM_END + new_pid * _4MB_) % U32)
        ||| (FOUR_MB_PAGE ||| USER ||| RW ||| PRESENT))) }

/-- A 32-bit field of which the bytes from `k` on of the overflow `ov` have
overwritten a part: a field that starts `k` bytes after the end of an array,
after `ov` has been written past the end of that array. -/
def overlay32 (old : Nat) (ov : List Nat) (k : Nat) : Nat :=
  if ov.length ≤ k then old
  else from_le32 (fun j => if k + j < ov.length then ov.getD (k + j) 0 else (le32 old).getD j 0)

/-- The call `strcpy(p->args, src)`. `strcpy` writes the bytes of `src` with
their NUL; those beyond the 128 bytes of `args` land on the fields that follow
`args` in the struct. -/
def strcpy_pcb_args (p : pcb_t) (src : List Nat) : pcb_t :=
  let ov := (array_bytes (strcpy (fun _ => 0) src) (strlen src + 1)).drop MAX_BUFFER_SIZE
  { p with
    args := fun i => if i < MAX_BUFFER_SIZE then strcpy p.args src i else p.args i
    pid := overlay32 p.pid ov 0
    parent_pcb := overlay32 p.parent_pcb ov 4
    esp := overlay32 p.esp ov 8
    ebp := overlay32 p.ebp ov 12
    terminal_id := if ov.length ≤ 16 then p.terminal_id else ov.getD 16 0 }

/-- The function `execute_create_pcb(dentry, filename, args, new_pid)`, for a
`new_pid` that is not negative. -/
def execute_create_pcb (s : KState) (args : List Nat) (new_pid : Nat) : KState :=
  let new_pcb := KERNEL_MEM_END - (new_pid + 1) * _8KB_
  let fresh : pcb_t :=
    { fd_array := fun i =>
        if i < FD_ARRAY_SIZE then
          if i = 0 ∨ i = 1 then
            { file_operations_table_ptr := terminal_ops_table, inode := to_u32 (-1),
              file_position := 0, flags := 1 }
          else
            { file_operations_table_ptr := null_ops_table, inode := to_u32 (-1),
              file_position := 0, flags := 0 }
        else (s.pcb_mem new_pcb).fd_array i
      args := (s.pcb_mem new_pcb).args
      pid := new_pid
      parent_pcb := (s.terminal s.sched_term).curr_pcb
      esp := (PROGRAM_IMAGE_ADDR &&& PAGE_DIR_MASK) + _4MB_ - BYTE_4
      ebp := (PROGRAM_IMAGE_ADDR &&& PAGE_DIR_MASK) + _4MB_ - BYTE_4
      terminal_id := s.sched_term }
  { s with
    pcb_mem := Function.update s.pcb_mem new_pcb (strcpy_pcb_args fresh args)
    terminal := Function.update s.terminal s.sched_term
      { s.terminal s.sched_term with curr_pcb := new_pcb } }

/-- The kernel-state part of `execute_context_switch(filename)`: the TSS. -/
def execute_context_switch (s : KState) : KState :=
  { s with
    tss_ss0 := KERNEL_DS
    tss_esp0 := (KERNEL_MEM_END + (U32 - (s.cur.pid * _8KB_ + BYTE_4) % U32)) % U32 }

/-- The first statements of `execute`, up to `terminal[sched_term].active = 1`:
the exception flag is cleared and the stack registers are saved in the current
PCB, if there is one. -/
def execute_entry (s : KState) (esp ebp : Nat) : KState :=
  let s1 : KState := { s with exception_flag := 0 }
  let s2 : KState :=
    if (s1.terminal s1.sched_term).active ≠ 0 ∧ (s1.terminal s1.sched_term).curr_pcb ≠ 0 then
      s1.set_cur { s1.cur with esp := esp, ebp := ebp }
    else s1
  s2.set_term { s2.terminal s2.sched_term with active := 1 }

/-- The function `execute(command)` up to the `iret`: the state, and `some r`
when `execute` returns `r` to its caller before that point, `none` when control
has passed to the new process. `esp` and `ebp` are the registers on entry. -/
def execute (s : KState) (command : Option (List Nat)) (esp ebp : Nat) : Option Int × KState :=
  match command with
  | none => (some (-1), s)
  | some command =>
    let s3 := execute_entry s esp ebp
    let filename := array_bytes (execute_parse_args (fun _ => 0) (fun _ => 0) command).1
      FILE_NAME_CHAR
    let args := array_bytes (execute_parse_args (fun _ => 0) (fun _ => 0) command).2
      MAX_BUFFER_SIZE
    if (read_dentry_by_name s3.fs filename local_dentry).1 = -1 then (some (-1), s3)
    else if execute_executable_check s3.fs filename ≠ 0 then (some (-1), s3)
    else if (execute_find_pid s3.pid_array).1 = -1 then
      (some (-1), { s3 with pid_array := (execute_find_pid s3.pid_array).2 })
    else
      (none, execute_context_switch
        (execute_create_pcb
          (execute_program_paging { s3 with pid_array := (execute_find_pid s3.pid_array).2 }
            (execute_find_pid s3.pid_array).1.toNat)
          args (execute_find_pid s3.pid_array).1.toNat))

/-- The loop of `halt` that closes every descriptor. The first argument is
`FD_ARRAY_SIZE - i`, the second `i`. -/
def halt_close_all : Nat → Nat → KState → Option KState
  | 0, _, s => some s
  | remaining + 1, i, s =>
    match close s (i : Int) with
    | none => none
    | some r => halt_close_all remaining (i + 1) r.2

/-- What `halt` hands to the label `EXEC_FIN` of the parent: the restored stack
registers and the value in `eax`. -/
structure exec_fin where
  esp : Nat
  ebp : Nat
  eax : Nat

/-- The function `halt(status)`: the state, and what is handed to `EXEC_FIN`, or
`none` in its place when a new root shell has been started instead. The whole
result is `none` when a call goes through a null function pointer, and when
`execute("shell")` returns to `halt`, which then reads through the `NULL`
`curr_pcb`. -/
def halt (s : KState) (status : Nat) : Option (Option exec_fin × KState) :=
  match halt_close_all FD_ARRAY_SIZE 0 s with
  | none => none
  | some s1 =>
    let s2 : KState := { s1 with pid_array := Function.update s1.pid_array s1.cur.pid 0 }
    if s2.cur.parent_pcb = 0 then
      match execute (s2.set_term { s2.terminal s2.sched_term with curr_pcb := 0 })
          (some (ascii "shell")) 0 0 with
      | (none, s4) => some (none, s4)
      | (some _, _) => none
    else
      let s3 := s2.set_term { s2.terminal s2.sched_term with curr_pcb := s2.cur.parent_pcb }
      let s4 : KState :=
        { s3 with
          page_directory := Function.update s3.page_directory USER_PAGE
            (((KERNEL_MEM_END + s3.cur.pid * _4MB_) % U32)
              ||| (FOUR_MB_PAGE ||| USER ||| RW ||| PRESENT))
          tss_ss0 := KERNEL_DS
          tss_esp0 := (KERNEL_MEM_END + (U32 - (s3.cur.pid * _8KB_ + BYTE_4) % U32)) % U32
          fs := { s3.fs with dentries_read := 0 } }
      let status_exp := if s4.exception_flag ≠ 0 then (status % 256 + 1) % U32 else status % 256
      some (some { esp := s4.cur.esp, ebp := s4.cur.ebp, eax := status_exp },
        s4.set_term { s4.terminal s4.sched_term with
          internal_buffer := memset (s4.terminal s4.sched_term).internal_buffer 0 MAX_BUFFER_SIZE
          buffer_index := 0 })

/-- The function `scheduler(prev_term, next_term)`: the state afterwards, `none`
when it reads through a `NULL` `curr_pcb`. `esp` and `ebp` are the registers on
entry. -/
def scheduler (s : KState) (prev_term next_term esp ebp : Nat) : Option KState :=
  if prev_term = next_term then some s
  else
    let s1 : KState :=
      if (s.terminal prev_term).active ≠ 0 then
        { s with pcb_mem := (Function.update s.pcb_mem (s.terminal prev_term).curr_pcb
            { (s.pcb_mem (s.terminal prev_term).curr_pcb) with esp := esp, ebp := ebp }) }
      else s
    let s2 : KState := { s1 with sched_term := next_term }
    if (s2.terminal next_term).active = 0 then
      some (execute s2 (some (ascii "shell")) esp ebp).2
    else if (s2.terminal next_term).curr_pcb = 0 then none
    else
      some { s2 with
        page_directory := Function.update s2.page_directory USER_PAGE
          (((KERNEL_MEM_END + (s2.pcb_mem (s2.terminal next_term).curr_pcb).pid * _4MB_) % U32)
            ||| (FOUR_MB_PAGE ||| USER ||| RW ||| PRESENT))
        tss_ss0 := KERNEL_DS
        tss_esp0 := (KERNEL_MEM_END
          + (U32 - ((s2.pcb_mem (s2.terminal next_term).curr_pcb).pid * _8KB_ + BYTE_4) % U32))
            % U32
        user_video_page_table := Function.update s2.user_video_page_table 0
          (if (s2.pcb_mem (s2.terminal next_term).curr_pcb).terminal_id = s2.curr_term then
            VIDEO ||| (USER ||| RW ||| PRESENT)
          else
            ((VIDEO + ((s2.pcb_mem (s2.terminal next_term).curr_pcb).terminal_id + 1) * KBYTE_4)
              % U32) ||| (USER ||| RW ||| PRESENT)) }

/-- The function `pit_intr_handler()`. -/
def pit_intr_handler (s : KState) (esp ebp : Nat) : Option KState :=
  if (s.terminal s.sched_term).curr_pcb = 0 then some s
  else scheduler s s.sched_term ((s.sched_term + 1) % TERMINAL_COUNT) esp ebp

/-- The steps of the kernel that start and end processes: a call of `execute`,
a call of `halt` by the running process, and a timer tick. -/
inductive kevent where
  | execute (command : List Nat) (esp ebp : Nat)
  | halt (status : Nat)
  | tick (esp ebp : Nat)

/-- One step; `none` when the step cannot be taken (no process to halt) or
leaves the model. -/
def kstep (s : KState) : kevent → Option KState
  | kevent.execute command esp ebp => some (execute s (some command) esp ebp).2
  | kevent.halt status =>
    if (s.terminal s.sched_term).curr_pcb = 0 then none
    else
      match halt s status with
      | none => none
      | some r => some r.2
  | kevent.tick esp ebp => pit_intr_handler s esp ebp

/-- A run of steps from a state. -/
def krun : KState → List kevent → Option KState
  | s, [] => some s
  | s, e :: es =>
    match kstep s e with
    | none => none
    | some s1 => krun s1 es

/-! ## PIT (pit.c, pit.h) -/

/-- The macro `CHANNEL0`: the data port of channel 0. -/
abbrev CHANNEL0 : Nat := 0x40

/-- The macro `PIC_CMD`: the command port. -/
abbrev PIC_CMD : Nat := 0x43

/-- The macro `MODE3`. -/
abbrev MODE3 : Nat := 0x36

/-- The macro `DIV_100HZ`. -/
abbrev DIV_100HZ : Nat := 11932

/-- The macro `LOWER_8`. -/
abbrev LOWER_8 : Nat := 0x00FF

/-- The macro `UPPER_8`. -/
abbrev UPPER_8 : Nat := 8

/-- Modelled from the spec: `outb(data, port)` of lib.h, which is not among the
sources; the byte `data` goes to the port. The writes are kept, in order, as
pairs of port and byte. -/
def outb (log : List (Nat × Nat)) (data port : Nat) : List (Nat × Nat) :=
  log ++ [(port, data % 256)]

/-- The C operator `&&` on two integers. -/
def c_logical_and (a b : Nat) : Nat :=
  if a ≠ 0 ∧ b ≠ 0 then 1 else 0

/-- The port writes of `init_pit()` itself. Its last statement,
`enable_irq(PIT_IRQ)`, writes the interrupt mask to the data port of the PIC and
is left out. -/
def init_pit (log : List (Nat × Nat)) : List (Nat × Nat) :=
  let div := DIV_100HZ % 65536
  let log1 := outb log MODE3 PIC_CMD
  let log2 := outb log1 (c_logical_and div LOWER_8 % 256) CHANNEL0
  outb log2 ((div >>> UPPER_8) % 256) CHANNEL0

/-! ## Paging (paging.c, paging.h) -/

/-- The macro `MAX_ENTRIES`. -/
abbrev MAX_ENTRIES : Nat := 1024

/-- The macro `PAGE_SIZE`. -/
abbrev PAGE_SIZE : Nat := KBYTE_4

/-- The macro `VIDEO_MEM_PAGE`. -/
abbrev VIDEO_MEM_PAGE : Nat := VIDEO >>> 12

/-- The macro `KERNEL_MEM_START`. -/
abbrev KERNEL_MEM_START : Nat := 0x00400000

/-- The C operator `~` on 32 bits. -/
def c_not32 (x : Nat) : Nat :=
  U32 - 1 - x % U32

/-- The three tables of paging.h. -/
structure paging_t where
  page_directory : Nat → Nat
  page_table : Nat → Nat
  user_video_page_table : Nat → Nat

/-- The first loop of `paging_init`. The first argument is `MAX_ENTRIES - i`,
the second `i`. -/
def paging_init_defaults : Nat → Nat → paging_t → paging_t
  | 0, _, p => p
  | remaining + 1, i, p =>
    paging_init_defaults remaining (i + 1)
      { page_directory := Function.update p.page_directory i (RW &&& c_not32 PRESENT)
        page_table := Function.update p.page_table i
          (((i * PAGE_SIZE) % U32) ||| (RW &&& c_not32 PRESENT))
        user_video_page_table := Function.update p.user_video_page_table i
          (((i * PAGE_SIZE) % U32) ||| (RW &&& c_not32 PRESENT)) }

/-- The loop of `paging_init` over `page_table[VIDEO_MEM_PAGE + i]`. The first
argument is `TERMINAL_COUNT + 1 - i`, the second `i`. -/
def paging_init_video : Nat → Nat → (Nat → Nat) → (Nat → Nat)
  | 0, _, pt => pt
  | remaining + 1, i, pt =>
    paging_init_video remaining (i + 1)
      (Function.update pt (VIDEO_MEM_PAGE + i) (pt (VIDEO_MEM_PAGE + i) ||| (RW ||| PRESENT)))

/-- The loop of `paging_init` over `user_video_page_table[i]`. The first
argument is `TERMINAL_COUNT + 1 - i`, the second `i`. -/
def paging_init_user_video : Nat → Nat → (Nat → Nat) → (Nat → Nat)
  | 0, _, uv => uv
  | remaining + 1, i, uv =>
    paging_init_user_video remaining (i + 1)
      (Function.update uv i (((VIDEO + i * PAGE_SIZE) % U32) ||| (USER ||| RW ||| PRESENT)))

/-- The function `paging_init()`, up to `enable_paging()`. The two addresses are
those of the arrays `page_table` and `user_video_page_table`. -/
def paging_init (p : paging_t) (page_table_addr user_video_page_table_addr : Nat) :
    paging_t :=
  let p1 := paging_init_defaults MAX_ENTRIES 0 p
  let pd1 := Function.update p1.page_directory 0 ((page_table_addr % U32) ||| (RW ||| PRESENT))
  let pt1 := paging_init_video (TERMINAL_COUNT + 1) 0 p1.page_table
  let pd2 := Function.update pd1 1 (KERNEL_MEM_START ||| (FOUR_MB_PAGE ||| RW ||| PRESENT))
  let pd3 := Function.update pd2 USER_VID_MEM_PAGE
    ((user_video_page_table_addr % U32) ||| (USER ||| RW ||| PRESENT))
  { page_directory := pd3
    page_table := pt1
    user_video_page_table :=
      paging_init_user_video (TERMINAL_COUNT + 1) 0 p1.user_video_page_table }

/-! ## Exceptions and the return of execute (exception_handler.c, systemcalls.c) -/

/-- The macro `EXCEPTION_CODE`. -/
abbrev EXCEPTION_CODE : Nat := 255

/-- The macro `EXCEPTION_OCCURRED`. -/
abbrev EXCEPTION_OCCURRED : Nat := 256

/-- What `execute` returns to its caller once `halt` has jumped to the label
`EXEC_FIN`. The instructions at the label are `leave` and `ret`, so `execute`
returns there with the value that `halt` left in `eax`; the statements that
follow the `asm` block in the source, `if (exception_flag) retval =
EXCEPTION_OCCURRED; return retval;`, are never reached. -/
def execute_return (fin : exec_fin) : Nat :=
  fin.eax

/-- An exception handler of exception_handler.c, each of which is
`exception_flag = 1; halt(EXCEPTION_CODE);` after its message. -/
def exception_handler (s : KState) : Option (Option exec_fin × KState) :=
  halt { s with exception_flag := 1 } EXCEPTION_CODE

/-! ## Foreground switch and terminal_init (scheduler.c, terminal.c) -/

/-- The kernel globals together with the screen: the bytes of memory (among them
the VGA page and the backing pages), the field `video_mem` of each terminal, and
the interrupt-enable flag of the CPU (1 when interrupts are enabled). The cursor
is not modelled. -/
structure VState where
  ks : KState
  mem : Nat → Nat
  video_mem : Nat → Nat
  intr_flag : Nat

/-- Modelled from the spec: `memcpy(dest, src, n)` of lib.c, which is not among
the sources, on two addresses: the bytes are copied one after the other from the
lowest address. The first argument is `n - i`, the second `i`. -/
def memcpy_mem (dest src : Nat) : Nat → Nat → (Nat → Nat) → (Nat → Nat)
  | 0, _, m => m
  | remaining + 1, i, m =>
    memcpy_mem dest src remaining (i + 1)
      (Function.update m ((dest + i) % U32) (m ((src + i) % U32)))

/-- Modelled from the spec: `cli_and_save(flags)` of lib.h, which is not among
the sources: the flags are kept in `flags`, then interrupts are disabled. The
result is `flags` and the state. -/
def cli_and_save (v : VState) : Nat × VState :=
  (v.intr_flag, { v with intr_flag := 0 })

/-- Modelled from the spec: `restore_flags(flags)` of lib.h, which is not among
the sources: the kept flags are put back. -/
def restore_flags (v : VState) (flags : Nat) : VState :=
  { v with intr_flag := flags }

/-- The function `terminal_switch(new_terminal)`. -/
def terminal_switch (v : VState) (new_terminal : Nat) : VState :=
  let flags := (cli_and_save v).1
  let v1 := (cli_and_save v).2
  if v1.ks.curr_term = new_terminal then v1
  else
    let m1 := memcpy_mem (v1.video_mem v1.ks.curr_term) VIDEO PAGE_SIZE 0 v1.mem
    let m2 := memcpy_mem VIDEO (v1.video_mem new_terminal) PAGE_SIZE 0 m1
    restore_flags { v1 with mem := m2, ks := { v1.ks with curr_term := new_terminal } } flags

/-- The loop of `terminal_init`. The first argument is `TERMINAL_COUNT - i`, the
second `i`. -/
def terminal_init_loop : Nat → Nat → VState → VState
  | 0, _, v => v
  | remaining + 1, i, v =>
    terminal_init_loop remaining (i + 1)
      { v with
        ks := { v.ks with
          terminal := Function.update v.ks.terminal i
            { v.ks.terminal i with
              active := 0
              buffer_index := 0
              curr_pcb := 0
              rtc_constant := 0
              rtc_iterations := 0
              internal_buffer := memset (v.ks.terminal i).internal_buffer 0 MAX_BUFFER_SIZE } }
        video_mem := Function.update v.video_mem i ((VIDEO + (i + 1) * PAGE_SIZE) % U32) }

/-- The function `terminal_init()`. -/
def terminal_init (v : VState) : VState :=
  { terminal_init_loop TERMINAL_COUNT 0 v with
    ks := { (terminal_init_loop TERMINAL_COUNT 0 v).ks with curr_term := 0, sched_term := 0 } }

/-! ## terminal_read around its wait (terminal.c) -/

/-- The statements of `terminal_read` ahead of the wait for `enter_flag`, once
the arguments have passed the first test. -/
def terminal_read_begin (s : KState) : KState :=
  if s.ctrl_L_flag ≠ 0 then
    { s.set_term { s.terminal s.sched_term with
        internal_buffer :=
          memcpy (s.terminal s.sched_term).internal_buffer s.placeholder_buf MAX_BUFFER_SIZE
        buffer_index := s.placeholder_buf_index } with ctrl_L_flag := 0 }
  else s

/-- The statements of `terminal_read` after the wait for `enter_flag`: the
return value, the state and the buffer. -/
def terminal_read_end (s : KState) (buf : Nat → Nat) (nbytes : Int) :
    Int × KState × (Nat → Nat) :=
  let num_bytes_read := terminal_read_count nbytes (s.terminal s.sched_term).buffer_index 0
  (to_i32 (num_bytes_read + 1),
    s.set_term { s.terminal s.sched_term with
      internal_buffer := memset (s.terminal s.sched_term).internal_buffer 0 MAX_BUFFER_SIZE
      buffer_index := 0
      enter_flag := 0 },
    Function.update (memcpy buf (s.terminal s.sched_term).internal_buffer num_bytes_read)
      num_bytes_read NEWLINE)

/-! ## Keyboard (keyboard.c, keyboard.h) -/

/-- The macro `NUM_PRESSED_SCANCODES`. -/
abbrev NUM_PRESSED_SCANCODES : Nat := 0x58

/-- The macro `RELEASED_OFFSET`. -/
abbrev RELEASED_OFFSET : Nat := 0x80

/-- The macro `LEFT_CTRL`. -/
abbrev LEFT_CTRL : Nat := 0x1D

/-- The macro `LEFT_ALT`. -/
abbrev LEFT_ALT : Nat := 0x38

/-- The macro `LEFT_SHIFT`. -/
abbrev LEFT_SHIFT : Nat := 0x2A

/-- The macro `RIGHT_SHIFT`. -/
abbrev RIGHT_SHIFT : Nat := 0x36

/-- The macro `CAPS_LOCK`. -/
abbrev CAPS_LOCK : Nat := 0x3A

/-- The macro `ENTER`. -/
abbrev ENTER : Nat := 0x1C

/-- The macro `BACKSPACE`. -/
abbrev BACKSPACE : Nat := 0x0E

/-- The macro `TAB`. -/
abbrev TAB : Nat := 0x0F

/-- The macro `L_KEY`. -/
abbrev L_KEY : Nat := 0x26

/-- The macro `F_ONE`. -/
abbrev F_ONE : Nat := 0x3B

/-- The macro `F_TWO`. -/
abbrev F_TWO : Nat := 0x3C

/-- The macro `F_THREE`. -/
abbrev F_THREE : Nat := 0x3D

/-- The rows of the array `scancodes`: the character of a key alone, with Shift,
and with Caps Lock. -/
def scancodes_rows : List (Nat × Nat × Nat) :=
  [(0, 0, 0), (0, 0, 0), (49, 33, 49), (50, 64, 50), (51, 35, 51), (52, 36, 52), (53, 37, 53),
    (54, 94, 54), (55, 38, 55), (56, 42, 56), (57, 40, 57), (48, 41, 48), (45, 95, 45),
    (61, 43, 61), (0, 0, 0), (32, 32, 32), (113, 81, 81), (119, 87, 87), (101, 69, 69),
    (114, 82, 82), (116, 84, 84), (121, 89, 89), (117, 85, 85), (105, 73, 73), (111, 79, 79),
    (112, 80, 80), (91, 123, 91), (93, 125, 93), (0, 0, 0), (0, 0, 0), (97, 65, 65),
    (115, 83, 83), (100, 68, 68), (102, 70, 70), (103, 71, 71), (104, 72, 72), (106, 74, 74),
    (107, 75, 75), (108, 76, 76), (59, 58, 59), (39, 34, 39), (96, 126, 96), (0, 0, 0),
    (92, 124, 92), (122, 90, 90), (120, 88, 88), (99, 67, 67), (118, 86, 86), (98, 66, 66),
    (110, 78, 78), (109, 77, 77), (44, 60, 44), (46, 62, 46), (47, 63, 47), (0, 0, 0),
    (0, 0, 0), (0, 0, 0), (32, 32, 32), (0, 0, 0), (0, 0, 0), (0, 0, 0), (0, 0, 0), (0, 0, 0),
    (0, 0, 0), (0, 0, 0), (0, 0, 0), (0, 0, 0), (0, 0, 0), (0, 0, 0), (0, 0, 0), (0, 0, 0),
    (0, 0, 0), (0, 0, 0), (0, 0, 0), (0, 0, 0), (0, 0, 0), (0, 0, 0), (0, 0, 0), (0, 0, 0),
    (0, 0, 0), (0, 0, 0), (0, 0, 0), (0, 0, 0), (0, 0, 0), (0, 0, 0), (0, 0, 0), (0, 0, 0),
    (0, 0, 0)]

/-- The globals of the keyboard handler next to the kernel and the screen: the
four modifier flags, the bytes that follow the array `scancodes` in memory, and
the indices at which the handler has stored into `internal_buffer` so far. -/
structure kbd_t where
  vs : VState
  ctrl_flag : Nat
  alt_flag : Nat
  caps_flag : Nat
  shft_flag : Nat
  after_scancodes : Nat → Nat
  stores : List Nat

/-- The byte `scancodes[code][col]`; for a code of 0x58 or more it is read
behind the array. -/
def scancodes (k : kbd_t) (code col : Nat) : Nat :=
  if code < NUM_PRESSED_SCANCODES then
    match col with
    | 0 => (scancodes_rows.getD code (0, 0, 0)).1
    | 1 => (scancodes_rows.getD code (0, 0, 0)).2.1
    | _ => (scancodes_rows.getD code (0, 0, 0)).2.2
  else k.after_scancodes (3 * (code - NUM_PRESSED_SCANCODES) + col)

/-- The entry `terminal[curr_term]`. -/
def kbd_t.cur (k : kbd_t) : term_t :=
  k.vs.ks.terminal k.vs.ks.curr_term

/-- The state with the kernel globals replaced. -/
def kbd_t.set_ks (k : kbd_t) (s : KState) : kbd_t :=
  { k with vs := { k.vs with ks := s } }

/-- The state with `terminal[curr_term]` replaced. -/
def kbd_t.set_cur (k : kbd_t) (t : term_t) : kbd_t :=
  k.set_ks { k.vs.ks with terminal := Function.update k.vs.ks.terminal k.vs.ks.curr_term t }

/-- The function `init_keyboard()`, without the unmasking of the interrupt
line. -/
def init_keyboard (k : kbd_t) : kbd_t :=
  { k with ctrl_flag := 0, alt_flag := 0, caps_flag := 0, shft_flag := 0 }

/-- The guarded store of a character that ends `keyboard_intr_handler`:
`if (buffer_index < MAX_BUFFER_SIZE - 1) internal_buffer[buffer_index++] = c`.
Putting the character on the screen is not modelled. -/
def keyboard_store (k : kbd_t) (c : Nat) : kbd_t :=
  if k.cur.buffer_index < MAX_BUFFER_SIZE - 1 then
    { (k.set_cur { k.cur with
        internal_buffer := Function.update k.cur.internal_buffer k.cur.buffer_index c
        buffer_index := (k.cur.buffer_index + 1) % U32 }) with
      stores := k.stores ++ [k.cur.buffer_index] }
  else k

/-- The loop of four stores for Tab. The first argument is `4 - i`. -/
def keyboard_tab : Nat → kbd_t → Nat → kbd_t
  | 0, k, _ => k
  | remaining + 1, k, c => keyboard_tab remaining (keyboard_store k c) c

/-- The branch of `keyboard_intr_handler` for a release code, one above
`RELEASED_OFFSET`. -/
def keyboard_release (k : kbd_t) (keyboard_scancode : Nat) : kbd_t :=
  let k1 : kbd_t :=
    if keyboard_scancode - RELEASED_OFFSET = LEFT_SHIFT
        ∨ keyboard_scancode - RELEASED_OFFSET = RIGHT_SHIFT then
      { k with shft_flag := 0 }
    else k
  let k2 : kbd_t :=
    if keyboard_scancode - RELEASED_OFFSET = LEFT_CTRL then { k1 with ctrl_flag := 0 } else k1
  let k3 : kbd_t :=
    if keyboard_scancode - RELEASED_OFFSET = LEFT_ALT then { k2 with alt_flag := 0 } else k2
  if keyboard_scancode - RELEASED_OFFSET = ENTER then
    k3.set_cur { k3.cur with enter_flag := 0 }
  else k3

/-- The four statements of `keyboard_intr_handler` that update the modifier flags
on a key press. -/
def keyboard_modifiers (k : kbd_t) (keyboard_scancode : Nat) : kbd_t :=
  let k1 : kbd_t :=
    if keyboard_scancode = CAPS_LOCK then { k with caps_flag := k.caps_flag ^^^ 1 } else k
  let k2 : kbd_t :=
    if keyboard_scancode = LEFT_SHIFT ∨ keyboard_scancode = RIGHT_SHIFT then
      { k1 with shft_flag := 1 }
    else k1
  let k3 : kbd_t := if keyboard_scancode = LEFT_CTRL then { k2 with ctrl_flag := 1 } else k2
  if keyboard_scancode = LEFT_ALT then { k3 with alt_flag := 1 } else k3

/-- The function `keyboard_intr_handler()` for the scan code read from the data
port. The screen output (`keyboard_putc`, `clear`, `scroll`, `set_cursor` and the
two stores that blank a character for Backspace) is not modelled. -/
def keyboard_intr_handler (k : kbd_t) (keyboard_scancode : Nat) : kbd_t :=
  if keyboard_scancode > RELEASED_OFFSET then keyboard_release k keyboard_scancode
  else
    let k4 := keyboard_modifiers k keyboard_scancode
    let output_caps :=
      if k4.caps_flag ≠ 0 then scancodes k4 keyboard_scancode 2
      else scancodes k4 keyboard_scancode 0
    let keyboard_output :=
      if k4.shft_flag ≠ 0 then
        (if k4.caps_flag ≠ 0 then scancodes k4 keyboard_scancode 0
          else scancodes k4 keyboard_scancode 1)
      else output_caps
    if k4.ctrl_flag ≠ 0 ∧ keyboard_scancode = L_KEY then
      k4.set_ks
        { (k4.set_cur { k4.cur with
            internal_buffer := memset k4.cur.internal_buffer 0 MAX_BUFFER_SIZE
            enter_flag := 1 }).vs.ks with
          placeholder_buf := memcpy k4.vs.ks.placeholder_buf k4.cur.internal_buffer MAX_BUFFER_SIZE
          placeholder_buf_index := k4.cur.buffer_index
          ctrl_L_flag := 1 }
    else if k4.alt_flag ≠ 0 ∧ keyboard_scancode = F_ONE then
      { k4 with vs := terminal_switch k4.vs 0 }
    else if k4.alt_flag ≠ 0 ∧ keyboard_scancode = F_TWO then
      { k4 with vs := terminal_switch k4.vs 1 }
    else if k4.alt_flag ≠ 0 ∧ keyboard_scancode = F_THREE then
      { k4 with vs := terminal_switch k4.vs 2 }
    else if keyboard_scancode = ENTER then
      k4.set_cur { k4.cur with enter_flag := 1 }
    else
      let k5 : kbd_t :=
        if keyboard_scancode = BACKSPACE ∧ k4.cur.buffer_index ≠ 0 then
          { (k4.set_cur { k4.cur with
              internal_buffer := Function.update k4.cur.internal_buffer k4.cur.buffer_index SPACE
              buffer_index := k4.cur.buffer_index - 1 }) with
            stores := k4.stores ++ [k4.cur.buffer_index] }
        else k4
      if keyboard_output ≠ 0 then
        if keyboard_scancode = TAB then keyboard_tab 4 k5 keyboard_output
        else keyboard_store k5 keyboard_output
      else k5

/-! ## The claims in the words of the specification -/

/-- The file length stored in inode `inode`: the first word of its block. -/
def inode_length (fs : FileSystem) (inode : Nat) : Nat :=
  read_u32 fs.mem ((fs.inode_addr + inode * KBYTE_4) % U32)

/-- Entry `j` of the block-index list of inode `inode`: the word `j + 1` of its
block. -/
def block_entry (fs : FileSystem) (inode j : Nat) : Nat :=
  read_u32 fs.mem ((fs.inode_addr + inode * KBYTE_4 + BYTE_4 + j * BYTE_4) % U32)

/-- Byte `b` of data block number `block`. -/
def data_block_byte (fs : FileSystem) (block b : Nat) : Nat :=
  read_u8 fs.mem ((fs.data_addr + KBYTE_4 * block + b) % U32)

/-- The byte at position `pos` of the file of inode `inode`, found through the
block-index list. -/
def file_byte (fs : FileSystem) (inode pos : Nat) : Nat :=
  data_block_byte fs (block_entry fs inode (pos / KBYTE_4)) (pos % KBYTE_4)

/-- The characters of a NUL-terminated string. -/
def c_string (s : List Nat) : List Nat :=
  s.takeWhile (fun c => c != 0)

/-- The name of a dentry: at most 32 bytes, up to the first NUL. -/
def dentry_name (d : dentry_t) : List Nat :=
  c_string (file_name_field d)

/-- A list of bytes cut or NUL-padded to exactly `n` bytes. -/
def zero_pad (n : Nat) (s : List Nat) : List Nat :=
  (s ++ List.replicate n 0).take n

/-- The command without its leading spaces. -/
def spec_after_leading (command : List Nat) : List Nat :=
  (c_string command).dropWhile (fun c => c == SPACE)

/-- The run of non-space characters that follows the leading spaces. -/
def spec_run (command : List Nat) : List Nat :=
  (spec_after_leading command).takeWhile (fun c => c != SPACE)

/-- The file name the specification asks for: the run cut to 32 bytes. -/
def spec_filename (command : List Nat) : List Nat :=
  zero_pad FILE_NAME_CHAR ((spec_run command).take FILE_NAME_CHAR)

/-- The remainder of the command once the bytes stored in the file name and the
spaces that follow them are skipped, cut to 128 bytes. -/
def spec_args (command : List Nat) : List Nat :=
  zero_pad MAX_BUFFER_SIZE
    ((((spec_after_leading command).drop ((spec_run command).take FILE_NAME_CHAR).length).dropWhile
      (fun c => c == SPACE)).take MAX_BUFFER_SIZE)

/-- The arguments when the whole run is taken as the file name: what follows the
run and the spaces after it, cut to 128 bytes. -/
def spec_args_after_run (command : List Nat) : List Nat :=
  zero_pad MAX_BUFFER_SIZE
    ((((spec_after_leading command).dropWhile (fun c => c != SPACE)).dropWhile
      (fun c => c == SPACE)).take MAX_BUFFER_SIZE)

/-- The outcome of `n` successive calls `read_directory(buf, 32)` on the same
buffer: for each call the returned count with the bytes it delivered (the
first `count` bytes of the buffer after the call), then the globals and the
buffer after the last call. -/
def read_directory_calls :
    Nat → FileSystem → (Nat → Nat) → List (Nat × List Nat) × FileSystem × (Nat → Nat)
  | 0, fs, buf => ([], fs, buf)
  | n + 1, fs, buf =>
    let r := read_directory fs buf BYTE_32
    let rest := read_directory_calls n r.2.2 r.2.1
    ((r.1, array_bytes r.2.1 r.1) :: rest.1, rest.2)

/-- What a pass over the directory is to deliver: for each dentry below
`num_dentries`, in image order, the length of its name and its name. -/
def directory_names (fs : FileSystem) : List (Nat × List Nat) :=
  (List.range fs.num_dentries).map
    (fun i => ((dentry_name (fs.dentries i)).length, dentry_name (fs.dentries i)))

/-- The address of the PCB of pid `p`: `KERNEL_END - (p + 1) * 8 KiB`. -/
def pcb_addr (p : Nat) : Nat :=
  KERNEL_MEM_END - (p + 1) * _8KB_

/-- The operations table that `open` is to bind for a file type 0, 1 or 2. -/
def ops_of_type (t : Nat) : fops_t :=
  if t = RTC_TYPE then rtc_ops_table
  else if t = DIR_TYPE then directory_ops_table
  else file_ops_table

/-- A table that `open` installs for a file type 0, 1 or 2. -/
def bound_by_open (o : fops_t) : Prop :=
  ∃ t, t ≤ 2 ∧ o = ops_of_type t

/-- The shape of a descriptor table during the life of a PCB: slots 0 and 1 are
in use and bound to the terminal operations; a slot from 2 to 7 either has never
been opened (null operations, not in use) or carries a table installed by
`open`. -/
def fd_table_ok (p : pcb_t) : Prop :=
  (p.fd_array 0).flags ≠ 0 ∧ (p.fd_array 0).file_operations_table_ptr = terminal_ops_table ∧
  (p.fd_array 1).flags ≠ 0 ∧ (p.fd_array 1).file_operations_table_ptr = terminal_ops_table ∧
  ∀ j, 2 ≤ j → j < FD_ARRAY_SIZE →
    ((p.fd_array j).file_operations_table_ptr = null_ops_table ∧ (p.fd_array j).flags = 0) ∨
    bound_by_open (p.fd_array j).file_operations_table_ptr

/-- A call of one of the four descriptor system calls, with its arguments. -/
inductive syscall where
  | sys_open (name : List Nat)
  | sys_read (fd : Int) (buf_addr : Nat) (buf : Nat → Nat) (nbytes : Int) (kbd : kbd_line)
  | sys_write (fd : Int) (buf_addr : Nat) (buf : Nat → Nat) (nbytes : Int)
  | sys_close (fd : Int)

/-- The state after one system call; `none` when it leaves the model. -/
def syscall_step (s : KState) : syscall → Option KState
  | syscall.sys_open name => (open_syscall s name).map (fun r => r.2)
  | syscall.sys_read fd buf_addr buf nbytes kbd =>
    (read s fd buf_addr buf nbytes kbd).map (fun r => r.2.1)
  | syscall.sys_write fd buf_addr buf nbytes =>
    (write s fd buf_addr buf nbytes).map (fun r => r.2)
  | syscall.sys_close fd => (close s fd).map (fun r => r.2)

/-- The state after a sequence of system calls of the running process. -/
def syscall_run : KState → List syscall → Option KState
  | s, [] => some s
  | s, c :: cs =>
    match syscall_step s c with
    | none => none
    | some s1 => syscall_run s1 cs

/-- Two states with the same running process whose descriptor slots have the
same flags and operation tables. -/
def same_bindings (s s1 : KState) : Prop :=
  s1.sched_term = s.sched_term ∧
  (s1.terminal s1.sched_term).curr_pcb = (s.terminal s.sched_term).curr_pcb ∧
  ∀ j, (s1.cur.fd_array j).flags = (s.cur.fd_array j).flags ∧
    (s1.cur.fd_array j).file_operations_table_ptr = (s.cur.fd_array j).file_operations_table_ptr

/-- Two states with the same running process: the same scheduled terminal and
the same `curr_pcb` on it. -/
def same_process (s s1 : KState) : Prop :=
  s1.sched_term = s.sched_term ∧
  (s1.terminal s1.sched_term).curr_pcb = (s.terminal s.sched_term).curr_pcb

/-- The pointer reached from `ptr` by following `parent_pcb` `k` times; `NULL`
is followed by `NULL`. -/
def follow_parent (s : KState) : Nat → Nat → Nat
  | 0, ptr => ptr
  | k + 1, ptr => if ptr = 0 then 0 else follow_parent s k (s.pcb_mem ptr).parent_pcb

/-- A live PCB: one reachable from the `curr_pcb` of a terminal through parent
links. -/
def live_pcb (s : KState) (q : Nat) : Prop :=
  q ≠ 0 ∧ ∃ t, t < TERMINAL_COUNT ∧ ∃ k, follow_parent s k (s.terminal t).curr_pcb = q

/-- The parent chain that starts at `ptr` consists of the PCBs of the pids
listed, each at the address of its pid, and ends with `NULL`. -/
def is_chain (s : KState) : Nat → List Nat → Prop
  | ptr, [] => ptr = 0
  | ptr, p :: rest =>
    ptr = pcb_addr p ∧ p < MAX_PROC ∧ (s.pcb_mem ptr).pid = p ∧
      is_chain s (s.pcb_mem ptr).parent_pcb rest

/-- The pids of the chains of the three terminals. -/
def all_pids (c : Nat → List Nat) : List Nat :=
  c 0 ++ c 1 ++ c 2

/-- The bookkeeping of processes: the chain of each terminal is `c t`, no pid
occurs twice, and `pid_array` marks exactly the pids of the chains. -/
structure kinv (s : KState) (c : Nat → List Nat) : Prop where
  sched : s.sched_term < TERMINAL_COUNT
  chains : ∀ t, t < TERMINAL_COUNT → is_chain s (s.terminal t).curr_pcb (c t)
  nodup : (all_pids c).Nodup
  present : ∀ p, p < MAX_PROC → (s.pid_array p = 1 ↔ p ∈ all_pids c)
  bits : ∀ p, p < MAX_PROC → s.pid_array p = 0 ∨ s.pid_array p = 1

/-- Two states with the same `pid_array`, the same `curr_pcb` on every terminal
and the same `pid` and `parent_pcb` in every PCB. -/
def same_tree (s s1 : KState) : Prop :=
  s1.pid_array = s.pid_array ∧
  (∀ t, (s1.terminal t).curr_pcb = (s.terminal t).curr_pcb) ∧
  ∀ a, (s1.pcb_mem a).pid = (s.pcb_mem a).pid ∧
    (s1.pcb_mem a).parent_pcb = (s.pcb_mem a).parent_pcb

/-- The argument string that `execute_parse_args` extracts from the command is
NUL-terminated within its 128 bytes. -/
def args_fit (command : List Nat) : Prop :=
  strlen (array_bytes (execute_parse_args (fun _ => 0) (fun _ => 0) command).2 MAX_BUFFER_SIZE)
    < MAX_BUFFER_SIZE

instance (command : List Nat) : Decidable (args_fit command) := by
  unfold args_fit; infer_instance

/-- A step whose command, if it has one, satisfies `args_fit`. -/
def event_fits : kevent → Prop
  | kevent.execute command _ _ => args_fit command
  | _ => True

/-- A state before the first `execute`: no pid in use, no terminal with a
process, terminal 0 scheduled. -/
def is_boot (s : KState) : Prop :=
  s.sched_term = 0 ∧ (∀ p, p < MAX_PROC → s.pid_array p = 0) ∧
  ∀ t, t < TERMINAL_COUNT → (s.terminal t).curr_pcb = 0

instance (e : kevent) : Decidable (event_fits e) := by
  cases e <;> unfold event_fits <;> infer_instance

/-- A command "shell" followed by 128 letters `b`. -/
def long_command : List Nat :=
  ascii "shell " ++ List.replicate 128 98

/-- The divisor that a sequence of port writes loads into channel 0 of the PIT:
the first byte written to port 0x40 is the low byte, the second the high byte. -/
def channel0_divisor (log : List (Nat × Nat)) : Option Nat :=
  match (log.filter (fun w => w.1 = CHANNEL0)).map (fun w => w.2) with
  | [low, high] => some (low + 256 * high)
  | _ => none

/-- An integer that is a power of two. -/
def power_of_two (f : Int) : Prop :=
  ∃ k : Nat, f = 2 ^ k

/-- A table entry with the present bit set. -/
def entry_present (e : Nat) : Prop :=
  e &&& PRESENT ≠ 0

/-- The address of the backing page of terminal `i`: `0xB8000 + (i + 1) * 4096`. -/
def backing_page (i : Nat) : Nat :=
  0xB8000 + (i + 1) * 4096

/-- The call `read(fd, buf, n)` repeated until it returns 0 or less, at most
`fuel` times: the values returned, in order, the byte that each call left at
index 0 of its buffer, and the state at the end. -/
def read_repeat : Nat → KState → Int → Int → Option (List (Int × Nat) × KState)
  | 0, s, _, _ => some ([], s)
  | fuel + 1, s, fd, n =>
    match read s fd 1 (fun _ => 0) n ⟨fun _ => 0, 0⟩ with
    | none => none
    | some r =>
      if r.1 ≤ 0 then some ([(r.1, r.2.2 0)], r.2.1)
      else (read_repeat fuel r.2.1 fd n).map (fun x => ((r.1, r.2.2 0) :: x.1, x.2))

/-- The steps that touch the line buffers: a scan code delivered to
`keyboard_intr_handler`, the part of a `terminal_read` call ahead of its wait,
the part after the wait, and a step of the kernel (`execute`, `halt`, timer
tick). -/
inductive kbd_event where
  | key (scancode : Nat)
  | read_begin (buf_addr : Nat) (nbytes : Int)
  | read_end (buf : Nat → Nat) (nbytes : Int)
  | kernel (e : kevent)

/-- One step; `none` when it cannot be taken: `terminal_read` leaves its wait
only once `enter_flag` is set, and a kernel step may leave the model. -/
def kbd_step (k : kbd_t) : kbd_event → Option kbd_t
  | kbd_event.key scancode => some (keyboard_intr_handler k (scancode % 256))
  | kbd_event.read_begin buf_addr nbytes =>
    if buf_addr = 0 ∨ nbytes < 0 then some k
    else some (k.set_ks (terminal_read_begin k.vs.ks))
  | kbd_event.read_end buf nbytes =>
    if (k.vs.ks.terminal k.vs.ks.sched_term).enter_flag = 0 then none
    else some (k.set_ks (terminal_read_end k.vs.ks buf nbytes).2.1)
  | kbd_event.kernel e => (kstep k.vs.ks e).map k.set_ks

/-- A run of steps. -/
def kbd_run : kbd_t → List kbd_event → Option kbd_t
  | k, [] => some k
  | k, e :: es =>
    match kbd_step k e with
    | none => none
    | some k1 => kbd_run k1 es

/-- The bound on the line buffers: the foreground terminal is one of the three,
each of them has `buffer_index` at most 127, so has `placeholder_buf_index`, and
every store of the keyboard handler was at an index below 128. -/
def kbd_inv (k : kbd_t) : Prop :=
  k.vs.ks.curr_term < TERMINAL_COUNT ∧
  (∀ t, t < TERMINAL_COUNT → (k.vs.ks.terminal t).buffer_index ≤ 127) ∧
  k.vs.ks.placeholder_buf_index ≤ 127 ∧
  ∀ i ∈ k.stores, i < MAX_BUFFER_SIZE

/-- A state just after `terminal_init`, with the global `placeholder_buf_index`
still at its initial value 0 and no store made by the keyboard handler. -/
def is_kbd_boot (k : kbd_t) : Prop :=
  (∃ v, k.vs = terminal_init v) ∧ k.vs.ks.placeholder_buf_index = 0 ∧ k.stores = []

/-- Two kernel states with the same foreground terminal and the same
`placeholder_buf_index`, where each `buffer_index` is as before or 0. -/
def same_lines (s s1 : KState) : Prop :=
  s1.curr_term = s.curr_term ∧ s1.placeholder_buf_index = s.placeholder_buf_index ∧
  ∀ t, (s1.terminal t).buffer_index = (s.terminal t).buffer_index ∨
    (s1.terminal t).buffer_index = 0

/-- A small image for concrete evaluation: one inode at address 4096 whose
length word is 5 and whose block list starts with block 0, data blocks from
address 8192, every data byte equal to 7; one dentry named ".". -/
def sampleFS : FileSystem where
  mem := fun a => if a = 4096 then 5 else if a < 8192 then 0 else 7
  inode_addr := 4096
  data_addr := 8192
  dentries := fun _ => { file_name := [46], file_type := 1, inode_num := 0, reserved := [] }
  num_dentries := 1
  num_inodes := 1
  num_data := 1
  dentries_read := 0

/-- A second image for concrete evaluation: one inode at address 4096 with
length 5000 (bytes 136, 19, 0, 0) whose block list is 1, 0; data blocks from
address 8192, the data byte at address `a` being `a % 251`. -/
def twoBlockFS : FileSystem where
  mem := fun a =>
    if a = 4096 then 136 else if a = 4097 then 19 else if a = 4100 then 1
    else if a < 8192 then 0 else a % 251
  inode_addr := 4096
  data_addr := 8192
  dentries := fun _ => { file_name := [46], file_type := 1, inode_num := 0, reserved := [] }
  num_dentries := 1
  num_inodes := 1
  num_data := 2
  dentries_read := 0

/-- A directory for concrete evaluation: three dentries, the last with a name
that fills the 32-byte field. -/
def dirFS : FileSystem where
  mem := fun _ => 0
  inode_addr := 4096
  data_addr := 8192
  dentries := fun i =>
    if i = 0 then { file_name := ascii ".", file_type := 1, inode_num := 0, reserved := [] }
    else if i = 1 then
      { file_name := ascii "frame0.txt", file_type := 2, inode_num := 1, reserved := [] }
    else
      { file_name := ascii "verylargetextwithverylongname.tx", file_type := 2,
        inode_num := 2, reserved := [] }
  num_dentries := 3
  num_inodes := 3
  num_data := 0
  dentries_read := 0

/-- An image with an executable: dentry 0 is the directory "." (inode 0),
dentries 1 and 2 are the regular files "shell" and "counter" (both inode 1).
Inodes start at address 4096, data blocks at 12288; inode 1 has length 30 and
block list 0; data block 0 starts with the bytes 0x7F, 'E', 'L', 'F'. -/
def shellFS : FileSystem where
  mem := fun a =>
    if a = 8192 then 30 else if a = 12288 then 127 else if a = 12289 then 69
    else if a = 12290 then 76 else if a = 12291 then 70 else 0
  inode_addr := 4096
  data_addr := 12288
  dentries := fun i =>
    if i = 0 then { file_name := ascii ".", file_type := 1, inode_num := 0, reserved := [] }
    else if i = 1 then
      { file_name := ascii "shell", file_type := 2, inode_num := 1, reserved := [] }
    else { file_name := ascii "counter", file_type := 2, inode_num := 1, reserved := [] }
  num_dentries := 3
  num_inodes := 2
  num_data := 1
  dentries_read := 0

/-- The image `shellFS` with the length of inode 1 set to 3: the file "shell"
then consists of the bytes 0x7F, 'E', 'L', and the 'F' in its data block lies
past its end. -/
def shortElfFS : FileSystem :=
  { shellFS with mem := fun a => if a = 8192 then 3 else shellFS.mem a }

/-- A PCB-sized piece of memory that holds zeros. -/
def zero_pcb : pcb_t where
  fd_array := fun _ => ⟨null_ops_table, 0, 0, 0⟩
  args := fun _ => 0
  pid := 0
  parent_pcb := 0
  esp := 0
  ebp := 0
  terminal_id := 0

/-- The kernel globals on a filesystem image before the first `execute`: no pid
in use, the terminals as `terminal_init` leaves them, zeros elsewhere. -/
def boot_state (fs : FileSystem) : KState where
  fs := fs
  pid_array := fun _ => 0
  pcb_mem := fun _ => zero_pcb
  terminal := fun _ => ⟨fun _ => 0, 0, 0, 0, 0, 0, 0⟩
  curr_term := 0
  sched_term := 0
  exception_flag := 0
  page_directory := fun _ => 0
  user_video_page_table := fun _ => 0
  tss_ss0 := 0
  tss_esp0 := 0
  ctrl_L_flag := 0
  placeholder_buf := fun _ => 0
  placeholder_buf_index := 0

/-- The state once `execute("shell")` has started the first process on the
image `shellFS`. -/
def shell_running : KState :=
  (execute (boot_state shellFS) (some (ascii "shell")) 0 0).2

/-- The state `shell_running` after `open` on the name given. -/
def after_open (name : List Nat) : KState :=
  match open_syscall shell_running name with
  | some r => r.2
  | none => shell_running

/-- A run on three terminals: the first shell, three ticks that start the shells
of terminals 1 and 2 and come back to terminal 0, a second shell on terminal 0
(pid 3) and on terminal 1 (pid 4), two ticks back to terminal 0, whose second
shell halts, a tick to terminal 1, whose second shell starts a child. -/
def tick_trace : List kevent :=
  [kevent.execute (ascii "shell") 0 0, kevent.tick 0 0, kevent.tick 0 0,
    kevent.tick 0 0, kevent.execute (ascii "shell") 0 0, kevent.tick 0 0,
    kevent.execute (ascii "shell") 0 0, kevent.tick 0 0, kevent.tick 0 0,
    kevent.halt 0, kevent.tick 0 0, kevent.execute (ascii "shell") 0 0]

/-- The state after `tick_trace` from boot on the image `shellFS`. -/
def tick_state : KState :=
  (krun (boot_state shellFS) tick_trace).getD (boot_state shellFS)

/-- A keyboard line that is empty when Enter is seen. -/
def empty_line : kbd_line :=
  ⟨fun _ => 0, 0⟩

/-- The screen after `terminal_init` on the boot state of the image `shellFS`,
with some bytes in memory and interrupts enabled. -/
def boot_screen : VState :=
  terminal_init ⟨boot_state shellFS, fun a => a % 251, fun _ => 0, 1⟩

/-- The state after three nested `execute("shell")` on terminal 0 of the image
`shellFS`: pids 0, 1 and 2, the last one running. -/
def three_shells : KState :=
  (krun (boot_state shellFS)
    [kevent.execute (ascii "shell") 0 0, kevent.execute (ascii "shell") 0 0,
      kevent.execute (ascii "shell") 0 0]).getD (boot_state shellFS)

/-- A line of 127 letters `a` at the moment Enter is seen. -/
def full_line : kbd_line :=
  ⟨fun _ => 97, 127⟩

/-- The keyboard state after `terminal_init` and `init_keyboard` on
`boot_screen`. -/
def boot_kbd : kbd_t :=
  init_keyboard ⟨boot_screen, 0, 0, 0, 0, fun _ => 0, []⟩

/-- A run of the keyboard: the first shell is started, 130 presses of the key
`a`, Tab, Backspace, Ctrl+L, Enter, a `terminal_read` of 10 bytes that begins and
ends, and one more `a`. -/
def kbd_trace : List kbd_event :=
  [kbd_event.kernel (kevent.execute (ascii "shell") 0 0)]
    ++ List.replicate 130 (kbd_event.key 0x1E)
    ++ [kbd_event.key TAB, kbd_event.key BACKSPACE, kbd_event.key LEFT_CTRL,
      kbd_event.key L_KEY, kbd_event.key (LEFT_CTRL + RELEASED_OFFSET), kbd_event.key ENTER,
      kbd_event.read_begin 1 10, kbd_event.read_end (fun _ => 0) 10, kbd_event.key 0x1E]

/-- The state after `kbd_trace` from `boot_kbd`. -/
def kbd_trace_state : kbd_t :=
  (kbd_run boot_kbd kbd_trace).getD boot_kbd

/-! ## Theorems -/

/-! ### read_data -/

theorem read_data_loop_count (fs : FileSystem) (cia offset L start : Nat)
    (hL : L + 1 < U32) :
    ∀ (rem br cba nbi bo : Nat) (buf : Nat → Nat), br + offset ≤ L + 1 →
      (read_data_loop fs cia offset L start rem br cba nbi bo buf).1
        = min (br + rem) (L + 1 - offset) := by
  intro rem
  induction rem with
  | zero =>
    intro br cba nbi bo buf h
    simp only [read_data_loop]
    omega
  | succ n ih =>
    intro br cba nbi bo buf h
    simp only [read_data_loop]
    split_ifs with h1 h2
    · simp only [U32] at *
      omega
    · simp only [U32] at *
      rw [ih _ _ _ _ _ (by omega)]
      omega
    · simp only [U32] at *
      rw [ih _ _ _ _ _ (by omega)]
      omega

/-- The count returned by `read_data` on a valid inode and an offset within
the file: the guard of the loop lets position `L` itself through. -/
theorem read_data_count (fs : FileSystem) (inode offset length : Nat) (buf : Nat → Nat)
    (hi : inode < fs.num_inodes) (ho : offset ≤ inode_length fs inode)
    (hL : inode_length fs inode + 1 < U32) :
    (read_data fs inode offset buf length).1
      = min length (inode_length fs inode + 1 - offset) := by
  unfold read_data
  simp only [inode_length] at *
  rw [if_neg (by omega), if_neg (by omega)]
  rw [read_data_loop_count fs _ _ _ _ hL _ _ _ _ _ _ (by omega)]
  omega

theorem read_u8_congr (mem : Nat → Nat) (a b : Nat) (h : a % U32 = b % U32) :
    read_u8 mem a = read_u8 mem b := by
  unfold read_u8
  rw [h]

theorem read_data_loop_bytes (fs : FileSystem) (inode offset L : Nat) :
    ∀ (rem br cba nbi bo : Nat) (buf : Nat → Nat),
      bo = (offset + (br - 1)) % U32 / KBYTE_4 →
      offset / KBYTE_4 + nbi = (offset + (br - 1)) / KBYTE_4 + 1 →
      cba = (fs.data_addr
        + KBYTE_4 * block_entry fs inode ((offset + (br - 1)) / KBYTE_4)) % U32 →
      br ≤ (read_data_loop fs ((fs.inode_addr + inode * KBYTE_4) % U32) offset L
          (offset / KBYTE_4) rem br cba nbi bo buf).1 ∧
      (∀ i, i < br →
        (read_data_loop fs ((fs.inode_addr + inode * KBYTE_4) % U32) offset L
          (offset / KBYTE_4) rem br cba nbi bo buf).2 i = buf i) ∧
      (∀ i, br ≤ i →
        i < (read_data_loop fs ((fs.inode_addr + inode * KBYTE_4) % U32) offset L
          (offset / KBYTE_4) rem br cba nbi bo buf).1 →
        (read_data_loop fs ((fs.inode_addr + inode * KBYTE_4) % U32) offset L
          (offset / KBYTE_4) rem br cba nbi bo buf).2 i = file_byte fs inode (offset + i)) := by
  intro rem
  induction rem with
  | zero =>
    intro br cba nbi bo buf _ _ _
    rw [read_data_loop]
    exact ⟨le_refl _, fun i _ => rfl, fun i h1 h2 => absurd h2 (by simpa using h1)⟩
  | succ n ih =>
    intro br cba nbi bo buf hbo hnbi hcba
    simp only [read_data_loop]
    split_ifs with h1 h2
    · refine ⟨le_refl _, fun i _ => rfl, fun i h1 h2 => ?_⟩
      simp only at h2
      omega
    · -- the read moves to the next data block
      have hq : (offset + br) / KBYTE_4 = (offset + (br - 1)) / KBYTE_4 + 1 := by
        simp only [U32, KBYTE_4] at *
        omega
      have hentry : read_u32 fs.mem (((fs.inode_addr + inode * KBYTE_4) % U32 + BYTE_4
          + (offset / KBYTE_4 + nbi) * BYTE_4) % U32)
          = block_entry fs inode ((offset + br) / KBYTE_4) := by
        unfold block_entry
        congr 1
        simp only [U32, KBYTE_4, BYTE_4] at *
        omega
      rw [hentry]
      have hstep := ih (br + 1)
        ((fs.data_addr + KBYTE_4 * block_entry fs inode ((offset + br) / KBYTE_4)) % U32)
        (nbi + 1) ((offset + br) % U32 / KBYTE_4)
        (Function.update buf br (read_u8 fs.mem
          (((fs.data_addr + KBYTE_4 * block_entry fs inode ((offset + br) / KBYTE_4)) % U32
            + (offset + br) % U32 % KBYTE_4) % U32)))
        (by simp) (by simp only [Nat.add_sub_cancel]; omega) (by simp)
      obtain ⟨g1, g2, g3⟩ := hstep
      refine ⟨by omega, fun i hi => ?_, fun i hi1 hi2 => ?_⟩
      · rw [g2 i (by omega), Function.update_noteq (by omega)]
      · rcases Nat.eq_or_lt_of_le hi1 with heq | hlt
        · subst heq
          rw [g2 br (by omega), Function.update_same]
          unfold file_byte data_block_byte
          apply read_u8_congr
          generalize block_entry fs inode ((offset + br) / KBYTE_4) = e
          simp only [U32, KBYTE_4] at *
          omega
        · exact g3 i (by omega) hi2
    · -- the read stays in the current data block
      have hq : (offset + br) / KBYTE_4 = (offset + (br - 1)) / KBYTE_4 := by
        simp only [U32, KBYTE_4] at *
        omega
      have hstep := ih (br + 1) cba nbi bo
        (Function.update buf br (read_u8 fs.mem
          ((cba + (offset + br) % U32 % KBYTE_4) % U32)))
        (by simp only [Nat.add_sub_cancel]; simp only [U32, KBYTE_4] at *; omega)
        (by simp only [Nat.add_sub_cancel]; omega)
        (by simp only [Nat.add_sub_cancel]; rw [hq]; exact hcba)
      obtain ⟨g1, g2, g3⟩ := hstep
      refine ⟨by omega, fun i hi => ?_, fun i hi1 hi2 => ?_⟩
      · rw [g2 i (by omega), Function.update_noteq (by omega)]
      · rcases Nat.eq_or_lt_of_le hi1 with heq | hlt
        · subst heq
          rw [g2 br (by omega), Function.update_same]
          unfold file_byte data_block_byte
          apply read_u8_congr
          rw [hq, hcba]
          generalize block_entry fs inode ((offset + (br - 1)) / KBYTE_4) = e
          simp only [U32, KBYTE_4] at *
          omega
        · exact g3 i (by omega) hi2

/-- Claim C1: `read_data` should return `min(k, L - o)` and copy no byte at or
past file position `L`. On the image `sampleFS` inode 0 has length 5, and a read
of 10 bytes at offset 0 returns 6: the loop also hands out the byte at file
position 5 (here 7, into a buffer that held 0). -/
theorem read_data_past_end_of_file (buf : Nat → Nat) :
    0 < sampleFS.num_inodes ∧ inode_length sampleFS 0 = 5 ∧
      (read_data sampleFS 0 0 buf 10).1 = 6 ∧
      (read_data sampleFS 0 0 buf 10).1 ≠ min 10 (inode_length sampleFS 0 - 0) ∧
      (read_data sampleFS 0 0 (fun _ => 0) 10).2 5 = 7 := by
  have hlen : inode_length sampleFS 0 = 5 := by decide
  have hcount := read_data_count sampleFS 0 0 10 buf (by decide) (by decide) (by decide)
  rw [hlen] at hcount
  refine ⟨by decide, hlen, ?_, ?_, by decide⟩
  · rw [hcount]
    decide
  · rw [hcount, hlen]
    decide

/-- Claim C2: after `read_data(inode, 0, buf, L)` a read at offset `L` should
return 0. On the image `sampleFS`, whose inode 0 has length 5, the read of one
byte at offset 5 returns 1, whatever the buffer holds. -/
theorem read_data_at_length_returns_one (buf : Nat → Nat) :
    inode_length sampleFS 0 = 5 ∧
      (read_data sampleFS 0 5 (read_data sampleFS 0 0 buf 5).2 1).1 = 1 := by
  have hlen : inode_length sampleFS 0 = 5 := by decide
  refine ⟨hlen, ?_⟩
  rw [read_data_count sampleFS 0 5 1 _ (by decide) (by decide) (by decide), hlen]
  decide

/-- Claim C3: `read_data` returns 0 and leaves the buffer as it was when the
inode number is not below `num_inodes`, and when the inode is valid but the
offset is greater than the file length stored in it. -/
theorem read_data_rejects (fs : FileSystem) (inode offset length : Nat) (buf : Nat → Nat)
    (h : fs.num_inodes ≤ inode ∨ (inode < fs.num_inodes ∧ inode_length fs inode < offset)) :
    read_data fs inode offset buf length = (0, buf) := by
  unfold read_data
  rcases h with h | ⟨h1, h2⟩
  · rw [if_pos h]
  · rw [if_neg (by omega)]
    unfold inode_length at h2
    rw [if_pos h2]

theorem read_data_rejects_witness :
    (sampleFS.num_inodes ≤ 0 ∨ (0 < sampleFS.num_inodes ∧ inode_length sampleFS 0 < 6)) ∧
      read_data sampleFS 0 6 (fun _ => 9) 10 = (0, fun _ => 9) :=
  ⟨Or.inr ⟨by decide, by decide⟩,
    read_data_rejects sampleFS 0 6 10 (fun _ => 9) (Or.inr ⟨by decide, by decide⟩)⟩

/-- Claim C4: for a valid inode, every byte `i` below the count returned by
`read_data(inode, o, buf, k)` is byte `(o + i) mod 4096` of the data block whose
number is entry `(o + i) / 4096` of the inode's block-index list, wherever the
read starts and however many block boundaries it crosses. -/
theorem read_data_bytes (fs : FileSystem) (inode offset length : Nat) (buf : Nat → Nat)
    (hi : inode < fs.num_inodes) (ho : offset < U32) (i : Nat)
    (h : i < (read_data fs inode offset buf length).1) :
    (read_data fs inode offset buf length).2 i
      = data_block_byte fs (block_entry fs inode ((offset + i) / KBYTE_4))
          ((offset + i) % KBYTE_4) := by
  have key : ∀ j, j < (read_data fs inode offset buf length).1 →
      (read_data fs inode offset buf length).2 j = file_byte fs inode (offset + j) := by
    unfold read_data
    rw [if_neg (by omega)]
    dsimp only
    split_ifs with h2
    · intro j hj
      exact absurd hj (by simp)
    · intro j hj
      have hentry : read_u32 fs.mem (((fs.inode_addr + inode * KBYTE_4) % U32
          + (offset / KBYTE_4 + 1) * BYTE_4) % U32)
          = block_entry fs inode ((offset + (0 - 1)) / KBYTE_4) := by
        unfold block_entry
        congr 1
        simp only [U32, KBYTE_4, BYTE_4] at *
        omega
      have hloop := read_data_loop_bytes fs inode offset
        (read_u32 fs.mem ((fs.inode_addr + inode * KBYTE_4) % U32)) length 0
        ((fs.data_addr + KBYTE_4 * read_u32 fs.mem (((fs.inode_addr + inode * KBYTE_4) % U32
          + (offset / KBYTE_4 + 1) * BYTE_4) % U32)) % U32) 1 (offset / KBYTE_4) buf
        (by simp only [U32, KBYTE_4] at *; omega) (by simp) (by rw [hentry])
      exact hloop.2.2 j (Nat.zero_le j) hj
  exact key i h

theorem read_data_bytes_witness :
    0 < twoBlockFS.num_inodes ∧ 4090 < U32 ∧
      7 < (read_data twoBlockFS 0 4090 (fun _ => 0) 10).1 ∧
      (read_data twoBlockFS 0 4090 (fun _ => 0) 10).2 7
        = data_block_byte twoBlockFS (block_entry twoBlockFS 0 ((4090 + 7) / KBYTE_4))
            ((4090 + 7) % KBYTE_4) :=
  ⟨by decide, by decide, by decide,
    read_data_bytes twoBlockFS 0 4090 10 (fun _ => 0) (by decide) (by decide) 7 (by decide)⟩

/-! ### Strings -/

theorem strlen_le_length (s : List Nat) : strlen s ≤ s.length := by
  induction s with
  | nil => simp [strlen]
  | cons c s ih =>
    simp only [strlen, List.length_cons]
    split_ifs <;> omega

theorem strlen_getD_ne (s : List Nat) : ∀ i, i < strlen s → s.getD i 0 ≠ 0 := by
  induction s with
  | nil => intro i h; simp [strlen] at h
  | cons c s ih =>
    intro i h
    simp only [strlen] at h
    split_ifs at h with hc
    · omega
    · cases i with
      | zero => simpa using hc
      | succ j =>
        simp only [List.getD_cons_succ]
        exact ih j (by omega)

theorem getD_strlen (s : List Nat) : s.getD (strlen s) 0 = 0 := by
  induction s with
  | nil => simp [strlen]
  | cons c s ih =>
    simp only [strlen]
    split_ifs with hc
    · simpa using hc
    · simpa using ih

theorem strlen_append_ge (s t : List Nat) : strlen s ≤ strlen (s ++ t) := by
  induction s with
  | nil => simp [strlen]
  | cons c s ih =>
    rw [List.cons_append]
    simp only [strlen]
    split_ifs <;> omega

theorem c_string_length (s : List Nat) : (c_string s).length = strlen s := by
  induction s with
  | nil => simp [c_string, strlen]
  | cons c s ih =>
    unfold c_string at *
    by_cases hc : c = 0
    · simp [strlen, hc, List.takeWhile_cons]
    · simp [strlen, hc, List.takeWhile_cons, ih]

theorem c_string_congr (a : List Nat) :
    ∀ b : List Nat, (∀ i, i ≤ strlen a → a.getD i 0 = b.getD i 0) → c_string a = c_string b := by
  induction a with
  | nil =>
    intro b h
    have h0 := h 0 (Nat.zero_le _)
    cases b with
    | nil => rfl
    | cons y b =>
      have hy : y = 0 := by simpa using h0.symm
      simp [c_string, hy, List.takeWhile_cons]
  | cons x a ih =>
    intro b h
    by_cases hx : x = 0
    · have h0 := h 0 (Nat.zero_le _)
      cases b with
      | nil => simp [c_string, hx, List.takeWhile_cons]
      | cons y b =>
        have hy : y = 0 := by
          have := h0.symm
          simp only [List.getD_cons_zero] at this
          omega
        simp [c_string, hx, hy, List.takeWhile_cons]
    · have hlen : strlen (x :: a) = strlen a + 1 := by simp [strlen, hx]
      have h0 := h 0 (Nat.zero_le _)
      cases b with
      | nil =>
        simp only [List.getD_cons_zero, List.getD_nil] at h0
        exact absurd h0 hx
      | cons y b =>
        have hy : x = y := by simpa using h0
        subst hy
        have hrec := ih b (fun i hi => by
          have := h (i + 1) (by omega)
          simpa using this)
        unfold c_string at *
        simp [List.takeWhile_cons, hx, hrec]

/-- The test of `read_dentry_by_name` on two strings succeeds exactly when
their characters up to the NUL agree. -/
theorem name_test_iff (s : List Nat) :
    ∀ t : List Nat,
      (strlen s = strlen t ∧ strncmp t s (strlen s) = 0) ↔ c_string s = c_string t := by
  induction s with
  | nil =>
    intro t
    cases t with
    | nil => simp [strlen, strncmp, c_string]
    | cons b t =>
      by_cases hb : b = 0
      · simp [strlen, strncmp, c_string, hb, List.takeWhile_cons]
      · simp [strlen, strncmp, c_string, hb, List.takeWhile_cons]
  | cons a s ih =>
    intro t
    by_cases ha : a = 0
    · cases t with
      | nil => simp [strlen, strncmp, c_string, ha, List.takeWhile_cons]
      | cons b t =>
        by_cases hb : b = 0
        · simp [strlen, strncmp, c_string, ha, hb, List.takeWhile_cons]
        · simp [strlen, strncmp, c_string, ha, hb, List.takeWhile_cons]
    · cases t with
      | nil => simp [strlen, strncmp, c_string, ha, List.takeWhile_cons]
      | cons b t =>
        by_cases hb : b = 0
        · simp [strlen, strncmp, c_string, ha, hb, List.takeWhile_cons]
        · by_cases hab : b = a
          · subst hab
            have := ih t
            unfold c_string at this
            simp [strlen, strncmp, c_string, hb, List.takeWhile_cons, this]
          · have hab2 : ¬ a = b := fun h => hab h.symm
            have hne : (b : Int) - (a : Int) ≠ 0 := by omega
            simp [strlen, strncmp, c_string, ha, hb, hab, hab2, hne, List.takeWhile_cons]

theorem array_bytes_getD (f : Nat → Nat) (n i : Nat) :
    (array_bytes f n).getD i 0 = if i < n then f i else 0 := by
  unfold array_bytes
  split_ifs with h
  · rw [List.getD_eq_getElem _ _ (by simpa using h)]
    simp
  · rw [List.getD_eq_default _ _ (by simpa using h)]

theorem array_bytes_congr (f g : Nat → Nat) (n : Nat) (h : ∀ i, i < n → f i = g i) :
    array_bytes f n = array_bytes g n := by
  unfold array_bytes
  apply List.map_congr_left
  intro a ha
  exact h a (by simpa using ha)

/-! ### read_dentry_by_name -/

theorem file_name_field_length (d : dentry_t) : (file_name_field d).length = 32 := by
  simp [file_name_field]

theorem file_name_memory_getD (d : dentry_t) (i : Nat) (h : i < 32) :
    (file_name_memory d).getD i 0 = (file_name_field d).getD i 0 := by
  unfold file_name_memory
  rw [List.append_assoc, List.append_assoc]
  exact List.getD_append _ _ _ _ (by rw [file_name_field_length]; exact h)

theorem strlen_file_name_field_le (d : dentry_t) :
    strlen (file_name_field d) ≤ strlen (file_name_memory d) := by
  unfold file_name_memory
  rw [List.append_assoc, List.append_assoc]
  exact strlen_append_ge _ _

/-- After the `strncpy` of the loop, `temp_fname` holds the name of the dentry
as a NUL-terminated string. -/
theorem temp_fname_c_string (d : dentry_t) (tp : Nat → Nat) (h : tp 32 = 0) :
    c_string (array_bytes (strncpy tp (file_name_memory d) BYTE_32) BYTE_33)
      = dentry_name d := by
  symm
  unfold dentry_name
  apply c_string_congr
  intro i hi
  have hlen := strlen_le_length (file_name_field d)
  rw [file_name_field_length] at hlen
  have hle := strlen_file_name_field_le d
  rw [array_bytes_getD, if_pos (by simp only [BYTE_33]; omega)]
  unfold strncpy
  by_cases h32 : i < 32
  · rw [if_pos h32]
    by_cases hm : i < strlen (file_name_memory d)
    · rw [if_pos hm, file_name_memory_getD d i h32]
    · rw [if_neg hm]
      have hi2 : i = strlen (file_name_field d) := by omega
      rw [hi2]
      exact getD_strlen _
  · rw [if_neg h32]
    have hi2 : i = 32 := by omega
    rw [hi2, h]
    exact List.getD_eq_default _ _ (by rw [file_name_field_length])

theorem strncpy_keeps (tp : Nat → Nat) (src : List Nat) (n i : Nat) (h : n ≤ i) :
    strncpy tp src n i = tp i := by
  unfold strncpy
  rw [if_neg (by omega)]

theorem read_dentry_by_name_loop_spec (fs : FileSystem) (fname : List Nat) (d : dentry_t) :
    ∀ (rem i : Nat) (tp : Nat → Nat), tp 32 = 0 →
      (∀ j, i ≤ j → j < i + rem → dentry_name (fs.dentries j) = c_string fname →
        (∀ l, i ≤ l → l < j → dentry_name (fs.dentries l) ≠ c_string fname) →
        read_dentry_by_name_loop fs fname d rem i tp = (0, fs.dentries j)) ∧
      ((∀ j, i ≤ j → j < i + rem → dentry_name (fs.dentries j) ≠ c_string fname) →
        read_dentry_by_name_loop fs fname d rem i tp = (-1, d)) := by
  intro rem
  induction rem with
  | zero =>
    intro i tp _
    refine ⟨fun j h1 h2 => ?_, fun _ => ?_⟩
    · omega
    · rw [read_dentry_by_name_loop]
  | succ n ih =>
    intro i tp htp
    have htest := name_test_iff fname
      (array_bytes (strncpy tp (file_name_memory (fs.dentries i)) BYTE_32) BYTE_33)
    rw [temp_fname_c_string _ _ htp] at htest
    have hnext := ih (i + 1) (strncpy tp (file_name_memory (fs.dentries i)) BYTE_32)
      (by rw [strncpy_keeps _ _ _ _ (le_refl _)]; exact htp)
    refine ⟨fun j h1 h2 hj hfirst => ?_, fun hnone => ?_⟩
    · rw [read_dentry_by_name_loop]
      rcases Nat.eq_or_lt_of_le h1 with heq | hlt
      · subst heq
        have hyes := htest.mpr hj.symm
        rw [if_pos hyes.1, if_pos hyes.2]
      · have hno : dentry_name (fs.dentries i) ≠ c_string fname := hfirst i (le_refl _) hlt
        have hrec := hnext.1 j (by omega) (by omega) hj (fun l hl1 hl2 => hfirst l (by omega) hl2)
        split_ifs with t1 t2
        · exact absurd (htest.mp ⟨t1, t2⟩).symm hno
        · exact hrec
        · exact hrec
    · rw [read_dentry_by_name_loop]
      have hno : dentry_name (fs.dentries i) ≠ c_string fname := hnone i (le_refl _) (by omega)
      have hrec := hnext.2 (fun j hj1 hj2 => hnone j (by omega) (by omega))
      split_ifs with t1 t2
      · exact absurd (htest.mp ⟨t1, t2⟩).symm hno
      · exact hrec
      · exact hrec

/-- Claim C5: `read_dentry_by_name(fname, d)` returns 0 and sets `d` to the
first dentry below `num_dentries` whose name (at most 32 bytes, up to the first
NUL) has the length and the bytes of `fname`, and returns -1 leaving `d` as it
was when there is none. A name that fills all 32 bytes is one of the names
covered: `dentry_name` then is the whole field. -/
theorem read_dentry_by_name_spec (fs : FileSystem) (fname : List Nat) (d : dentry_t) :
    (∀ i, i < fs.num_dentries → dentry_name (fs.dentries i) = c_string fname →
      (∀ j, j < i → dentry_name (fs.dentries j) ≠ c_string fname) →
      read_dentry_by_name fs fname d = (0, fs.dentries i)) ∧
    ((∀ i, i < fs.num_dentries → dentry_name (fs.dentries i) ≠ c_string fname) →
      read_dentry_by_name fs fname d = (-1, d)) := by
  have h := read_dentry_by_name_loop_spec fs fname d fs.num_dentries 0
    (memset (fun _ => 0) 0 BYTE_33) (by simp [memset])
  unfold read_dentry_by_name
  refine ⟨fun i hi hm hfirst => ?_, fun hnone => ?_⟩
  · exact h.1 i (Nat.zero_le _) (by omega) hm (fun l _ hl => hfirst l hl)
  · exact h.2 (fun j _ hj => hnone j (by omega))

theorem read_dentry_by_name_spec_witness :
    2 < dirFS.num_dentries ∧
      dentry_name (dirFS.dentries 2) = c_string (ascii "verylargetextwithverylongname.tx") ∧
      (∀ j, j < 2 →
        dentry_name (dirFS.dentries j) ≠ c_string (ascii "verylargetextwithverylongname.tx")) ∧
      read_dentry_by_name dirFS (ascii "verylargetextwithverylongname.tx") ⟨[], 0, 0, []⟩
        = (0, dirFS.dentries 2) :=
  ⟨by decide, by decide, by decide,
    (read_dentry_by_name_spec dirFS (ascii "verylargetextwithverylongname.tx")
      ⟨[], 0, 0, []⟩).1 2 (by decide) (by decide) (by decide)⟩

/-! ### read_directory -/

/-- Claim C6: `read_directory(buf, nbytes)` should return
`min(32, nbytes, name length)` for every `nbytes`. On the image `sampleFS` the
current dentry is named "." (length 1); with `nbytes = 33` the call returns 32
and writes the name followed by 31 NUL bytes. -/
theorem read_directory_nbytes_above_32 :
    sampleFS.dentries_read ≠ sampleFS.num_dentries ∧
      dentry_name (sampleFS.dentries sampleFS.dentries_read) = ascii "." ∧
      (read_directory sampleFS (fun _ => 9) 33).1 = 32 ∧
      (read_directory sampleFS (fun _ => 9) 33).1
        ≠ min 32 (min 33 (dentry_name (sampleFS.dentries sampleFS.dentries_read)).length) ∧
      array_bytes (read_directory sampleFS (fun _ => 9) 33).2.1 32
        = ascii "." ++ List.replicate 31 0 := by
  decide

theorem strlen_append (s t : List Nat) :
    strlen (s ++ t) = if strlen s = s.length then s.length + strlen t else strlen s := by
  induction s with
  | nil => simp [strlen]
  | cons c s ih =>
    rw [List.cons_append]
    simp only [strlen, List.length_cons]
    have hle := strlen_le_length s
    by_cases hc : c = 0
    · simp [hc]
    · rw [if_neg hc, if_neg hc, ih]
      split_ifs <;> omega

theorem strlen_file_name_field (d : dentry_t) :
    strlen (file_name_field d) = min 32 (strlen (file_name_memory d)) := by
  have hle := strlen_le_length (file_name_field d)
  have hlen := file_name_field_length d
  unfold file_name_memory
  rw [List.append_assoc, List.append_assoc, strlen_append]
  split_ifs <;> omega

theorem c_string_getD (s : List Nat) :
    ∀ i, i < strlen s → (c_string s).getD i 0 = s.getD i 0 := by
  induction s with
  | nil => intro i h; simp [strlen] at h
  | cons c s ih =>
    intro i h
    simp only [strlen] at h
    by_cases hc : c = 0
    · rw [if_pos hc] at h
      omega
    · rw [if_neg hc] at h
      unfold c_string at *
      cases i with
      | zero => simp [List.takeWhile_cons, hc]
      | succ j =>
        have := ih j (by omega)
        simpa [List.takeWhile_cons, hc] using this

theorem array_bytes_of_list (l : List Nat) :
    array_bytes (fun i => l.getD i 0) l.length = l := by
  unfold array_bytes
  apply List.ext_getElem
  · simp
  · intro n h1 h2
    simp only [List.getElem_map, List.getElem_range]
    exact List.getD_eq_getElem _ _ h2

/-- The count returned by `read_directory` while dentries remain: 32 whenever
`nbytes` exceeds 32, otherwise the smaller of `nbytes` and the name length. -/
theorem read_directory_count (fs : FileSystem) (buf : Nat → Nat) (nbytes : Nat)
    (h : fs.dentries_read ≠ fs.num_dentries) :
    (read_directory fs buf nbytes).1
      = if nbytes > 32 then 32
        else min nbytes (dentry_name (fs.dentries fs.dentries_read)).length := by
  have hlen : (dentry_name (fs.dentries fs.dentries_read)).length
      = min 32 (strlen (file_name_memory (fs.dentries fs.dentries_read))) := by
    unfold dentry_name
    rw [c_string_length, strlen_file_name_field]
  unfold read_directory
  rw [if_neg h, hlen]
  dsimp only
  split_ifs <;> simp only [BYTE_32] at * <;> omega

/-- One call `read_directory(buf, 32)` made while dentries remain: it returns the
length of the current name, delivers that name and advances the counter. -/
theorem read_directory_step (fs : FileSystem) (buf : Nat → Nat)
    (h : fs.dentries_read ≠ fs.num_dentries) :
    (read_directory fs buf BYTE_32).1 = (dentry_name (fs.dentries fs.dentries_read)).length ∧
    array_bytes (read_directory fs buf BYTE_32).2.1 (read_directory fs buf BYTE_32).1
      = dentry_name (fs.dentries fs.dentries_read) ∧
    (read_directory fs buf BYTE_32).2.2
      = { fs with dentries_read := (fs.dentries_read + 1) % U32 } := by
  have hlen : (dentry_name (fs.dentries fs.dentries_read)).length
      = min 32 (strlen (file_name_memory (fs.dentries fs.dentries_read))) := by
    unfold dentry_name
    rw [c_string_length, strlen_file_name_field]
  have hret : (read_directory fs buf BYTE_32).1
      = (dentry_name (fs.dentries fs.dentries_read)).length := by
    unfold read_directory
    rw [if_neg h, hlen]
    dsimp only
    split_ifs <;> simp only [BYTE_32] at * <;> omega
  refine ⟨hret, ?_, ?_⟩
  · rw [hret]
    have hbuf : (read_directory fs buf BYTE_32).2.1
        = strncpy buf (file_name_memory (fs.dentries fs.dentries_read))
            (dentry_name (fs.dentries fs.dentries_read)).length := by
      rw [← hret]
      unfold read_directory
      rw [if_neg h]
    rw [hbuf]
    conv_rhs => rw [← array_bytes_of_list (dentry_name (fs.dentries fs.dentries_read))]
    apply array_bytes_congr
    intro i hi
    unfold strncpy
    rw [if_pos hi, if_pos (by omega)]
    unfold dentry_name at *
    rw [c_string_getD _ i (by rw [c_string_length] at hi; exact hi)]
    exact file_name_memory_getD _ i (by omega)
  · unfold read_directory
    rw [if_neg h]

theorem read_directory_calls_spec :
    ∀ (n : Nat) (fs : FileSystem) (buf : Nat → Nat),
      fs.dentries_read + n ≤ fs.num_dentries → fs.num_dentries < U32 →
      (read_directory_calls n fs buf).1
        = (List.range n).map (fun k =>
            ((dentry_name (fs.dentries (fs.dentries_read + k))).length,
              dentry_name (fs.dentries (fs.dentries_read + k)))) ∧
      (read_directory_calls n fs buf).2.1
        = { fs with dentries_read := fs.dentries_read + n } := by
  intro n
  induction n with
  | zero =>
    intro fs buf _ _
    simp [read_directory_calls]
  | succ n ih =>
    intro fs buf h1 h2
    obtain ⟨s1, s2, s3⟩ := read_directory_step fs buf (by omega)
    have hmod : (fs.dentries_read + 1) % U32 = fs.dentries_read + 1 :=
      Nat.mod_eq_of_lt (by omega)
    rw [hmod] at s3
    have hrec := ih (read_directory fs buf BYTE_32).2.2 (read_directory fs buf BYTE_32).2.1
      (by rw [s3]; simp only; omega) (by rw [s3]; exact h2)
    rw [s3] at hrec
    simp only at hrec
    rw [read_directory_calls]
    simp only
    rw [s3]
    refine ⟨?_, ?_⟩
    · rw [hrec.1, s2, s1, List.range_succ_eq_map, List.map_cons, List.map_map]
      simp only [Nat.add_zero, List.cons.injEq, true_and]
      apply List.map_congr_left
      intro a _
      simp only [Function.comp, Nat.succ_eq_add_one]
      rw [Nat.add_assoc, Nat.add_comm 1 a]
    · rw [hrec.2]
      simp only [Nat.add_assoc, Nat.add_comm 1 n]

/-- Claim C7: starting with `dentries_read = 0`, `N = num_dentries` successive
calls of `read_directory` with a 32-byte buffer deliver the names of dentries
`0..N-1` in image order, each once; the counter then stands at `N`, the next
call returns 0 and puts the counter back to 0, and a second pass delivers the
same sequence. -/
theorem read_directory_full_pass (fs : FileSystem) (buf : Nat → Nat)
    (h0 : fs.dentries_read = 0) (hN : fs.num_dentries < U32) :
    (read_directory_calls fs.num_dentries fs buf).1 = directory_names fs ∧
    (read_directory_calls fs.num_dentries fs buf).2.1.dentries_read = fs.num_dentries ∧
    (read_directory (read_directory_calls fs.num_dentries fs buf).2.1
      (read_directory_calls fs.num_dentries fs buf).2.2 BYTE_32).1 = 0 ∧
    (read_directory (read_directory_calls fs.num_dentries fs buf).2.1
      (read_directory_calls fs.num_dentries fs buf).2.2 BYTE_32).2.2.dentries_read = 0 ∧
    (read_directory_calls fs.num_dentries
      (read_directory (read_directory_calls fs.num_dentries fs buf).2.1
        (read_directory_calls fs.num_dentries fs buf).2.2 BYTE_32).2.2
      (read_directory (read_directory_calls fs.num_dentries fs buf).2.1
        (read_directory_calls fs.num_dentries fs buf).2.2 BYTE_32).2.1).1
      = directory_names fs := by
  obtain ⟨p1, p2⟩ := read_directory_calls_spec fs.num_dentries fs buf (by omega) hN
  have hnames : ∀ g : FileSystem, g.dentries = fs.dentries → g.num_dentries = fs.num_dentries →
      g.dentries_read = 0 → ∀ b : Nat → Nat,
      (read_directory_calls fs.num_dentries g b).1 = directory_names fs := by
    intro g g1 g2 g3 b
    have := (read_directory_calls_spec fs.num_dentries g b (by omega) (by omega)).1
    rw [this, g1, g3]
    unfold directory_names
    simp only [Nat.zero_add]
  have hend : (read_directory_calls fs.num_dentries fs buf).2.1
      = { fs with dentries_read := fs.num_dentries } := by
    rw [p2, h0, Nat.zero_add]
  have hlast : ∀ b : Nat → Nat,
      read_directory { fs with dentries_read := fs.num_dentries } b BYTE_32
        = (0, b, { fs with dentries_read := 0 }) := by
    intro b
    unfold read_directory
    simp
  refine ⟨hnames fs rfl rfl h0 buf, ?_, ?_, ?_, ?_⟩
  · rw [hend]
  · rw [hend, hlast]
  · rw [hend, hlast]
  · rw [hend, hlast]
    exact hnames { fs with dentries_read := 0 } rfl rfl rfl _

theorem read_directory_full_pass_witness :
    dirFS.dentries_read = 0 ∧ dirFS.num_dentries < U32 ∧
      (read_directory_calls dirFS.num_dentries dirFS (fun _ => 9)).1
        = [(1, ascii "."), (10, ascii "frame0.txt"),
            (32, ascii "verylargetextwithverylongname.tx")] :=
  ⟨by decide, by decide,
    (read_directory_full_pass dirFS (fun _ => 9) (by decide) (by decide)).1.trans (by decide)⟩

/-! ### execute_find_pid -/

theorem execute_find_pid_loop_spec (a : Nat → Nat) :
    ∀ (rem i : Nat),
      (execute_find_pid_loop a rem i = (-1, a) ∧ ∀ j, i ≤ j → j < i + rem → a j ≠ 0) ∨
      (∃ j, i ≤ j ∧ j < i + rem ∧ a j = 0 ∧ (∀ l, i ≤ l → l < j → a l ≠ 0) ∧
        execute_find_pid_loop a rem i = ((j : Int), Function.update a j 1)) := by
  intro rem
  induction rem with
  | zero =>
    intro i
    left
    refine ⟨by rw [execute_find_pid_loop], fun j h1 h2 => ?_⟩
    omega
  | succ n ih =>
    intro i
    rw [execute_find_pid_loop]
    by_cases h : a i = 0
    · right
      refine ⟨i, le_refl _, by omega, h, fun l h1 h2 => ?_, by rw [if_pos h]⟩
      omega
    · rw [if_neg h]
      rcases ih (i + 1) with ⟨h1, h2⟩ | ⟨j, h1, h2, h3, h4, h5⟩
      · left
        refine ⟨h1, fun j hj1 hj2 => ?_⟩
        rcases Nat.eq_or_lt_of_le hj1 with heq | hlt
        · rw [← heq]
          exact h
        · exact h2 j (by omega) (by omega)
      · right
        refine ⟨j, by omega, by omega, h3, fun l hl1 hl2 => ?_, h5⟩
        rcases Nat.eq_or_lt_of_le hl1 with heq | hlt
        · rw [← heq]
          exact h
        · exact h4 l (by omega) hl2

/-- Claim C10: on a presence bitmap (entries 0 or 1), `execute_find_pid` returns
the smallest `i` below 6 with `pid_array[i] = 0`, sets that entry to 1 and leaves
the others as they were; it returns -1 exactly when all six entries are 1, and
then the array is unchanged. -/
theorem execute_find_pid_spec (pid_array : Nat → Nat)
    (hbit : ∀ i, i < MAX_PROC → pid_array i = 0 ∨ pid_array i = 1) :
    (∀ i, i < MAX_PROC → pid_array i = 0 → (∀ j, j < i → pid_array j ≠ 0) →
      (execute_find_pid pid_array).1 = (i : Int) ∧
      (execute_find_pid pid_array).2 i = 1 ∧
      ∀ j, j ≠ i → (execute_find_pid pid_array).2 j = pid_array j) ∧
    ((execute_find_pid pid_array).1 = -1 ↔ ∀ i, i < MAX_PROC → pid_array i = 1) ∧
    ((execute_find_pid pid_array).1 = -1 → (execute_find_pid pid_array).2 = pid_array) := by
  unfold execute_find_pid
  rcases execute_find_pid_loop_spec pid_array MAX_PROC 0 with
    ⟨h1, h2⟩ | ⟨j, _, h2, h3, h4, h5⟩
  · rw [h1]
    refine ⟨fun i hi hz _ => ?_, ?_, fun _ => rfl⟩
    · exact absurd hz (h2 i (Nat.zero_le _) (by omega))
    · refine ⟨fun _ i hi => ?_, fun _ => rfl⟩
      rcases hbit i hi with h0 | h1
      · exact absurd h0 (h2 i (Nat.zero_le _) (by omega))
      · exact h1
  · rw [h5]
    refine ⟨fun i hi hz hfirst => ?_, ?_, fun h => ?_⟩
    · have hij : j = i := by
        rcases Nat.lt_trichotomy j i with hlt | heq | hgt
        · exact absurd h3 (hfirst j hlt)
        · exact heq
        · exact absurd hz (h4 i (Nat.zero_le _) hgt)
      subst hij
      refine ⟨rfl, by simp, fun l hl => ?_⟩
      simp [Function.update_noteq hl]
    · refine ⟨fun h => ?_, fun h => ?_⟩
      · simp only at h
        omega
      · have := h j (by omega)
        omega
    · simp only at h
      omega

theorem execute_find_pid_spec_witness :
    (∀ i, i < MAX_PROC → (fun i => if i < 2 then 1 else 0) i = 0 ∨
        (fun i => if i < 2 then 1 else 0) i = 1) ∧
      (execute_find_pid (fun i => if i < 2 then 1 else 0)).1 = 2 ∧
      (execute_find_pid (fun i => if i < 2 then 1 else 0)).2 2 = 1 :=
  ⟨by decide,
    ((execute_find_pid_spec (fun i => if i < 2 then 1 else 0) (by decide)).1 2
      (by decide) (by decide) (by decide)).1,
    by decide⟩

/-! ### execute_parse_args -/

theorem getD_take_lt (l : List Nat) (k j : Nat) (h : j < k) :
    (l.take k).getD j 0 = l.getD j 0 := by
  simp [List.getD_eq_getElem?_getD, List.getElem?_take_of_lt h]

theorem getD_drop_add (l : List Nat) (i j : Nat) :
    (l.drop i).getD j 0 = l.getD (i + j) 0 := by
  simp [List.getD_eq_getElem?_getD, List.getElem?_drop]

theorem takeWhile_getD (p : Nat → Bool) (l : List Nat) :
    ∀ j, j < (l.takeWhile p).length → (l.takeWhile p).getD j 0 = l.getD j 0 := by
  induction l with
  | nil => intro j h; simp at h
  | cons c l ih =>
    intro j h
    by_cases hc : p c = true
    · rw [List.takeWhile_cons_of_pos hc] at h ⊢
      cases j with
      | zero => simp
      | succ k =>
        have := ih k (by simpa using h)
        simpa using this
    · rw [List.takeWhile_cons_of_neg hc] at h
      simp at h

theorem drop_length_takeWhile (p : Nat → Bool) (l : List Nat) :
    l.drop (l.takeWhile p).length = l.dropWhile p := by
  induction l with
  | nil => simp
  | cons c l ih =>
    by_cases hc : p c = true
    · rw [List.takeWhile_cons_of_pos hc, List.dropWhile_cons_of_pos hc]
      simpa using ih
    · rw [List.takeWhile_cons_of_neg hc, List.dropWhile_cons_of_neg hc]
      simp

theorem zero_pad_eq (n : Nat) (l : List Nat) :
    zero_pad n l = array_bytes (fun j => l.getD j 0) n := by
  unfold zero_pad array_bytes
  apply List.ext_getElem
  · simp
  · intro j h1 h2
    have hj : j < n := by simpa using h2
    simp only [List.getElem_take, List.getElem_map, List.getElem_range]
    by_cases hl : j < l.length
    · rw [List.getElem_append_left hl, List.getD_eq_getElem _ _ hl]
    · rw [List.getElem_append_right (by omega), List.getD_eq_default _ _ (by omega)]
      simp

theorem command_getD (s : List Nat) (i : Nat) (h : i < (c_string s).length) :
    s.getD i 0 = (c_string s)[i] := by
  rw [← c_string_getD s i (by rw [c_string_length] at h; exact h)]
  exact List.getD_eq_getElem _ _ h

theorem parse_strip_spaces_spec (s : List Nat) :
    ∀ (rem i : Nat), i + rem = (c_string s).length →
      i ≤ parse_strip_spaces s rem i ∧
      parse_strip_spaces s rem i ≤ (c_string s).length ∧
      (c_string s).drop (parse_strip_spaces s rem i)
        = ((c_string s).drop i).dropWhile (fun c => c == SPACE) := by
  intro rem
  induction rem with
  | zero =>
    intro i h
    rw [parse_strip_spaces]
    refine ⟨le_refl _, by omega, ?_⟩
    rw [List.drop_eq_nil_of_le (by omega)]
    rfl
  | succ n ih =>
    intro i h
    have hi : i < (c_string s).length := by omega
    rw [parse_strip_spaces, command_getD s i hi, List.drop_eq_getElem_cons hi]
    by_cases hc : (c_string s)[i] = SPACE
    · rw [if_pos hc]
      obtain ⟨g1, g2, g3⟩ := ih (i + 1) (by omega)
      refine ⟨by omega, g2, ?_⟩
      rw [g3, List.dropWhile_cons_of_pos (by simpa using hc)]
    · rw [if_neg hc]
      refine ⟨le_refl _, by omega, ?_⟩
      rw [List.dropWhile_cons_of_neg (by simpa using hc), List.drop_eq_getElem_cons hi]

theorem parse_fill_filename_spec (s : List Nat) :
    ∀ (rem i idx : Nat) (fb : Nat → Nat), i + rem = (c_string s).length →
      idx ≤ FILE_NAME_CHAR →
      (parse_fill_filename s rem i idx fb).1
        = i + min (((c_string s).drop i).takeWhile (fun c => c != SPACE)).length
            (FILE_NAME_CHAR - idx) ∧
      ∀ j, (parse_fill_filename s rem i idx fb).2 j
        = if idx ≤ j ∧ j < idx
              + min (((c_string s).drop i).takeWhile (fun c => c != SPACE)).length
                  (FILE_NAME_CHAR - idx)
          then (c_string s).getD (i + (j - idx)) 0 else fb j := by
  intro rem
  induction rem with
  | zero =>
    intro i idx fb h _
    rw [parse_fill_filename, List.drop_eq_nil_of_le (by omega)]
    simp only [List.takeWhile_nil, List.length_nil, Nat.zero_min, Nat.add_zero, true_and]
    intro j
    rw [if_neg (by omega)]
  | succ n ih =>
    intro i idx fb h hidx
    have hi : i < (c_string s).length := by omega
    rw [parse_fill_filename, command_getD s i hi, List.drop_eq_getElem_cons hi]
    by_cases hc : (c_string s)[i] = SPACE
    · rw [if_neg (by simp [hc]), List.takeWhile_cons_of_neg (by simp [hc])]
      simp only [List.length_nil, Nat.zero_min, Nat.add_zero, true_and]
      intro j
      rw [if_neg (by omega)]
    · by_cases h32 : idx < FILE_NAME_CHAR
      · rw [if_pos ⟨hc, h32⟩, List.takeWhile_cons_of_pos (by simpa using hc)]
        obtain ⟨g1, g2⟩ := ih (i + 1) (idx + 1)
          (Function.update fb idx (c_string s)[i]) (by omega) (by omega)
        simp only [List.length_cons]
        refine ⟨by rw [g1]; simp only [FILE_NAME_CHAR] at *; omega, fun j => ?_⟩
        rw [g2 j]
        by_cases hj : j = idx
        · subst hj
          rw [if_neg (by omega), if_pos (by simp only [FILE_NAME_CHAR] at *; omega)]
          rw [Function.update_same, Nat.sub_self, Nat.add_zero]
          exact (List.getD_eq_getElem _ _ hi).symm
        · rw [Function.update_noteq hj]
          by_cases hin : idx + 1 ≤ j ∧ j < idx + 1
              + min (((c_string s).drop (i + 1)).takeWhile (fun c => c != SPACE)).length
                  (FILE_NAME_CHAR - (idx + 1))
          · rw [if_pos hin, if_pos (by simp only [FILE_NAME_CHAR] at *; omega)]
            congr 1
            omega
          · rw [if_neg hin, if_neg (by simp only [FILE_NAME_CHAR] at *; omega)]
      · rw [if_neg (by simp [h32])]
        have : FILE_NAME_CHAR - idx = 0 := by omega
        rw [this]
        simp only [Nat.min_zero, Nat.add_zero, true_and]
        intro j
        rw [if_neg (by omega)]

theorem parse_fill_args_spec (s : List Nat) :
    ∀ (rem i idx : Nat) (ab : Nat → Nat), i + rem = (c_string s).length →
      idx ≤ MAX_BUFFER_SIZE →
      ∀ j, parse_fill_args s rem i idx ab j
        = if idx ≤ j ∧ j < idx + min rem (MAX_BUFFER_SIZE - idx)
          then (c_string s).getD (i + (j - idx)) 0 else ab j := by
  intro rem
  induction rem with
  | zero =>
    intro i idx ab h _ j
    rw [parse_fill_args, if_neg (by omega)]
  | succ n ih =>
    intro i idx ab h hidx j
    have hi : i < (c_string s).length := by omega
    rw [parse_fill_args, command_getD s i hi]
    by_cases h128 : idx < MAX_BUFFER_SIZE
    · rw [if_pos h128, ih (i + 1) (idx + 1) _ (by omega) (by omega) j]
      by_cases hj : j = idx
      · subst hj
        rw [if_neg (by omega), if_pos (by simp only [MAX_BUFFER_SIZE] at *; omega)]
        rw [Function.update_same, Nat.sub_self, Nat.add_zero]
        exact (List.getD_eq_getElem _ _ hi).symm
      · rw [Function.update_noteq hj]
        by_cases hin : idx + 1 ≤ j ∧ j < idx + 1 + min n (MAX_BUFFER_SIZE - (idx + 1))
        · rw [if_pos hin, if_pos (by simp only [MAX_BUFFER_SIZE] at *; omega)]
          congr 1
          omega
        · rw [if_neg hin, if_neg (by simp only [MAX_BUFFER_SIZE] at *; omega)]
    · rw [if_neg h128, if_neg (by omega)]

theorem memset_getD_lt (b : Nat → Nat) (c n j : Nat) (h : j < n) : memset b c n j = c := by
  unfold memset
  rw [if_pos h]

theorem length_takeWhile_le_length (p : Nat → Bool) (l : List Nat) :
    (l.takeWhile p).length ≤ l.length := by
  induction l with
  | nil => simp
  | cons c l ih =>
    by_cases hc : p c = true
    · rw [List.takeWhile_cons_of_pos hc]
      simpa using ih
    · rw [List.takeWhile_cons_of_neg hc]
      simp

/-- What `execute_parse_args` does on a command shorter than 256 bytes:
`filename` is the run of non-space characters after the leading spaces cut to 32
bytes and zero-padded, and `args` is the remainder of the command after the
bytes stored in `filename` and the spaces that follow them, cut to 128 bytes and
zero-padded; when the run has at most 32 bytes that remainder is what follows
the run and its trailing spaces. -/
theorem execute_parse_args_spec (fb ab : Nat → Nat) (command : List Nat)
    (hlen : strlen command < 256) :
    array_bytes (execute_parse_args fb ab command).1 FILE_NAME_CHAR = spec_filename command ∧
    array_bytes (execute_parse_args fb ab command).2 MAX_BUFFER_SIZE = spec_args command ∧
    ((spec_run command).length ≤ FILE_NAME_CHAR →
      spec_args command = spec_args_after_run command) := by
  have hn : strlen command % 256 = (c_string command).length := by
    rw [c_string_length]
    exact Nat.mod_eq_of_lt hlen
  unfold execute_parse_args
  simp only [hn]
  -- strip leading spaces
  obtain ⟨_, a2, a3⟩ := parse_strip_spaces_spec command ((c_string command).length - 0) 0
    (by omega)
  generalize parse_strip_spaces command ((c_string command).length - 0) 0 = i1 at a2 a3 ⊢
  have hA : (c_string command).drop i1 = spec_after_leading command := by
    rw [a3]
    rfl
  have hrunlen : (spec_run command).length ≤ (c_string command).length - i1 := by
    unfold spec_run
    rw [← hA]
    have := length_takeWhile_le_length (fun c => c != SPACE) ((c_string command).drop i1)
    rw [List.length_drop] at this
    exact this
  -- fill the file name
  obtain ⟨b1, b2⟩ := parse_fill_filename_spec command ((c_string command).length - i1) i1 0
    (memset fb 0 FILE_NAME_CHAR) (by omega) (Nat.zero_le _)
  rw [hA] at b1 b2
  generalize parse_fill_filename command ((c_string command).length - i1) i1 0
    (memset fb 0 FILE_NAME_CHAR) = r2 at b1 b2 ⊢
  have hrun : ((spec_after_leading command).takeWhile (fun c => c != SPACE)).length
      = (spec_run command).length := rfl
  rw [hrun] at b1 b2
  have htake : ((spec_run command).take FILE_NAME_CHAR).length
      = min (spec_run command).length (FILE_NAME_CHAR - 0) := by
    rw [List.length_take]
    omega
  -- strip the spaces in the middle
  obtain ⟨_, c2, c3⟩ := parse_strip_spaces_spec command ((c_string command).length - r2.1) r2.1
    (by rw [b1]; omega)
  generalize parse_strip_spaces command ((c_string command).length - r2.1) r2.1 = i3 at c2 c3 ⊢
  have hT : (c_string command).drop i3
      = ((spec_after_leading command).drop
          ((spec_run command).take FILE_NAME_CHAR).length).dropWhile
            (fun c => c == SPACE) := by
    rw [c3, b1, ← List.drop_drop, hA, htake]
  -- fill the arguments
  have d := parse_fill_args_spec command ((c_string command).length - i3) i3 0
    (memset ab 0 MAX_BUFFER_SIZE) (by omega) (Nat.zero_le _)
  refine ⟨?_, ?_, ?_⟩
  · unfold spec_filename
    rw [zero_pad_eq]
    apply array_bytes_congr
    intro j hj
    rw [b2 j, getD_take_lt _ _ _ hj]
    by_cases hin : 0 ≤ j ∧ j < 0 + min (spec_run command).length (FILE_NAME_CHAR - 0)
    · rw [if_pos hin]
      unfold spec_run at hin ⊢
      rw [takeWhile_getD _ _ j (by omega), ← hA, getD_drop_add, Nat.sub_zero]
    · rw [if_neg hin, memset_getD_lt _ _ _ _ hj]
      exact (List.getD_eq_default _ _ (by simp only [FILE_NAME_CHAR] at *; omega)).symm
  · unfold spec_args
    rw [zero_pad_eq]
    apply array_bytes_congr
    intro j hj
    rw [d j, getD_take_lt _ _ _ hj, ← hT, getD_drop_add, Nat.sub_zero]
    split_ifs with hin
    · rfl
    · rw [memset_getD_lt _ _ _ _ hj]
      exact (List.getD_eq_default _ _ (by simp only [MAX_BUFFER_SIZE] at *; omega)).symm
  · intro hshort
    unfold spec_args spec_args_after_run
    rw [List.take_of_length_le hshort]
    unfold spec_run
    rw [drop_length_takeWhile]

theorem execute_parse_args_spec_witness :
    strlen (ascii "counter 42") < 256 ∧
      array_bytes (execute_parse_args (fun _ => 1) (fun _ => 1) (ascii "counter 42")).1
        FILE_NAME_CHAR = zero_pad 32 (ascii "counter") ∧
      array_bytes (execute_parse_args (fun _ => 1) (fun _ => 1) (ascii "counter 42")).2
        MAX_BUFFER_SIZE = zero_pad 128 (ascii "42") :=
  ⟨by decide,
    (execute_parse_args_spec (fun _ => 1) (fun _ => 1) (ascii "counter 42")
      (by decide)).1.trans (by decide),
    (execute_parse_args_spec (fun _ => 1) (fun _ => 1) (ascii "counter 42")
      (by decide)).2.1.trans (by decide)⟩

set_option maxRecDepth 100000 in
/-- Claim C8: for every NUL-terminated command `filename` should hold the run of
non-space characters cut to 32 bytes. On a command of 256 letters `a` the length
returned by `strlen` does not fit the `uint8_t command_length`, which becomes 0:
no loop runs and `filename` stays all NUL instead of holding the first 32
letters. -/
theorem execute_parse_args_long_command :
    strlen (List.replicate 256 97) = 256 ∧
      spec_filename (List.replicate 256 97) = List.replicate 32 97 ∧
      array_bytes (execute_parse_args (fun _ => 1) (fun _ => 1) (List.replicate 256 97)).1
        FILE_NAME_CHAR = List.replicate 32 0 ∧
      ¬ (array_bytes (execute_parse_args (fun _ => 1) (fun _ => 1) (List.replicate 256 97)).1
          FILE_NAME_CHAR = spec_filename (List.replicate 256 97)) := by
  decide

set_option maxRecDepth 100000 in
/-- On a command whose first word has 33 letters `a`, followed by " x", the file
name takes 32 letters and `args` starts with the letter that is left: it is "a
x", where the remainder after the word and its spaces is "x". -/
theorem execute_parse_args_long_name :
    array_bytes (execute_parse_args (fun _ => 1) (fun _ => 1)
        (List.replicate 33 97 ++ ascii " x")).1 FILE_NAME_CHAR = List.replicate 32 97 ∧
      array_bytes (execute_parse_args (fun _ => 1) (fun _ => 1)
        (List.replicate 33 97 ++ ascii " x")).2 MAX_BUFFER_SIZE = zero_pad 128 (ascii "a x") ∧
      spec_args_after_run (List.replicate 33 97 ++ ascii " x") = zero_pad 128 (ascii "x") := by
  decide

set_option maxRecDepth 100000 in
/-- Claim C9: the `args` buffer should always contain a NUL. For the command
"a " followed by 128 letters `b` (130 bytes) all 128 bytes of `args` are `b`:
the copy loop stops at `args_idx = 128`, not 127. -/
theorem execute_parse_args_unterminated :
    strlen (ascii "a " ++ List.replicate 128 98) = 130 ∧
      array_bytes (execute_parse_args (fun _ => 0) (fun _ => 0)
        (ascii "a " ++ List.replicate 128 98)).2 MAX_BUFFER_SIZE = List.replicate 128 98 ∧
      0 ∉ array_bytes (execute_parse_args (fun _ => 0) (fun _ => 0)
        (ascii "a " ++ List.replicate 128 98)).2 MAX_BUFFER_SIZE := by
  decide


/-! ### vidmap -/

theorem land_div_two_pow (a b : Nat) : ∀ n, (a &&& b) / 2 ^ n = a / 2 ^ n &&& b / 2 ^ n := by
  intro n
  induction n with
  | zero => simp
  | succ k ih =>
    rw [Nat.pow_succ, ← Nat.div_div_eq_div_mul, ← Nat.div_div_eq_div_mul,
      ← Nat.div_div_eq_div_mul, ih, Nat.and_div_two]

/-- Masking a 32-bit address with `PAGE_DIR_MASK` keeps its 4 MiB page. -/
theorem land_page_dir_mask (a : Nat) (h : a < U32) :
    a &&& PAGE_DIR_MASK = a / 4194304 * 4194304 := by
  have h1 : (a &&& 0xFFC00000) % 2 ^ 22 = 0 := by
    rw [← Nat.and_pow_two_sub_one_eq_mod, Nat.and_assoc]
    have : (0xFFC00000 &&& 2 ^ 22 - 1) = 0 := by decide
    rw [this, Nat.and_zero]
  have h2 : (a &&& 0xFFC00000) / 2 ^ 22 = a / 2 ^ 22 := by
    rw [land_div_two_pow]
    have : (0xFFC00000 / 2 ^ 22) = 2 ^ 10 - 1 := by decide
    rw [this, Nat.and_pow_two_sub_one_eq_mod]
    apply Nat.mod_eq_of_lt
    simp only [Nat.reducePow, U32] at *
    omega
  have h3 := Nat.div_add_mod (a &&& 0xFFC00000) (2 ^ 22)
  rw [h1, h2] at h3
  simp only [Nat.reducePow, PAGE_DIR_MASK] at *
  omega

/-- Claim C20: `vidmap(outp)` returns 0 and stores `0x08400000` in `*outp`
exactly when `outp` is not null and lies in `[0x08000000, 0x08400000)`;
otherwise it returns -1 and stores nothing; in both cases the kernel state, with
the page directory and the user-video page table, is as before. -/
theorem vidmap_spec (s : KState) (outp : Nat) (user_mem : Nat → Nat) (h : outp < U32) :
    ((vidmap s outp user_mem).1 = 0 ↔
      outp ≠ 0 ∧ 0x08000000 ≤ outp ∧ outp < 0x08400000) ∧
    ((vidmap s outp user_mem).1 = 0 →
      (vidmap s outp user_mem).2.2 = Function.update user_mem outp 0x08400000) ∧
    ((vidmap s outp user_mem).1 ≠ 0 →
      (vidmap s outp user_mem).1 = -1 ∧ (vidmap s outp user_mem).2.2 = user_mem) ∧
    (vidmap s outp user_mem).2.1.page_directory = s.page_directory ∧
    (vidmap s outp user_mem).2.1.user_video_page_table = s.user_video_page_table := by
  have hmask := land_page_dir_mask outp h
  have himg : PROGRAM_IMAGE_ADDR &&& PAGE_DIR_MASK = 0x08000000 := by decide
  have hval : (USER_VID_MEM_PAGE <<< PAGE_BASE_ADDR_OFFSET) % U32 = 0x08400000 := by decide
  unfold vidmap
  rw [himg, hmask, hval]
  have hneg : ¬ ((-1 : Int) = 0) := by decide
  by_cases h0 : outp = 0
  · rw [if_pos h0]
    exact ⟨⟨fun h1 => absurd h1 hneg, fun h1 => absurd h0 h1.1⟩,
      fun h1 => absurd h1 hneg, fun _ => ⟨rfl, rfl⟩, rfl, rfl⟩
  · rw [if_neg h0]
    by_cases hp : outp / 4194304 * 4194304 ≠ 0x08000000
    · rw [if_pos hp]
      refine ⟨⟨fun h1 => absurd h1 hneg, fun h1 => ?_⟩,
        fun h1 => absurd h1 hneg, fun _ => ⟨rfl, rfl⟩, rfl, rfl⟩
      omega
    · rw [if_neg hp]
      refine ⟨⟨fun _ => ⟨h0, ?_, ?_⟩, fun _ => rfl⟩, fun _ => rfl,
        fun h1 => absurd rfl h1, rfl, rfl⟩
      · omega
      · omega

theorem vidmap_spec_witness :
    0x08000010 < U32 ∧
      (vidmap (boot_state shellFS) 0x08000010 (fun _ => 0)).1 = 0 ∧
      (vidmap (boot_state shellFS) 0x08000010 (fun _ => 0)).2.2 0x08000010 = 0x08400000 :=
  ⟨by decide,
    (vidmap_spec (boot_state shellFS) 0x08000010 (fun _ => 0) (by decide)).1.mpr
      ⟨by decide, by decide, by decide⟩,
    by
      rw [(vidmap_spec (boot_state shellFS) 0x08000010 (fun _ => 0) (by decide)).2.1
        ((vidmap_spec (boot_state shellFS) 0x08000010 (fun _ => 0) (by decide)).1.mpr
          ⟨by decide, by decide, by decide⟩)]
      exact Function.update_same _ _ _⟩

/-! ### execute_executable_check, getargs, negative counts -/

/-- Claim C14: `execute_executable_check` should fail on a file shorter than 4
bytes. On the image `shortElfFS` the file "shell" has length 3; `read_data` hands
out the byte at file position 3 as well, it is the 'F' that follows the file in
its data block, and the check returns 0. -/
theorem execute_executable_check_short_file :
    (read_dentry_by_name shortElfFS (ascii "shell") local_dentry).1 = 0 ∧
      (read_dentry_by_name shortElfFS (ascii "shell") local_dentry).2.inode_num = 1 ∧
      inode_length shortElfFS 1 = 3 ∧
      (read_data shortElfFS 1 1 (fun _ => 0) 3).1 = 3 ∧
      execute_executable_check shortElfFS (ascii "shell") = 0 := by
  decide!

/-- Claim C19: `getargs` should return -1 when the args string with its NUL does
not fit in `nbytes` bytes. After `execute("counter 42")` the args string is "42";
`getargs(buf, 2)` passes the test `strlen(args) > nbytes`, returns 0 and writes
the NUL at index 2 of a buffer that held 7 there. Into 128 bytes it delivers "42"
followed by NUL. -/
theorem getargs_terminator_past_nbytes :
    (execute (boot_state shellFS) (some (ascii "counter 42")) 0 0).1 = none ∧
      (getargs (execute (boot_state shellFS) (some (ascii "counter 42")) 0 0).2 1
        (fun _ => 7) 2).1 = 0 ∧
      array_bytes (getargs (execute (boot_state shellFS) (some (ascii "counter 42")) 0 0).2 1
        (fun _ => 7) 2).2 4 = [52, 50, 0, 7] ∧
      (getargs (execute (boot_state shellFS) (some (ascii "counter 42")) 0 0).2 1
        (fun _ => 7) 128).1 = 0 ∧
      array_bytes (getargs (execute (boot_state shellFS) (some (ascii "counter 42")) 0 0).2 1
        (fun _ => 7) 128).2 4 = [52, 50, 0, 7] := by
  decide!

/-- Claim C18: `read` with a negative `nbytes` should return -1 on a regular
file and on a directory. In the state `shell_running`, `open("shell")` gives
descriptor 2 on a regular file of length 30; `read(2, buf, -1)` returns 31,
writes the buffer (byte 1 becomes 'E') and moves the position to 31. After
`open(".")` instead, `read(2, buf, -1)` returns 32 and moves the position to 32.
Only the read of descriptor 0 returns -1. -/
theorem read_negative_nbytes :
    (open_syscall shell_running (ascii "shell")).map Prod.fst = some 2 ∧
      ((after_open (ascii "shell")).cur.fd_array 2).file_operations_table_ptr
        = file_ops_table ∧
      (read (after_open (ascii "shell")) 2 1 (fun _ => 0) (-1) empty_line).map
        (fun r => (r.1, (r.2.1.cur.fd_array 2).file_position, r.2.2 1)) = some (31, 31, 69) ∧
      (open_syscall shell_running (ascii ".")).map Prod.fst = some 2 ∧
      (read (after_open (ascii ".")) 2 1 (fun _ => 0) (-1) empty_line).map
        (fun r => (r.1, (r.2.1.cur.fd_array 2).file_position, r.2.2 0)) = some (32, 32, 46) ∧
      (read (after_open (ascii "shell")) 0 1 (fun _ => 0) (-1) empty_line).map
        (fun r => r.1) = some (-1) := by
  decide!

/-! ### read and write -/

/-- Claim C16: `read` returns -1, leaving state and buffer as they were, when
`fd` is negative, at least 8, equal to 1, or names a slot that is not in use;
`write` does so when `fd` is negative, at least 8, equal to 0, or names a slot
that is not in use; in every other case the call is the call of the read,
respectively write, function of the slot. -/
theorem read_write_dispatch (s : KState) (fd : Int) (buf_addr : Nat) (buf : Nat → Nat)
    (nbytes : Int) (kbd : kbd_line) :
    ((fd < 0 ∨ fd ≥ 8 ∨ fd = 1 ∨ (s.cur.fd_array fd.toNat).flags = 0) →
      read s fd buf_addr buf nbytes kbd = some (-1, s, buf)) ∧
    ((fd < 0 ∨ fd ≥ 8 ∨ fd = 0 ∨ (s.cur.fd_array fd.toNat).flags = 0) →
      write s fd buf_addr buf nbytes = some (-1, s)) ∧
    (0 ≤ fd → fd < 8 → fd ≠ 1 → (s.cur.fd_array fd.toNat).flags ≠ 0 →
      read s fd buf_addr buf nbytes kbd
        = call_read (s.cur.fd_array fd.toNat).file_operations_table_ptr.op_read s fd.toNat
            buf_addr buf nbytes kbd) ∧
    (0 ≤ fd → fd < 8 → fd ≠ 0 → (s.cur.fd_array fd.toNat).flags ≠ 0 →
      write s fd buf_addr buf nbytes
        = call_write (s.cur.fd_array fd.toNat).file_operations_table_ptr.op_write s
            buf_addr buf nbytes) := by
  refine ⟨fun h => ?_, fun h => ?_, fun h1 h2 h3 h4 => ?_, fun h1 h2 h3 h4 => ?_⟩
  · unfold read
    simp only [FD_ARRAY_SIZE, Nat.cast_ofNat]
    split_ifs with a b c
    · rfl
    · rfl
    · rfl
    · rcases h with h | h | h | h
      · exact absurd (Or.inl h) a
      · exact absurd (Or.inr h) a
      · exact absurd h b
      · exact absurd h c
  · unfold write
    simp only [FD_ARRAY_SIZE, Nat.cast_ofNat]
    split_ifs with a b c
    · rfl
    · rfl
    · rfl
    · rcases h with h | h | h | h
      · exact absurd (Or.inl h) a
      · exact absurd (Or.inr h) a
      · exact absurd h b
      · exact absurd h c
  · unfold read
    simp only [FD_ARRAY_SIZE, Nat.cast_ofNat]
    rw [if_neg (by omega), if_neg h3, if_neg h4]
  · unfold write
    simp only [FD_ARRAY_SIZE, Nat.cast_ofNat]
    rw [if_neg (by omega), if_neg h3, if_neg h4]

theorem read_write_dispatch_witness :
    ((3 : Int) < 0 ∨ (3 : Int) ≥ 8 ∨ (3 : Int) = 1 ∨
        (shell_running.cur.fd_array (3 : Int).toNat).flags = 0) ∧
      read shell_running 3 1 (fun _ => 0) 5 empty_line = some (-1, shell_running, fun _ => 0) :=
  ⟨Or.inr (Or.inr (Or.inr (by decide!))),
    (read_write_dispatch shell_running 3 1 (fun _ => 0) 5 empty_line).1
      (Or.inr (Or.inr (Or.inr (by decide!))))⟩

/-! ### open and close -/

theorem cur_set_cur (s : KState) (p : pcb_t) : (s.set_cur p).cur = p := by
  simp [KState.cur, KState.set_cur]

theorem cur_set_term (s : KState) (t : term_t)
    (h : t.curr_pcb = (s.terminal s.sched_term).curr_pcb) : (s.set_term t).cur = s.cur := by
  simp [KState.cur, KState.set_term, h]

theorem cur_rtc_open (s : KState) : (rtc_open s).2.cur = s.cur := by
  unfold rtc_open
  exact cur_set_term _ _ rfl

/-- The open hook of the table bound for a file type 0, 1 or 2 returns 0 on a
name that exists, and leaves the current PCB as it is. -/
theorem call_open_ok (s : KState) (name : List Nat) (t : Nat) (ht : t ≤ 2)
    (hname : (read_dentry_by_name s.fs name local_dentry).1 ≠ -1) :
    ∃ s2, call_open (ops_of_type t).op_open s name = some (0, s2) ∧ s2.cur = s.cur := by
  have hcases : t = 0 ∨ t = 1 ∨ t = 2 := by omega
  rcases hcases with rfl | rfl | rfl
  · exact ⟨(rtc_open s).2, rfl, cur_rtc_open s⟩
  · refine ⟨s, ?_, rfl⟩
    show some (fs_open s name, s) = some (0, s)
    unfold fs_open
    rw [if_neg hname]
  · refine ⟨s, ?_, rfl⟩
    show some (fs_open s name, s) = some (0, s)
    unfold fs_open
    rw [if_neg hname]

theorem open_find_fd_spec (p : pcb_t) :
    ∀ (rem i : Nat),
      (open_find_fd p rem i = i + rem ∧ ∀ j, i ≤ j → j < i + rem → (p.fd_array j).flags ≠ 0) ∨
      (∃ j, i ≤ j ∧ j < i + rem ∧ (p.fd_array j).flags = 0 ∧
        (∀ l, i ≤ l → l < j → (p.fd_array l).flags ≠ 0) ∧ open_find_fd p rem i = j) := by
  intro rem
  induction rem with
  | zero =>
    intro i
    left
    refine ⟨by rw [open_find_fd]; rfl, fun j h1 h2 => ?_⟩
    omega
  | succ n ih =>
    intro i
    rw [open_find_fd]
    by_cases h : (p.fd_array i).flags = 0
    · right
      refine ⟨i, le_refl _, by omega, h, fun l h1 h2 => ?_, by rw [if_pos h]⟩
      omega
    · rw [if_neg h]
      rcases ih (i + 1) with ⟨h1, h2⟩ | ⟨j, h1, h2, h3, h4, h5⟩
      · left
        refine ⟨by omega, fun j hj1 hj2 => ?_⟩
        rcases Nat.eq_or_lt_of_le hj1 with heq | hlt
        · rw [← heq]
          exact h
        · exact h2 j (by omega) (by omega)
      · right
        refine ⟨j, by omega, by omega, h3, fun l hl1 hl2 => ?_, h5⟩
        rcases Nat.eq_or_lt_of_le hl1 with heq | hlt
        · rw [← heq]
          exact h
        · exact h4 l (by omega) hl2

/-- Claim C15: `open` returns -1 with the state unchanged when the name is
absent or all eight slots are in use. On an existing name of file type 0, 1 or
2, with slots 0 and 1 in use, it returns the lowest descriptor whose slot is not
in use, which lies in `[2, 8)`, and sets that slot to in-use, position 0, the
inode number of the dentry and the operations table of its file type, leaving
every other slot as it was. -/
theorem open_spec (s : KState) (name : List Nat) :
    ((read_dentry_by_name s.fs name local_dentry).1 = -1 →
      open_syscall s name = some (-1, s)) ∧
    ((∀ j, j < FD_ARRAY_SIZE → (s.cur.fd_array j).flags ≠ 0) →
      open_syscall s name = some (-1, s)) ∧
    (∀ fd, (read_dentry_by_name s.fs name local_dentry).1 ≠ -1 →
      (read_dentry_by_name s.fs name local_dentry).2.file_type ≤ 2 →
      (s.cur.fd_array 0).flags ≠ 0 → (s.cur.fd_array 1).flags ≠ 0 →
      fd < FD_ARRAY_SIZE → (s.cur.fd_array fd).flags = 0 →
      (∀ j, j < fd → (s.cur.fd_array j).flags ≠ 0) →
      2 ≤ fd ∧
      ∃ s1, open_syscall s name = some ((fd : Int), s1) ∧
        s1.cur.fd_array fd
          = { file_operations_table_ptr :=
                ops_of_type (read_dentry_by_name s.fs name local_dentry).2.file_type
              inode := (read_dentry_by_name s.fs name local_dentry).2.inode_num
              file_position := 0
              flags := 1 } ∧
        ∀ j, j ≠ fd → s1.cur.fd_array j = s.cur.fd_array j) := by
  refine ⟨fun h => ?_, fun h => ?_, fun fd hname htype h0 h1 hfd hfree hfirst => ?_⟩
  · unfold open_syscall
    rw [if_pos h]
  · unfold open_syscall
    split_ifs with a
    · rfl
    · have hfull : open_find_fd s.cur FD_ARRAY_SIZE 0 = FD_ARRAY_SIZE := by
        rcases open_find_fd_spec s.cur FD_ARRAY_SIZE 0 with ⟨g1, _⟩ | ⟨j, _, g2, g3, _, _⟩
        · simpa using g1
        · exact absurd g3 (h j (by omega))
      simp only [hfull, if_true]
  · have h2 : 2 ≤ fd := by
      rcases Nat.lt_or_ge fd 2 with hlt | hge
      · have : fd = 0 ∨ fd = 1 := by omega
        rcases this with rfl | rfl
        · exact absurd hfree h0
        · exact absurd hfree h1
      · exact hge
    refine ⟨h2, ?_⟩
    have hfound : open_find_fd s.cur FD_ARRAY_SIZE 0 = fd := by
      rcases open_find_fd_spec s.cur FD_ARRAY_SIZE 0 with ⟨_, g2⟩ | ⟨j, _, g2, g3, g4, g5⟩
      · exact absurd hfree (g2 fd (Nat.zero_le _) (by omega))
      · rw [g5]
        rcases Nat.lt_trichotomy j fd with hlt | heq | hgt
        · exact absurd g3 (hfirst j hlt)
        · exact heq
        · exact absurd hfree (g4 fd (Nat.zero_le _) hgt)
    have hne8 : ¬ fd = FD_ARRAY_SIZE := by omega
    unfold open_syscall
    rw [if_neg hname]
    simp only [hfound, if_neg hne8]
    have hops : (if (read_dentry_by_name s.fs name local_dentry).2.file_type = RTC_TYPE then
          rtc_ops_table
        else if (read_dentry_by_name s.fs name local_dentry).2.file_type = DIR_TYPE then
          directory_ops_table
        else if (read_dentry_by_name s.fs name local_dentry).2.file_type = FILE_TYPE then
          file_ops_table
        else (s.cur.fd_array fd).file_operations_table_ptr)
        = ops_of_type (read_dentry_by_name s.fs name local_dentry).2.file_type := by
      unfold ops_of_type
      split_ifs with a b c
      · rfl
      · rfl
      · rfl
      · simp only [RTC_TYPE, DIR_TYPE, FILE_TYPE] at a b c
        omega
    rw [hops]
    obtain ⟨s2, hc, hcur⟩ := call_open_ok
      (s.set_cur (s.cur.set_fd fd
        { file_operations_table_ptr :=
            ops_of_type (read_dentry_by_name s.fs name local_dentry).2.file_type,
          inode := (read_dentry_by_name s.fs name local_dentry).2.inode_num,
          file_position := 0, flags := 1 }))
      name (read_dentry_by_name s.fs name local_dentry).2.file_type htype hname
    rw [hc]
    refine ⟨s2, by simp, ?_, ?_⟩
    · rw [hcur, cur_set_cur]
      simp [pcb_t.set_fd]
    · intro j hj
      rw [hcur, cur_set_cur]
      simp [pcb_t.set_fd, Function.update_noteq hj]

theorem open_spec_witness :
    (read_dentry_by_name shell_running.fs (ascii "shell") local_dentry).1 ≠ -1 ∧
      (read_dentry_by_name shell_running.fs (ascii "shell") local_dentry).2.file_type ≤ 2 ∧
      (shell_running.cur.fd_array 0).flags ≠ 0 ∧ (shell_running.cur.fd_array 1).flags ≠ 0 ∧
      (shell_running.cur.fd_array 2).flags = 0 ∧
      (open_syscall shell_running (ascii "shell")).map Prod.fst = some 2 := by
  refine ⟨by decide!, by decide!, by decide!, by decide!, by decide!, ?_⟩
  obtain ⟨_, s1, h, _⟩ := (open_spec shell_running (ascii "shell")).2.2 2 (by decide!)
    (by decide!) (by decide!) (by decide!) (by decide!) (by decide!) (by decide!)
  rw [h]
  rfl

theorem same_bindings_refl (s : KState) : same_bindings s s :=
  ⟨rfl, rfl, fun _ => ⟨rfl, rfl⟩⟩

theorem same_bindings_set_term (s : KState) (t : term_t)
    (h : t.curr_pcb = (s.terminal s.sched_term).curr_pcb) : same_bindings s (s.set_term t) := by
  refine ⟨rfl, ?_, fun j => ?_⟩
  · simp [KState.set_term, h]
  · rw [cur_set_term s t h]
    exact ⟨rfl, rfl⟩

theorem same_bindings_trans (a b c : KState) (h1 : same_bindings a b) (h2 : same_bindings b c) :
    same_bindings a c := by
  obtain ⟨a1, a2, a3⟩ := h1
  obtain ⟨b1, b2, b3⟩ := h2
  refine ⟨by rw [b1, a1], by rw [b2, a2], fun j => ?_⟩
  exact ⟨by rw [(b3 j).1, (a3 j).1], by rw [(b3 j).2, (a3 j).2]⟩

theorem fd_table_ok_of_same (s s1 : KState) (h : same_bindings s s1) (hok : fd_table_ok s.cur) :
    fd_table_ok s1.cur := by
  obtain ⟨_, _, h3⟩ := h
  obtain ⟨k1, k2, k3, k4, k5⟩ := hok
  refine ⟨by rw [(h3 0).1]; exact k1, by rw [(h3 0).2]; exact k2, by rw [(h3 1).1]; exact k3,
    by rw [(h3 1).2]; exact k4, fun j hj1 hj2 => ?_⟩
  rw [(h3 j).1, (h3 j).2]
  exact k5 j hj1 hj2

theorem same_bindings_position (s : KState) (fd pos : Nat) :
    same_bindings s (s.set_cur (s.cur.set_fd fd { s.cur.fd_array fd with file_position := pos }))
    := by
  refine ⟨rfl, rfl, fun j => ?_⟩
  rw [cur_set_cur]
  by_cases hj : j = fd
  · subst hj
    simp [pcb_t.set_fd]
  · simp [pcb_t.set_fd, Function.update_noteq hj]

theorem same_bindings_terminal_read (s : KState) (buf_addr : Nat) (buf : Nat → Nat)
    (nbytes : Int) (kbd : kbd_line) :
    same_bindings s (terminal_read s buf_addr buf nbytes kbd).2.1 := by
  unfold terminal_read
  split_ifs with h1 h2
  · exact same_bindings_refl s
  · refine ⟨rfl, ?_, fun j => ?_⟩
    · simp [KState.set_term]
    · simp [KState.cur, KState.set_term]
  · exact same_bindings_set_term s _ rfl

theorem same_bindings_fs_read (s : KState) (fd : Nat) (buf : Nat → Nat) (nbytes : Int) :
    same_bindings s (fs_read s fd buf nbytes).2.1 := by
  unfold fs_read
  dsimp only
  generalize fs_read_find s.fs (s.cur.fd_array fd).inode s.fs.num_dentries 0 = found
  cases found with
  | none => exact same_bindings_refl s
  | some i =>
    dsimp only
    split_ifs
    · exact same_bindings_position s fd _
    · exact same_bindings_refl s
    · refine same_bindings_trans s _ _ ⟨rfl, rfl, fun j => ⟨rfl, rfl⟩⟩
        (same_bindings_position _ fd _)
    · exact ⟨rfl, rfl, fun j => ⟨rfl, rfl⟩⟩
    · exact same_bindings_refl s

theorem same_bindings_read (s s1 : KState) (fd : Int) (buf_addr : Nat) (buf : Nat → Nat)
    (nbytes : Int) (kbd : kbd_line)
    (h : syscall_step s (syscall.sys_read fd buf_addr buf nbytes kbd) = some s1) :
    same_bindings s s1 := by
  simp only [syscall_step, read] at h
  split_ifs at h with a b c
  · simp only [Option.map_some', Option.some.injEq] at h
    rw [← h]
    exact same_bindings_refl s
  · simp only [Option.map_some', Option.some.injEq] at h
    rw [← h]
    exact same_bindings_refl s
  · simp only [Option.map_some', Option.some.injEq] at h
    rw [← h]
    exact same_bindings_refl s
  · unfold call_read at h
    split at h
    · simp only [Option.map_some', Option.some.injEq] at h
      rw [← h]
      exact same_bindings_terminal_read s _ _ _ _
    · simp only [Option.map_some', Option.some.injEq] at h
      rw [← h]
      exact same_bindings_set_term s _ rfl
    · simp only [Option.map_some', Option.some.injEq] at h
      rw [← h]
      exact same_bindings_fs_read s _ _ _
    · simp at h

theorem same_bindings_write (s s1 : KState) (fd : Int) (buf_addr : Nat) (buf : Nat → Nat)
    (nbytes : Int) (h : syscall_step s (syscall.sys_write fd buf_addr buf nbytes) = some s1) :
    same_bindings s s1 := by
  simp only [syscall_step, write] at h
  split_ifs at h with a b c
  · simp only [Option.map_some', Option.some.injEq] at h
    rw [← h]
    exact same_bindings_refl s
  · simp only [Option.map_some', Option.some.injEq] at h
    rw [← h]
    exact same_bindings_refl s
  · simp only [Option.map_some', Option.some.injEq] at h
    rw [← h]
    exact same_bindings_refl s
  · unfold call_write at h
    split at h
    · simp only [Option.map_some', Option.some.injEq] at h
      rw [← h]
      exact same_bindings_refl s
    · simp only [Option.map_some', Option.some.injEq] at h
      rw [← h]
      unfold rtc_write
      dsimp only
      split_ifs
      · exact same_bindings_refl s
      · exact same_bindings_refl s
      · exact same_bindings_set_term s _ rfl
    · simp only [Option.map_some', Option.some.injEq] at h
      rw [← h]
      exact same_bindings_refl s
    · simp at h

theorem call_open_state (f : fn_t) (s : KState) (name : List Nat) (r : Int × KState)
    (h : call_open f s name = some r) : same_bindings s r.2 := by
  unfold call_open at h
  split at h
  · simp only [Option.some.injEq] at h
    rw [← h]
    exact same_bindings_refl s
  · simp only [Option.some.injEq] at h
    rw [← h]
    exact same_bindings_set_term s _ rfl
  · simp only [Option.some.injEq] at h
    rw [← h]
    exact same_bindings_refl s
  · simp at h

theorem call_close_state (f : fn_t) (s : KState) (r : Int × KState)
    (h : call_close f s = some r) : r.2 = s := by
  unfold call_close at h
  split at h
  · simp only [Option.some.injEq] at h
    rw [← h]
  · simp only [Option.some.injEq] at h
    rw [← h]
  · simp only [Option.some.injEq] at h
    rw [← h]
  · simp at h

theorem call_close_bound (o : fops_t) (s : KState) (h : bound_by_open o) :
    call_close o.op_close s = some (0, s) := by
  obtain ⟨t, ht, rfl⟩ := h
  have hcases : t = 0 ∨ t = 1 ∨ t = 2 := by omega
  rcases hcases with rfl | rfl | rfl <;> rfl

theorem bound_by_open_ne_null (o : fops_t) (h : bound_by_open o) : o ≠ null_ops_table := by
  obtain ⟨t, ht, rfl⟩ := h
  have hcases : t = 0 ∨ t = 1 ∨ t = 2 := by omega
  rcases hcases with rfl | rfl | rfl <;> decide

/-- Replacing a slot from 2 to 7 by one that carries a table installed by `open`
keeps the shape of the descriptor table. -/
theorem fd_table_ok_set_fd (p : pcb_t) (fd : Nat) (e : fd_array_t) (hok : fd_table_ok p)
    (h2 : 2 ≤ fd) (he : bound_by_open e.file_operations_table_ptr) :
    fd_table_ok (p.set_fd fd e) := by
  obtain ⟨k1, k2, k3, k4, k5⟩ := hok
  unfold pcb_t.set_fd
  refine ⟨?_, ?_, ?_, ?_, fun j hj1 hj2 => ?_⟩
  · simpa [Function.update_noteq (show (0 : Nat) ≠ fd by omega)] using k1
  · simpa [Function.update_noteq (show (0 : Nat) ≠ fd by omega)] using k2
  · simpa [Function.update_noteq (show (1 : Nat) ≠ fd by omega)] using k3
  · simpa [Function.update_noteq (show (1 : Nat) ≠ fd by omega)] using k4
  · by_cases hj : j = fd
    · subst hj
      right
      simpa using he
    · simpa [Function.update_noteq hj] using k5 j hj1 hj2

theorem open_preserves (s s1 : KState) (name : List Nat) (hok : fd_table_ok s.cur)
    (h : syscall_step s (syscall.sys_open name) = some s1) :
    fd_table_ok s1.cur ∧ same_process s s1 := by
  simp only [syscall_step] at h
  unfold open_syscall at h
  by_cases a : (read_dentry_by_name s.fs name local_dentry).1 = -1
  · rw [if_pos a] at h
    simp only [Option.map_some', Option.some.injEq] at h
    rw [← h]
    exact ⟨hok, rfl, rfl⟩
  rw [if_neg a] at h
  dsimp only at h
  by_cases b : open_find_fd s.cur FD_ARRAY_SIZE 0 = FD_ARRAY_SIZE
  · rw [if_pos b] at h
    simp only [Option.map_some', Option.some.injEq] at h
    rw [← h]
    exact ⟨hok, rfl, rfl⟩
  rw [if_neg b] at h
  · -- a slot is taken: it is the lowest free one, from 2 to 7
    have hfd : 2 ≤ open_find_fd s.cur FD_ARRAY_SIZE 0 ∧
        open_find_fd s.cur FD_ARRAY_SIZE 0 < FD_ARRAY_SIZE ∧
        (s.cur.fd_array (open_find_fd s.cur FD_ARRAY_SIZE 0)).flags = 0 := by
      rcases open_find_fd_spec s.cur FD_ARRAY_SIZE 0 with ⟨g1, _⟩ | ⟨j, _, g2, g3, _, g5⟩
      · exact absurd (by simpa using g1) b
      · rw [g5]
        refine ⟨?_, by omega, g3⟩
        rcases Nat.lt_or_ge j 2 with hlt | hge
        · have : j = 0 ∨ j = 1 := by omega
          rcases this with rfl | rfl
          · exact absurd g3 hok.1
          · exact absurd g3 hok.2.2.1
        · exact hge
    generalize open_find_fd s.cur FD_ARRAY_SIZE 0 = fd at h hfd b
    obtain ⟨hfd2, hfd8, hfree⟩ := hfd
    have hslot := hok.2.2.2.2 fd hfd2 hfd8
    generalize hops : (if (read_dentry_by_name s.fs name local_dentry).2.file_type = RTC_TYPE then
          rtc_ops_table
        else if (read_dentry_by_name s.fs name local_dentry).2.file_type = DIR_TYPE then
          directory_ops_table
        else if (read_dentry_by_name s.fs name local_dentry).2.file_type = FILE_TYPE then
          file_ops_table
        else (s.cur.fd_array fd).file_operations_table_ptr) = ops at h
    have hbound : bound_by_open ops ∨ ops = null_ops_table := by
      rw [← hops]
      split_ifs
      · exact Or.inl ⟨0, by omega, rfl⟩
      · exact Or.inl ⟨1, by omega, rfl⟩
      · exact Or.inl ⟨2, by omega, rfl⟩
      · rcases hslot with ⟨g, _⟩ | g
        · exact Or.inr g
        · exact Or.inl g
    rcases hbound with hb | hnull
    · cases hc : call_open ops.op_open (s.set_cur (s.cur.set_fd fd
          { file_operations_table_ptr := ops,
            inode := (read_dentry_by_name s.fs name local_dentry).2.inode_num,
            file_position := 0, flags := 1 })) name with
      | none =>
        rw [hc] at h
        simp at h
      | some r =>
        rw [hc] at h
        have hstate := call_open_state _ _ _ _ hc
        have hs1 : s1 = r.2 := by
          dsimp only at h
          split_ifs at h <;> simp only [Option.map_some', Option.some.injEq] at h <;>
            exact h.symm
        rw [hs1]
        have hmid : fd_table_ok (s.set_cur (s.cur.set_fd fd
            { file_operations_table_ptr := ops,
              inode := (read_dentry_by_name s.fs name local_dentry).2.inode_num,
              file_position := 0, flags := 1 })).cur := by
          rw [cur_set_cur]
          exact fd_table_ok_set_fd _ _ _ hok hfd2 hb
        exact ⟨fd_table_ok_of_same _ _ hstate hmid, hstate.1, hstate.2.1⟩
    · rw [hnull] at h
      simp [null_ops_table, call_open] at h

theorem close_preserves (s s1 : KState) (fd : Int) (hok : fd_table_ok s.cur)
    (h : syscall_step s (syscall.sys_close fd) = some s1) :
    fd_table_ok s1.cur ∧ same_process s s1 := by
  simp only [syscall_step, close] at h
  split_ifs at h with a b c
  · simp only [Option.map_some', Option.some.injEq] at h
    rw [← h]
    exact ⟨hok, rfl, rfl⟩
  · simp only [Option.map_some', Option.some.injEq] at h
    rw [← h]
    exact ⟨hok, rfl, rfl⟩
  · simp only [Option.map_some', Option.some.injEq] at h
    rw [← h]
    exact ⟨hok, rfl, rfl⟩
  · cases hc : call_close (s.cur.fd_array fd.toNat).file_operations_table_ptr.op_close s with
    | none =>
      rw [hc] at h
      simp at h
    | some r =>
      rw [hc] at h
      have hr := call_close_state _ _ _ hc
      dsimp only at h
      split_ifs at h with d
      · simp only [Option.map_some', Option.some.injEq] at h
        rw [← h, hr]
        exact ⟨hok, rfl, rfl⟩
      · simp only [Option.map_some', Option.some.injEq] at h
        rw [← h, hr]
        have hfd2 : 2 ≤ fd.toNat := by
          simp only [FD_ARRAY_SIZE, Nat.cast_ofNat] at a
          omega
        have hfd8 : fd.toNat < FD_ARRAY_SIZE := by
          simp only [FD_ARRAY_SIZE, Nat.cast_ofNat] at a ⊢
          omega
        have hslot := hok.2.2.2.2 fd.toNat hfd2 hfd8
        rcases hslot with ⟨_, g⟩ | g
        · exact absurd g c
        · refine ⟨?_, rfl, rfl⟩
          rw [cur_set_cur]
          exact fd_table_ok_set_fd _ _ _ hok hfd2 g

theorem syscall_step_preserves (s s1 : KState) (c : syscall) (hok : fd_table_ok s.cur)
    (h : syscall_step s c = some s1) : fd_table_ok s1.cur ∧ same_process s s1 := by
  cases c with
  | sys_open name => exact open_preserves s s1 name hok h
  | sys_read fd buf_addr buf nbytes kbd =>
    have hb := same_bindings_read s s1 fd buf_addr buf nbytes kbd h
    exact ⟨fd_table_ok_of_same s s1 hb hok, hb.1, hb.2.1⟩
  | sys_write fd buf_addr buf nbytes =>
    have hb := same_bindings_write s s1 fd buf_addr buf nbytes h
    exact ⟨fd_table_ok_of_same s s1 hb hok, hb.1, hb.2.1⟩
  | sys_close fd => exact close_preserves s s1 fd hok h

theorem syscall_run_preserves :
    ∀ (calls : List syscall) (s s1 : KState), fd_table_ok s.cur →
      syscall_run s calls = some s1 → fd_table_ok s1.cur ∧ same_process s s1 := by
  intro calls
  induction calls with
  | nil =>
    intro s s1 hok h
    simp only [syscall_run, Option.some.injEq] at h
    rw [← h]
    exact ⟨hok, rfl, rfl⟩
  | cons c cs ih =>
    intro s s1 hok h
    rw [syscall_run] at h
    cases hc : syscall_step s c with
    | none =>
      rw [hc] at h
      simp at h
    | some s2 =>
      rw [hc] at h
      obtain ⟨k1, k2, k3⟩ := syscall_step_preserves s s2 c hok hc
      obtain ⟨m1, m2, m3⟩ := ih s2 s1 k1 h
      exact ⟨m1, by rw [m2, k2], by rw [m3, k3]⟩

/-! ### execute_create_pcb -/

/-- When the string and its NUL fit in `args`, `strcpy` leaves the other fields
of the PCB alone. -/
theorem strcpy_pcb_args_fit (p : pcb_t) (src : List Nat) (h : strlen src < MAX_BUFFER_SIZE) :
    (strcpy_pcb_args p src).pid = p.pid ∧ (strcpy_pcb_args p src).parent_pcb = p.parent_pcb ∧
    (strcpy_pcb_args p src).esp = p.esp ∧ (strcpy_pcb_args p src).ebp = p.ebp ∧
    (strcpy_pcb_args p src).terminal_id = p.terminal_id ∧
    (strcpy_pcb_args p src).fd_array = p.fd_array := by
  have hov : (array_bytes (strcpy (fun _ => 0) src) (strlen src + 1)).drop MAX_BUFFER_SIZE
      = [] := by
    apply List.drop_eq_nil_of_le
    simp only [array_bytes, List.length_map, List.length_range, MAX_BUFFER_SIZE] at *
    omega
  unfold strcpy_pcb_args
  simp only [hov, overlay32, List.length_nil, Nat.zero_le, if_true, and_self]

theorem strcpy_pcb_args_fd_array (p : pcb_t) (src : List Nat) :
    (strcpy_pcb_args p src).fd_array = p.fd_array := rfl

/-- What `execute_create_pcb` builds when the args string, with its NUL, fits in
the 128 bytes of `args`. -/
theorem execute_create_pcb_spec (s : KState) (args : List Nat) (p : Nat)
    (hfit : strlen args < MAX_BUFFER_SIZE) :
    (execute_create_pcb s args p).sched_term = s.sched_term ∧
    ((execute_create_pcb s args p).terminal s.sched_term).curr_pcb
      = 0x800000 - (p + 1) * 0x2000 ∧
    ((execute_create_pcb s args p).pcb_mem (0x800000 - (p + 1) * 0x2000)).pid = p ∧
    ((execute_create_pcb s args p).pcb_mem (0x800000 - (p + 1) * 0x2000)).terminal_id
      = s.sched_term ∧
    ((execute_create_pcb s args p).pcb_mem (0x800000 - (p + 1) * 0x2000)).parent_pcb
      = (s.terminal s.sched_term).curr_pcb ∧
    ((execute_create_pcb s args p).pcb_mem (0x800000 - (p + 1) * 0x2000)).esp = 0x083FFFFC ∧
    ((execute_create_pcb s args p).pcb_mem (0x800000 - (p + 1) * 0x2000)).ebp = 0x083FFFFC ∧
    (∀ i, i < 2 →
      ((execute_create_pcb s args p).pcb_mem (0x800000 - (p + 1) * 0x2000)).fd_array i
        = { file_operations_table_ptr := terminal_ops_table, inode := 0xFFFFFFFF,
            file_position := 0, flags := 1 }) ∧
    (∀ i, 2 ≤ i → i < 8 →
      ((execute_create_pcb s args p).pcb_mem (0x800000 - (p + 1) * 0x2000)).fd_array i
        = { file_operations_table_ptr := null_ops_table, inode := 0xFFFFFFFF,
            file_position := 0, flags := 0 }) := by
  have hesp : (PROGRAM_IMAGE_ADDR &&& PAGE_DIR_MASK) + _4MB_ - BYTE_4 = 0x083FFFFC := by decide
  have hinode : to_u32 (-1) = 0xFFFFFFFF := by decide
  unfold execute_create_pcb
  simp only [Function.update_same, KERNEL_MEM_END, _8KB_]
  obtain ⟨f1, f2, f3, f4, f5, f6⟩ := strcpy_pcb_args_fit
    { fd_array := fun i =>
        if i < FD_ARRAY_SIZE then
          if i = 0 ∨ i = 1 then
            { file_operations_table_ptr := terminal_ops_table, inode := to_u32 (-1),
              file_position := 0, flags := 1 }
          else
            { file_operations_table_ptr := null_ops_table, inode := to_u32 (-1),
              file_position := 0, flags := 0 }
        else (s.pcb_mem (8388608 - (p + 1) * 8192)).fd_array i
      args := (s.pcb_mem (8388608 - (p + 1) * 8192)).args
      pid := p
      parent_pcb := (s.terminal s.sched_term).curr_pcb
      esp := (PROGRAM_IMAGE_ADDR &&& PAGE_DIR_MASK) + _4MB_ - BYTE_4
      ebp := (PROGRAM_IMAGE_ADDR &&& PAGE_DIR_MASK) + _4MB_ - BYTE_4
      terminal_id := s.sched_term } args hfit
  refine ⟨trivial, trivial, ?_, ?_, ?_, ?_, ?_, fun i hi => ?_, fun i hi1 hi2 => ?_⟩
  · rw [f1]
  · rw [f5]
  · rw [f2]
  · rw [f3, hesp]
  · rw [f4, hesp]
  · rw [f6]
    simp only [FD_ARRAY_SIZE, hinode]
    rw [if_pos (by omega), if_pos (by omega)]
  · rw [f6]
    simp only [FD_ARRAY_SIZE, hinode]
    rw [if_pos (by omega), if_neg (by omega)]

/-- Claim C13: `execute_create_pcb(…, p)` should leave `pid = p` in the PCB it
writes. With an args string of 128 letters `b` and `p = 1`, `strcpy` writes 129
bytes into the 128 bytes of `args`; the NUL falls on the low byte of `pid`, the
field that follows, and the PCB at `0x800000 - 2 * 0x2000` ends with `pid = 0`.
The other fields named in the claim are as it says. -/
theorem execute_create_pcb_long_args :
    strlen (List.replicate 128 98) = 128 ∧
      ((execute_create_pcb shell_running (List.replicate 128 98) 1).terminal 0).curr_pcb
        = 0x800000 - 2 * 0x2000 ∧
      ((execute_create_pcb shell_running (List.replicate 128 98) 1).pcb_mem
        (0x800000 - 2 * 0x2000)).pid = 0 ∧
      ((execute_create_pcb shell_running (List.replicate 128 98) 1).pcb_mem
        (0x800000 - 2 * 0x2000)).parent_pcb = 0x800000 - 0x2000 ∧
      ((execute_create_pcb shell_running (List.replicate 128 98) 1).pcb_mem
        (0x800000 - 2 * 0x2000)).esp = 0x083FFFFC := by
  decide!

/-! ### close -/

theorem fd_table_ok_create_pcb (s : KState) (args : List Nat) (p : Nat) :
    fd_table_ok (execute_create_pcb s args p).cur := by
  have hcur : (execute_create_pcb s args p).cur
      = (execute_create_pcb s args p).pcb_mem (KERNEL_MEM_END - (p + 1) * _8KB_) := by
    simp [KState.cur, execute_create_pcb]
  rw [hcur]
  unfold execute_create_pcb
  simp only [Function.update_same]
  unfold fd_table_ok
  rw [strcpy_pcb_args_fd_array]
  simp only [FD_ARRAY_SIZE]
  refine ⟨by simp, by simp, by simp, by simp, fun j hj1 hj2 => ?_⟩
  left
  rw [if_pos hj2, if_neg (by omega)]
  exact ⟨rfl, rfl⟩

/-- Claim C17: `close(fd)` returns -1 and changes nothing for `fd` outside
`[0, 8)`, for 0 and 1, and for a slot that is not in use. For an in-use `fd` from
2 to 7, whose table is one that `open` installs, it returns 0 and clears only the
flag of that slot, and a second `close(fd)` returns -1. The descriptor table that
`execute_create_pcb` builds has slots 0 and 1 in use and bound to the terminal
operations, and they stay so under every sequence of open, read, write and close
calls of the process. -/
theorem close_spec (s : KState) (fd : Int) :
    ((fd < 0 ∨ fd ≥ 8 ∨ fd = 0 ∨ fd = 1 ∨ (s.cur.fd_array fd.toNat).flags = 0) →
      close s fd = some (-1, s)) ∧
    (2 ≤ fd → fd < 8 → (s.cur.fd_array fd.toNat).flags ≠ 0 →
      bound_by_open (s.cur.fd_array fd.toNat).file_operations_table_ptr →
      ∃ s1, close s fd = some (0, s1) ∧
        s1.cur.fd_array fd.toNat = { s.cur.fd_array fd.toNat with flags := 0 } ∧
        (∀ j, j ≠ fd.toNat → s1.cur.fd_array j = s.cur.fd_array j) ∧
        close s1 fd = some (-1, s1)) ∧
    (∀ (args : List Nat) (p : Nat), fd_table_ok (execute_create_pcb s args p).cur) ∧
    (∀ (calls : List syscall) (s1 : KState), fd_table_ok s.cur →
      syscall_run s calls = some s1 →
      same_process s s1 ∧
      (s1.cur.fd_array 0).flags ≠ 0 ∧
      (s1.cur.fd_array 0).file_operations_table_ptr = terminal_ops_table ∧
      (s1.cur.fd_array 1).flags ≠ 0 ∧
      (s1.cur.fd_array 1).file_operations_table_ptr = terminal_ops_table) := by
  refine ⟨fun h => ?_, fun h2 h8 hin hb => ?_, fun args p => fd_table_ok_create_pcb s args p,
    fun calls s1 hok hrun => ?_⟩
  · unfold close
    simp only [FD_ARRAY_SIZE, Nat.cast_ofNat]
    by_cases a : fd < 0 ∨ fd ≥ 8
    · rw [if_pos a]
    · rw [if_neg a]
      by_cases b : fd = 0 ∨ fd = 1
      · rw [if_pos b]
      · rw [if_neg b]
        rcases h with h | h | h | h | h
        · exact absurd (Or.inl h) a
        · exact absurd (Or.inr h) a
        · exact absurd (Or.inl h) b
        · exact absurd (Or.inr h) b
        · rw [if_pos h]
  · have hstep : close s fd = some (0, s.set_cur (s.cur.set_fd fd.toNat
        { s.cur.fd_array fd.toNat with flags := 0 })) := by
      unfold close
      simp only [FD_ARRAY_SIZE, Nat.cast_ofNat]
      rw [if_neg (by omega), if_neg (by omega), if_neg hin, call_close_bound _ _ hb]
      simp
    refine ⟨_, hstep, ?_, fun j hj => ?_, ?_⟩
    · rw [cur_set_cur]
      simp [pcb_t.set_fd]
    · rw [cur_set_cur]
      simp [pcb_t.set_fd, Function.update_noteq hj]
    · unfold close
      simp only [FD_ARRAY_SIZE, Nat.cast_ofNat]
      rw [if_neg (by omega), if_neg (by omega), if_pos]
      rw [cur_set_cur]
      simp [pcb_t.set_fd]
  · obtain ⟨k, m⟩ := syscall_run_preserves calls s s1 hok hrun
    exact ⟨m, k.1, k.2.1, k.2.2.1, k.2.2.2.1⟩

theorem close_spec_witness :
    ((1 : Int) < 0 ∨ (1 : Int) ≥ 8 ∨ (1 : Int) = 0 ∨ (1 : Int) = 1 ∨
        (shell_running.cur.fd_array (1 : Int).toNat).flags = 0) ∧
      close shell_running 1 = some (-1, shell_running) :=
  ⟨Or.inr (Or.inr (Or.inr (Or.inl rfl))),
    (close_spec shell_running 1).1 (Or.inr (Or.inr (Or.inr (Or.inl rfl))))⟩

/-! ### Process bookkeeping -/

set_option maxRecDepth 100000 in
/-- Claim C11: a pid should be marked in `pid_array` exactly when a live PCB
carries it. On the image `shellFS`: `execute("shell")` starts pid 0; `execute`
of "shell " followed by 128 letters `b` starts pid 1, and the `strcpy` of the
unterminated argument string writes a NUL on the `pid` field of the new PCB,
which becomes 0; `halt` then clears `pid_array[0]`. Afterwards the only live PCB
is the shell at `pcb_addr 0` with `pid = 0`, yet `pid_array[0] = 0` and
`pid_array[1] = 1`. -/
theorem pid_array_after_long_command :
    args_fit (ascii "shell") ∧ ¬ args_fit long_command ∧
    (krun (boot_state shellFS)
        [kevent.execute (ascii "shell") 0 0, kevent.execute long_command 0 0,
          kevent.halt 0]).map
      (fun s => (s.pid_array 0, s.pid_array 1, (s.pcb_mem (pcb_addr 0)).pid,
        (s.pcb_mem (pcb_addr 0)).parent_pcb))
      = some (0, 1, 0, 0) ∧
    (krun (boot_state shellFS)
        [kevent.execute (ascii "shell") 0 0, kevent.execute long_command 0 0,
          kevent.halt 0]).map
      (fun s => ((s.terminal 0).curr_pcb, (s.terminal 1).curr_pcb, (s.terminal 2).curr_pcb))
      = some (pcb_addr 0, 0, 0) := by
  refine ⟨by decide!, by decide!, by decide!, by decide!⟩

set_option maxRecDepth 100000 in
/-- Claim C12 as stated fails: a child can have a smaller pid than its parent.
On the image `shellFS`, with the three terminals started by timer ticks, the
shells of terminals 0 and 1 each start a second shell (pids 3 and 4), the one of
terminal 0 halts, and the second shell of terminal 1 then starts a child, which
gets pid 3 while its parent has pid 4. -/
theorem child_pid_below_parent :
    (krun (boot_state shellFS) tick_trace).map
      (fun s => (s.sched_term, (s.terminal 1).curr_pcb,
        (s.pcb_mem (s.terminal 1).curr_pcb).pid,
        (s.pcb_mem (s.terminal 1).curr_pcb).parent_pcb,
        (s.pcb_mem (s.pcb_mem (s.terminal 1).curr_pcb).parent_pcb).pid))
      = some (1, pcb_addr 3, 3, pcb_addr 4, 4) := by
  decide!


theorem pcb_addr_ne_zero (p : Nat) (h : p < MAX_PROC) : pcb_addr p ≠ 0 := by
  simp only [pcb_addr, KERNEL_MEM_END, _8KB_, MAX_PROC] at *
  omega

theorem pcb_addr_inj (p q : Nat) (hp : p < MAX_PROC) (hq : q < MAX_PROC)
    (h : pcb_addr p = pcb_addr q) : p = q := by
  simp only [pcb_addr, KERNEL_MEM_END, _8KB_, MAX_PROC] at *
  omega

theorem is_chain_lt (s : KState) :
    ∀ (l : List Nat) (ptr : Nat), is_chain s ptr l → ∀ x ∈ l, x < MAX_PROC := by
  intro l
  induction l with
  | nil =>
    intro ptr _ x hx
    cases hx
  | cons p rest ih =>
    intro ptr h x hx
    simp only [is_chain] at h
    obtain ⟨_, h2, _, h4⟩ := h
    rcases List.mem_cons.mp hx with rfl | hx1
    · exact h2
    · exact ih _ h4 x hx1

/-- A chain is still a chain when the `pid` and `parent_pcb` of its PCBs have
not changed. -/
theorem is_chain_frame (s s1 : KState) :
    ∀ (l : List Nat) (ptr : Nat),
      (∀ p ∈ l, (s1.pcb_mem (pcb_addr p)).pid = (s.pcb_mem (pcb_addr p)).pid ∧
        (s1.pcb_mem (pcb_addr p)).parent_pcb = (s.pcb_mem (pcb_addr p)).parent_pcb) →
      is_chain s ptr l → is_chain s1 ptr l := by
  intro l
  induction l with
  | nil =>
    intro ptr _ h
    simp only [is_chain] at h ⊢
    exact h
  | cons p rest ih =>
    intro ptr hf h
    simp only [is_chain] at h ⊢
    obtain ⟨h1, h2, h3, h4⟩ := h
    have hp := hf p (List.mem_cons_self _ _)
    rw [← h1] at hp
    refine ⟨h1, h2, ?_, ?_⟩
    · rw [hp.1]
      exact h3
    · rw [hp.2]
      exact ih _ (fun q hq => hf q (List.mem_cons_of_mem _ hq)) h4

theorem mem_all_pids (c : Nat → List Nat) (q : Nat) :
    q ∈ all_pids c ↔ ∃ t, t < TERMINAL_COUNT ∧ q ∈ c t := by
  simp only [all_pids, List.mem_append, TERMINAL_COUNT]
  constructor
  · rintro ((h | h) | h)
    · exact ⟨0, by omega, h⟩
    · exact ⟨1, by omega, h⟩
    · exact ⟨2, by omega, h⟩
  · rintro ⟨t, ht, h⟩
    interval_cases t
    · exact Or.inl (Or.inl h)
    · exact Or.inl (Or.inr h)
    · exact Or.inr h

theorem all_pids_update_cons (c : Nat → List Nat) (t p : Nat) (ht : t < TERMINAL_COUNT) :
    (all_pids (Function.update c t (p :: c t))).Perm (p :: all_pids c) := by
  simp only [TERMINAL_COUNT] at ht
  unfold all_pids
  interval_cases t
  · rw [Function.update_same, Function.update_noteq (by decide : (1 : Nat) ≠ 0),
      Function.update_noteq (by decide : (2 : Nat) ≠ 0)]
    exact List.Perm.refl _
  · rw [Function.update_same, Function.update_noteq (by decide : (0 : Nat) ≠ 1),
      Function.update_noteq (by decide : (2 : Nat) ≠ 1), List.append_assoc, List.append_assoc,
      List.cons_append]
    exact List.perm_middle
  · rw [Function.update_same, Function.update_noteq (by decide : (0 : Nat) ≠ 2),
      Function.update_noteq (by decide : (1 : Nat) ≠ 2)]
    exact List.perm_middle

theorem all_pids_update_tail (c : Nat → List Nat) (t p : Nat) (rest : List Nat)
    (ht : t < TERMINAL_COUNT) (h : c t = p :: rest) :
    (all_pids c).Perm (p :: all_pids (Function.update c t rest)) := by
  have h1 := all_pids_update_cons (Function.update c t rest) t p ht
  rw [Function.update_same, Function.update_idem, ← h, Function.update_eq_self] at h1
  exact h1

theorem same_tree_refl (s : KState) : same_tree s s :=
  ⟨rfl, fun _ => rfl, fun _ => ⟨rfl, rfl⟩⟩

theorem same_tree_trans (a b c : KState) (h1 : same_tree a b) (h2 : same_tree b c) :
    same_tree a c :=
  ⟨h2.1.trans h1.1, fun t => (h2.2.1 t).trans (h1.2.1 t),
    fun x => ⟨(h2.2.2 x).1.trans (h1.2.2 x).1, (h2.2.2 x).2.trans (h1.2.2 x).2⟩⟩

/-- Replacing a PCB by one with the same `pid` and `parent_pcb` changes neither
field anywhere. -/
theorem update_pcb_keep (m : Nat → pcb_t) (a : Nat) (q : pcb_t)
    (hq : q.pid = (m a).pid ∧ q.parent_pcb = (m a).parent_pcb) (x : Nat) :
    (Function.update m a q x).pid = (m x).pid ∧
      (Function.update m a q x).parent_pcb = (m x).parent_pcb := by
  by_cases e : x = a
  · rw [e, Function.update_same]
    exact hq
  · rw [Function.update_noteq e]
    exact ⟨rfl, rfl⟩

theorem update_term_keep (m : Nat → term_t) (a : Nat) (q : term_t)
    (hq : q.curr_pcb = (m a).curr_pcb) (t : Nat) :
    (Function.update m a q t).curr_pcb = (m t).curr_pcb := by
  by_cases e : t = a
  · rw [e, Function.update_same]
    exact hq
  · rw [Function.update_noteq e]

theorem kinv_of_same_tree (s s1 : KState) (c : Nat → List Nat) (h : same_tree s s1)
    (hs : s1.sched_term < TERMINAL_COUNT) (hinv : kinv s c) : kinv s1 c := by
  obtain ⟨h1, h2, h3⟩ := h
  refine ⟨hs, fun t ht => ?_, hinv.nodup, fun p hp => ?_, fun p hp => ?_⟩
  · rw [h2 t]
    exact is_chain_frame s s1 _ _ (fun q _ => h3 _) (hinv.chains t ht)
  · rw [h1]
    exact hinv.present p hp
  · rw [h1]
    exact hinv.bits p hp

/-- The bookkeeping after a new process with the free pid `p` has been put on
top of the chain of the scheduled terminal. -/
theorem kinv_push (s s1 : KState) (c : Nat → List Nat) (p : Nat) (hinv : kinv s c)
    (hp : p < MAX_PROC) (hfree : s.pid_array p = 0)
    (h1 : s1.sched_term = s.sched_term)
    (h2 : s1.pid_array = Function.update s.pid_array p 1)
    (h3 : ∀ t, (s1.terminal t).curr_pcb
      = if t = s.sched_term then pcb_addr p else (s.terminal t).curr_pcb)
    (h4 : (s1.pcb_mem (pcb_addr p)).pid = p)
    (h5 : (s1.pcb_mem (pcb_addr p)).parent_pcb = (s.terminal s.sched_term).curr_pcb)
    (h6 : ∀ a, a ≠ pcb_addr p → (s1.pcb_mem a).pid = (s.pcb_mem a).pid ∧
      (s1.pcb_mem a).parent_pcb = (s.pcb_mem a).parent_pcb) :
    kinv s1 (Function.update c s.sched_term (p :: c s.sched_term)) := by
  have hnot : p ∉ all_pids c := by
    intro hm
    have := (hinv.present p hp).mpr hm
    omega
  have hframe : ∀ t, t < TERMINAL_COUNT → ∀ q ∈ c t,
      (s1.pcb_mem (pcb_addr q)).pid = (s.pcb_mem (pcb_addr q)).pid ∧
      (s1.pcb_mem (pcb_addr q)).parent_pcb = (s.pcb_mem (pcb_addr q)).parent_pcb := by
    intro t ht q hq
    apply h6
    intro he
    have hq6 := is_chain_lt s _ _ (hinv.chains t ht) q hq
    have := pcb_addr_inj q p hq6 hp he
    rw [this] at hq
    exact hnot ((mem_all_pids c p).mpr ⟨t, ht, hq⟩)
  have hperm := all_pids_update_cons c s.sched_term p hinv.sched
  refine ⟨by rw [h1]; exact hinv.sched, fun t ht => ?_, ?_, fun q hq => ?_, fun q hq => ?_⟩
  · rw [h3 t]
    by_cases e : t = s.sched_term
    · rw [if_pos e, e, Function.update_same]
      simp only [is_chain]
      refine ⟨trivial, hp, h4, ?_⟩
      rw [h5]
      exact is_chain_frame s s1 _ _ (hframe _ hinv.sched) (hinv.chains _ hinv.sched)
    · rw [if_neg e, Function.update_noteq e]
      exact is_chain_frame s s1 _ _ (hframe t ht) (hinv.chains t ht)
  · exact hperm.nodup_iff.mpr (List.nodup_cons.mpr ⟨hnot, hinv.nodup⟩)
  · rw [h2, hperm.mem_iff, List.mem_cons]
    by_cases e : q = p
    · rw [e, Function.update_same]
      exact ⟨fun _ => Or.inl rfl, fun _ => rfl⟩
    · rw [Function.update_noteq e, hinv.present q hq]
      exact ⟨Or.inr, fun h => h.resolve_left e⟩
  · rw [h2]
    by_cases e : q = p
    · rw [e, Function.update_same]
      exact Or.inr rfl
    · rw [Function.update_noteq e]
      exact hinv.bits q hq

/-- The bookkeeping after the process on top of the chain of the scheduled
terminal has been removed. -/
theorem kinv_pop (s s1 : KState) (c : Nat → List Nat) (p : Nat) (rest : List Nat)
    (hinv : kinv s c) (hc : c s.sched_term = p :: rest)
    (h1 : s1.sched_term = s.sched_term)
    (h2 : s1.pid_array = Function.update s.pid_array p 0)
    (h3 : ∀ t, (s1.terminal t).curr_pcb
      = if t = s.sched_term then (s.pcb_mem (s.terminal s.sched_term).curr_pcb).parent_pcb
        else (s.terminal t).curr_pcb)
    (h4 : ∀ a, (s1.pcb_mem a).pid = (s.pcb_mem a).pid ∧
      (s1.pcb_mem a).parent_pcb = (s.pcb_mem a).parent_pcb) :
    kinv s1 (Function.update c s.sched_term rest) := by
  have hch := hinv.chains _ hinv.sched
  rw [hc] at hch
  simp only [is_chain] at hch
  obtain ⟨_, hp, _, hrest⟩ := hch
  have hperm := all_pids_update_tail c s.sched_term p rest hinv.sched hc
  have hnd := List.nodup_cons.mp (hperm.nodup_iff.mp hinv.nodup)
  refine ⟨by rw [h1]; exact hinv.sched, fun t ht => ?_, hnd.2, fun q hq => ?_, fun q hq => ?_⟩
  · rw [h3 t]
    by_cases e : t = s.sched_term
    · rw [if_pos e, e, Function.update_same]
      exact is_chain_frame s s1 _ _ (fun q _ => h4 _) hrest
    · rw [if_neg e, Function.update_noteq e]
      exact is_chain_frame s s1 _ _ (fun q _ => h4 _) (hinv.chains t ht)
  · rw [h2]
    by_cases e : q = p
    · rw [e, Function.update_same]
      exact ⟨fun h => absurd h (by decide), fun h => absurd h hnd.1⟩
    · rw [Function.update_noteq e, hinv.present q hq, hperm.mem_iff, List.mem_cons]
      exact ⟨fun h => h.resolve_left e, Or.inr⟩
  · rw [h2]
    by_cases e : q = p
    · rw [e, Function.update_same]
      exact Or.inl rfl
    · rw [Function.update_noteq e]
      exact hinv.bits q hq


theorem execute_entry_same (s : KState) (esp ebp : Nat) :
    same_tree s (execute_entry s esp ebp) ∧
    (execute_entry s esp ebp).sched_term = s.sched_term := by
  unfold execute_entry KState.set_term KState.set_cur KState.cur
  dsimp only
  split_ifs with h
  · refine ⟨⟨rfl, fun t => ?_, fun a => ?_⟩, rfl⟩
    · exact update_term_keep s.terminal s.sched_term _ (by rfl) t
    · exact update_pcb_keep s.pcb_mem (s.terminal s.sched_term).curr_pcb _ (by exact ⟨rfl, rfl⟩) a
  · refine ⟨⟨rfl, fun t => ?_, fun a => ⟨rfl, rfl⟩⟩, rfl⟩
    exact update_term_keep s.terminal s.sched_term _ (by rfl) t

theorem execute_find_pid_cases (a : Nat → Nat) :
    ((execute_find_pid a).1 = -1 ∧ (execute_find_pid a).2 = a) ∨
    ∃ j, j < MAX_PROC ∧ a j = 0 ∧ (execute_find_pid a).1 = (j : Int) ∧
      (execute_find_pid a).2 = Function.update a j 1 := by
  unfold execute_find_pid
  rcases execute_find_pid_loop_spec a MAX_PROC 0 with ⟨h1, _⟩ | ⟨j, _, h2, h3, _, h5⟩
  · left
    rw [h1]
    exact ⟨rfl, rfl⟩
  · right
    refine ⟨j, by omega, h3, ?_, ?_⟩
    · rw [h5]
    · rw [h5]

/-- The state that `execute` builds for a new process with pid `j`, in terms of
the process tree. -/
theorem execute_launch_tree (s : KState) (pa : Nat → Nat) (args : List Nat) (j : Nat)
    (hfit : strlen args < MAX_BUFFER_SIZE) :
    (execute_context_switch (execute_create_pcb
      (execute_program_paging { s with pid_array := pa } j) args j)).sched_term = s.sched_term ∧
    (execute_context_switch (execute_create_pcb
      (execute_program_paging { s with pid_array := pa } j) args j)).pid_array = pa ∧
    (∀ t, ((execute_context_switch (execute_create_pcb
      (execute_program_paging { s with pid_array := pa } j) args j)).terminal t).curr_pcb
        = if t = s.sched_term then pcb_addr j else (s.terminal t).curr_pcb) ∧
    ((execute_context_switch (execute_create_pcb
      (execute_program_paging { s with pid_array := pa } j) args j)).pcb_mem (pcb_addr j)).pid
        = j ∧
    ((execute_context_switch (execute_create_pcb
      (execute_program_paging { s with pid_array := pa } j) args j)).pcb_mem
        (pcb_addr j)).parent_pcb = (s.terminal s.sched_term).curr_pcb ∧
    ∀ a, a ≠ pcb_addr j → (execute_context_switch (execute_create_pcb
      (execute_program_paging { s with pid_array := pa } j) args j)).pcb_mem a = s.pcb_mem a := by
  unfold execute_context_switch execute_create_pcb execute_program_paging pcb_addr
  dsimp only
  refine ⟨rfl, rfl, fun t => ?_, ?_, ?_, fun a ha => ?_⟩
  · by_cases e : t = s.sched_term
    · rw [if_pos e, e, Function.update_same]
    · rw [if_neg e, Function.update_noteq e]
  · rw [Function.update_same]
    exact (strcpy_pcb_args_fit _ args hfit).1
  · rw [Function.update_same]
    exact (strcpy_pcb_args_fit _ args hfit).2.1
  · rw [Function.update_noteq ha]

/-- The two outcomes of `execute` on a command whose argument string fits: it
returns and the process tree is as before, or a process with the lowest free pid
is on top of the chain of the scheduled terminal. -/
theorem execute_cases (s : KState) (command : List Nat) (esp ebp : Nat)
    (hfit : args_fit command) :
    (execute s (some command) esp ebp).2.sched_term = s.sched_term ∧
    (((execute s (some command) esp ebp).1 ≠ none ∧
        same_tree s (execute s (some command) esp ebp).2) ∨
     ((execute s (some command) esp ebp).1 = none ∧
        ∃ p, p < MAX_PROC ∧ s.pid_array p = 0 ∧
        (execute s (some command) esp ebp).2.pid_array = Function.update s.pid_array p 1 ∧
        (∀ t, ((execute s (some command) esp ebp).2.terminal t).curr_pcb
          = if t = s.sched_term then pcb_addr p else (s.terminal t).curr_pcb) ∧
        ((execute s (some command) esp ebp).2.pcb_mem (pcb_addr p)).pid = p ∧
        ((execute s (some command) esp ebp).2.pcb_mem (pcb_addr p)).parent_pcb
          = (s.terminal s.sched_term).curr_pcb ∧
        ∀ a, a ≠ pcb_addr p →
          ((execute s (some command) esp ebp).2.pcb_mem a).pid = (s.pcb_mem a).pid ∧
          ((execute s (some command) esp ebp).2.pcb_mem a).parent_pcb
            = (s.pcb_mem a).parent_pcb)) := by
  obtain ⟨⟨e1, e2, e3⟩, e4⟩ := execute_entry_same s esp ebp
  unfold execute
  dsimp only
  generalize execute_entry s esp ebp = s3 at e1 e2 e3 e4 ⊢
  split_ifs with c1 c2 c3
  · exact ⟨e4, Or.inl ⟨by simp, e1, e2, e3⟩⟩
  · exact ⟨e4, Or.inl ⟨by simp, e1, e2, e3⟩⟩
  · rcases execute_find_pid_cases s3.pid_array with ⟨_, f2⟩ | ⟨j, _, _, f1, _⟩
    · rw [f2]
      exact ⟨e4, Or.inl ⟨by simp, e1, e2, e3⟩⟩
    · rw [f1] at c3
      omega
  · rcases execute_find_pid_cases s3.pid_array with ⟨f1, _⟩ | ⟨j, hj, hz, f1, f2⟩
    · exact absurd f1 c3
    · rw [f1, f2, Int.toNat_ofNat]
      obtain ⟨t1, t2, t3, t4, t5, t6⟩ := execute_launch_tree s3
        (Function.update s3.pid_array j 1)
        (array_bytes (execute_parse_args (fun _ => 0) (fun _ => 0) command).2 MAX_BUFFER_SIZE)
        j hfit
      refine ⟨t1.trans e4, Or.inr ⟨rfl, j, hj, ?_, ?_, fun t => ?_, t4, ?_, fun a ha => ?_⟩⟩
      · rw [← e1]
        exact hz
      · rw [← e1]
        exact t2
      · rw [← e2 t, ← e4]
        exact t3 t
      · rw [← e2 s.sched_term, ← e4]
        exact t5
      · rw [← (e3 a).1, ← (e3 a).2]
        dsimp only
        rw [t6 a ha]
        exact ⟨rfl, rfl⟩

theorem kinv_execute (s : KState) (c : Nat → List Nat) (command : List Nat) (esp ebp : Nat)
    (hinv : kinv s c) (hfit : args_fit command) :
    ∃ c1, kinv (execute s (some command) esp ebp).2 c1 := by
  obtain ⟨h1, ⟨_, h2⟩ | ⟨_, p, hp, hz, k2, k3, k4, k5, k6⟩⟩ :=
    execute_cases s command esp ebp hfit
  · exact ⟨c, kinv_of_same_tree s _ c h2 (by rw [h1]; exact hinv.sched) hinv⟩
  · exact ⟨_, kinv_push s _ c p hinv hp hz h1 k2 k3 k4 k5 k6⟩

theorem close_same_tree (s : KState) (fd : Int) (r : Int × KState)
    (h : close s fd = some r) : same_tree s r.2 ∧ r.2.sched_term = s.sched_term := by
  unfold close at h
  split_ifs at h with a b c
  · simp only [Option.some.injEq] at h
    rw [← h]
    exact ⟨same_tree_refl s, rfl⟩
  · simp only [Option.some.injEq] at h
    rw [← h]
    exact ⟨same_tree_refl s, rfl⟩
  · simp only [Option.some.injEq] at h
    rw [← h]
    exact ⟨same_tree_refl s, rfl⟩
  · cases hc : call_close (s.cur.fd_array fd.toNat).file_operations_table_ptr.op_close s with
    | none =>
      rw [hc] at h
      simp at h
    | some r1 =>
      rw [hc] at h
      have hr := call_close_state _ _ _ hc
      dsimp only at h
      split_ifs at h with d
      · simp only [Option.some.injEq] at h
        rw [← h, hr]
        exact ⟨same_tree_refl s, rfl⟩
      · simp only [Option.some.injEq] at h
        rw [← h, hr]
        refine ⟨⟨rfl, fun _ => rfl, fun x => ?_⟩, rfl⟩
        exact update_pcb_keep s.pcb_mem (s.terminal s.sched_term).curr_pcb _ (by exact ⟨rfl, rfl⟩) x

theorem halt_close_all_same_tree :
    ∀ (rem i : Nat) (s s1 : KState), halt_close_all rem i s = some s1 →
      same_tree s s1 ∧ s1.sched_term = s.sched_term := by
  intro rem
  induction rem with
  | zero =>
    intro i s s1 h
    simp only [halt_close_all, Option.some.injEq] at h
    rw [← h]
    exact ⟨same_tree_refl s, rfl⟩
  | succ n ih =>
    intro i s s1 h
    rw [halt_close_all] at h
    cases hc : close s (i : Int) with
    | none =>
      rw [hc] at h
      simp at h
    | some r =>
      rw [hc] at h
      dsimp only at h
      obtain ⟨a1, a2⟩ := close_same_tree s _ r hc
      obtain ⟨b1, b2⟩ := ih _ _ _ h
      exact ⟨same_tree_trans _ _ _ a1 b1, b2.trans a2⟩


theorem args_fit_shell : args_fit (ascii "shell") := by
  decide!

theorem kinv_halt (s : KState) (c : Nat → List Nat) (status : Nat)
    (r : Option exec_fin × KState) (hinv : kinv s c)
    (hcur : (s.terminal s.sched_term).curr_pcb ≠ 0) (h : halt s status = some r) :
    ∃ c1, kinv r.2 c1 := by
  unfold halt at h
  cases hc : halt_close_all FD_ARRAY_SIZE 0 s with
  | none =>
    rw [hc] at h
    simp at h
  | some s1 =>
    rw [hc] at h
    obtain ⟨a1, a2⟩ := halt_close_all_same_tree _ _ _ _ hc
    have hinv1 := kinv_of_same_tree s s1 c a1 (by rw [a2]; exact hinv.sched) hinv
    have hcur1 : (s1.terminal s1.sched_term).curr_pcb ≠ 0 := by
      rw [a1.2.1, a2]
      exact hcur
    have hch := hinv1.chains _ hinv1.sched
    cases hl : c s1.sched_term with
    | nil =>
      rw [hl] at hch
      simp only [is_chain] at hch
      exact absurd hch hcur1
    | cons p rest =>
      rw [hl] at hch
      simp only [is_chain] at hch
      obtain ⟨_, _, hpid, _⟩ := hch
      simp only [KState.cur, KState.set_term] at h
      by_cases hroot : (s1.pcb_mem (s1.terminal s1.sched_term).curr_pcb).parent_pcb = 0
      · rw [if_pos hroot] at h
        generalize hres : execute _ (some (ascii "shell")) 0 0 = res at h
        have k1 : ∃ c1, kinv res.2 c1 := by
          rw [← hres]
          apply kinv_execute _ (Function.update c s1.sched_term rest) _ _ _ _ args_fit_shell
          apply kinv_pop s1 _ c p rest hinv1 hl
          · rfl
          · show Function.update s1.pid_array _ 0 = _
            rw [hpid]
          · intro t
            show (Function.update s1.terminal s1.sched_term _ t).curr_pcb = _
            by_cases e : t = s1.sched_term
            · rw [if_pos e, e, Function.update_same, hroot]
            · rw [if_neg e, Function.update_noteq e]
          · intro a
            exact ⟨rfl, rfl⟩
        rcases res with ⟨_ | v, s4⟩
        · simp only [Option.some.injEq] at h
          rw [← h]
          exact k1
        · simp at h
      · rw [if_neg hroot] at h
        simp only [Option.some.injEq] at h
        rw [← h]
        refine ⟨Function.update c s1.sched_term rest, ?_⟩
        apply kinv_pop s1 _ c p rest hinv1 hl
        · rfl
        · show Function.update s1.pid_array _ 0 = _
          rw [hpid]
        · intro t
          dsimp only
          by_cases e : t = s1.sched_term
          · rw [if_pos e, e]
            simp only [Function.update_same]
          · rw [if_neg e, Function.update_noteq e, Function.update_noteq e]
        · intro a
          exact ⟨rfl, rfl⟩


theorem kinv_scheduler (s : KState) (c : Nat → List Nat) (prev next esp ebp : Nat)
    (s1 : KState) (hinv : kinv s c) (hnext : next < TERMINAL_COUNT)
    (h : scheduler s prev next esp ebp = some s1) : ∃ c1, kinv s1 c1 := by
  unfold scheduler at h
  by_cases e : prev = next
  · rw [if_pos e] at h
    simp only [Option.some.injEq] at h
    rw [← h]
    exact ⟨c, hinv⟩
  · rw [if_neg e] at h
    dsimp only at h
    generalize hS : (ite ((s.terminal prev).active ≠ 0) _ s : KState) = S1 at h
    have hST : same_tree s S1 := by
      rw [← hS]
      split_ifs
      · exact ⟨rfl, fun _ => rfl,
          fun a => update_pcb_keep s.pcb_mem (s.terminal prev).curr_pcb _ (by exact ⟨rfl, rfl⟩) a⟩
      · exact same_tree_refl s
    have k2 : kinv { S1 with sched_term := next } c :=
      kinv_of_same_tree s _ c hST hnext hinv
    by_cases a : (S1.terminal next).active = 0
    · rw [if_pos a] at h
      simp only [Option.some.injEq] at h
      rw [← h]
      exact kinv_execute _ c _ _ _ k2 args_fit_shell
    · rw [if_neg a] at h
      by_cases b : (S1.terminal next).curr_pcb = 0
      · rw [if_pos b] at h
        simp at h
      · rw [if_neg b] at h
        simp only [Option.some.injEq] at h
        rw [← h]
        exact ⟨c, kinv_of_same_tree { S1 with sched_term := next } _ c
          ⟨rfl, fun _ => rfl, fun _ => ⟨rfl, rfl⟩⟩ hnext k2⟩

theorem kinv_tick (s : KState) (c : Nat → List Nat) (esp ebp : Nat) (s1 : KState)
    (hinv : kinv s c) (h : pit_intr_handler s esp ebp = some s1) : ∃ c1, kinv s1 c1 := by
  unfold pit_intr_handler at h
  split_ifs at h with h0
  · simp only [Option.some.injEq] at h
    rw [← h]
    exact ⟨c, hinv⟩
  · exact kinv_scheduler s c _ _ esp ebp s1 hinv (Nat.mod_lt _ (by decide)) h

theorem kinv_step (s : KState) (c : Nat → List Nat) (e : kevent) (s1 : KState)
    (hinv : kinv s c) (hfit : event_fits e) (h : kstep s e = some s1) : ∃ c1, kinv s1 c1 := by
  cases e with
  | execute command esp ebp =>
    simp only [kstep, Option.some.injEq] at h
    rw [← h]
    exact kinv_execute s c command esp ebp hinv hfit
  | halt status =>
    simp only [kstep] at h
    split_ifs at h with h0
    cases hh : halt s status with
    | none =>
      rw [hh] at h
      simp at h
    | some r =>
      rw [hh] at h
      simp only [Option.some.injEq] at h
      rw [← h]
      exact kinv_halt s c status r hinv h0 hh
  | tick esp ebp => exact kinv_tick s c esp ebp s1 hinv h

theorem kinv_run :
    ∀ (evs : List kevent) (s : KState) (c : Nat → List Nat) (s1 : KState), kinv s c →
      (∀ e ∈ evs, event_fits e) → krun s evs = some s1 → ∃ c1, kinv s1 c1 := by
  intro evs
  induction evs with
  | nil =>
    intro s c s1 hinv _ h
    simp only [krun, Option.some.injEq] at h
    rw [← h]
    exact ⟨c, hinv⟩
  | cons e es ih =>
    intro s c s1 hinv hfit h
    rw [krun] at h
    cases hk : kstep s e with
    | none =>
      rw [hk] at h
      simp at h
    | some s2 =>
      rw [hk] at h
      obtain ⟨c2, k2⟩ := kinv_step s c e s2 hinv (hfit e (List.mem_cons_self _ _)) hk
      exact ih s2 c2 s1 k2 (fun x hx => hfit x (List.mem_cons_of_mem _ hx)) h

theorem kinv_boot (s : KState) (h : is_boot s) : kinv s (fun _ => []) := by
  obtain ⟨h1, h2, h3⟩ := h
  refine ⟨by rw [h1]; decide, fun t ht => ?_, by simp [all_pids], fun p hp => ?_,
    fun p hp => Or.inl (h2 p hp)⟩
  · simp only [is_chain]
    exact h3 t ht
  · rw [h2 p hp]
    simp [all_pids]

theorem follow_parent_succ (s : KState) :
    ∀ (k ptr : Nat), follow_parent s (k + 1) ptr
      = if follow_parent s k ptr = 0 then 0
        else (s.pcb_mem (follow_parent s k ptr)).parent_pcb := by
  intro k
  induction k with
  | zero =>
    intro ptr
    simp only [follow_parent]
  | succ n ih =>
    intro ptr
    rw [follow_parent]
    by_cases e : ptr = 0
    · rw [if_pos e, follow_parent, if_pos e, if_pos rfl]
    · rw [if_neg e, ih, follow_parent, if_neg e]

theorem is_chain_follow (s : KState) :
    ∀ (k : Nat) (l : List Nat) (ptr : Nat), is_chain s ptr l →
      is_chain s (follow_parent s k ptr) (l.drop k) := by
  intro k
  induction k with
  | zero =>
    intro l ptr h
    simpa [follow_parent] using h
  | succ n ih =>
    intro l ptr h
    cases l with
    | nil =>
      simp only [is_chain] at h
      rw [h]
      simp [follow_parent, is_chain]
    | cons p rest =>
      simp only [is_chain] at h
      obtain ⟨h1, h2, _, h4⟩ := h
      rw [follow_parent, if_neg (by rw [h1]; exact pcb_addr_ne_zero p h2), List.drop_succ_cons]
      exact ih _ _ h4

theorem is_chain_head (s : KState) (ptr : Nat) (l : List Nat) (h : is_chain s ptr l)
    (hne : ptr ≠ 0) :
    ∃ p rest, l = p :: rest ∧ ptr = pcb_addr p ∧ p < MAX_PROC ∧ (s.pcb_mem ptr).pid = p ∧
      is_chain s (s.pcb_mem ptr).parent_pcb rest := by
  cases l with
  | nil =>
    simp only [is_chain] at h
    exact absurd h hne
  | cons p rest =>
    simp only [is_chain] at h
    exact ⟨p, rest, rfl, h⟩

theorem is_chain_root (s : KState) :
    ∀ (l : List Nat) (ptr : Nat), is_chain s ptr l → ptr ≠ 0 →
      ∃ k, k < l.length ∧ follow_parent s k ptr ≠ 0 ∧
        (s.pcb_mem (follow_parent s k ptr)).parent_pcb = 0 := by
  intro l
  induction l with
  | nil =>
    intro ptr h hne
    simp only [is_chain] at h
    exact absurd h hne
  | cons p rest ih =>
    intro ptr h hne
    simp only [is_chain] at h
    obtain ⟨_, _, _, h4⟩ := h
    by_cases e : (s.pcb_mem ptr).parent_pcb = 0
    · exact ⟨0, by simp, hne, e⟩
    · obtain ⟨k, hk1, hk2, hk3⟩ := ih _ h4 e
      refine ⟨k + 1, by simp only [List.length_cons]; omega, ?_, ?_⟩
      · rw [follow_parent, if_neg hne]
        exact hk2
      · rw [follow_parent, if_neg hne]
        exact hk3

theorem nodup_chain (c : Nat → List Nat) (t : Nat) (ht : t < TERMINAL_COUNT)
    (h : (all_pids c).Nodup) : (c t).Nodup := by
  simp only [TERMINAL_COUNT] at ht
  unfold all_pids at h
  interval_cases t
  · exact h.of_append_left.of_append_left
  · exact h.of_append_left.of_append_right
  · exact h.of_append_right

theorem nodup_length_le (l : List Nat) (n : Nat) (h : l.Nodup) (hlt : ∀ x ∈ l, x < n) :
    l.length ≤ n := by
  have hsub : l ⊆ List.range n := fun x hx => List.mem_range.mpr (hlt x hx)
  have := (List.subperm_of_subset h hsub).length_le
  simpa using this

/-- Claim C12, amended: in every state reached from boot by `execute`, `halt`
and timer-tick steps whose argument strings are NUL-terminated within 128 bytes,
a live PCB has a pid below 6 and sits at the address of its pid; if it has a
parent, the parent is live and has a different pid (greater or smaller); and
following parent links from it reaches a PCB without parent in fewer than
`MAX_PROC` steps. -/
theorem parent_links_spec (s0 : KState) (evs : List kevent) (s : KState) (q : Nat)
    (hboot : is_boot s0) (hfit : ∀ e ∈ evs, event_fits e) (hrun : krun s0 evs = some s)
    (hq : live_pcb s q) :
    (s.pcb_mem q).pid < MAX_PROC ∧ q = pcb_addr (s.pcb_mem q).pid ∧
    ((s.pcb_mem q).parent_pcb ≠ 0 →
      live_pcb s (s.pcb_mem q).parent_pcb ∧
      (s.pcb_mem (s.pcb_mem q).parent_pcb).pid ≠ (s.pcb_mem q).pid) ∧
    ∃ k, k < MAX_PROC ∧ follow_parent s k q ≠ 0 ∧
      (s.pcb_mem (follow_parent s k q)).parent_pcb = 0 := by
  obtain ⟨c, hinv⟩ := kinv_run evs s0 _ s (kinv_boot s0 hboot) hfit hrun
  obtain ⟨hq0, t, ht, k, hk⟩ := hq
  have hch := is_chain_follow s k _ _ (hinv.chains t ht)
  rw [hk] at hch
  obtain ⟨p, rest, hl, h1, h2, h3, h4⟩ := is_chain_head s q _ hch hq0
  have hnd : (p :: rest).Nodup := by
    rw [← hl]
    exact (nodup_chain c t ht hinv.nodup).sublist (List.drop_sublist k _)
  rw [hl] at hch
  have hlen := nodup_length_le _ MAX_PROC hnd (is_chain_lt s _ _ hch)
  refine ⟨by rw [h3]; exact h2, by rw [h3]; exact h1, fun hpar => ⟨⟨hpar, t, ht, k + 1, ?_⟩, ?_⟩,
    ?_⟩
  · rw [follow_parent_succ, hk, if_neg hq0]
  · obtain ⟨p1, rest1, hl1, _, _, g3, _⟩ := is_chain_head s _ _ h4 hpar
    rw [g3, h3]
    rw [hl1] at hnd
    intro e
    rw [e] at hnd
    simp at hnd
  · obtain ⟨k1, g1, g2, g3⟩ := is_chain_root s _ q hch hq0
    exact ⟨k1, by omega, g2, g3⟩


theorem mem_drop_cons (l : List Nat) (p : Nat) (h : p ∈ l) :
    ∃ k rest, l.drop k = p :: rest := by
  induction l with
  | nil => cases h
  | cons a t ih =>
    rcases List.mem_cons.mp h with e | h1
    · exact ⟨0, t, by rw [e, List.drop_zero]⟩
    · obtain ⟨k, rest, hk⟩ := ih h1
      exact ⟨k + 1, rest, by rw [List.drop_succ_cons]; exact hk⟩

/-- In every state reached from boot by steps whose argument strings are
NUL-terminated within 128 bytes, a pid is marked in `pid_array` exactly when a
live PCB carries it. -/
theorem pid_array_live_spec (s0 : KState) (evs : List kevent) (s : KState) (p : Nat)
    (hboot : is_boot s0) (hfit : ∀ e ∈ evs, event_fits e) (hrun : krun s0 evs = some s)
    (hp : p < MAX_PROC) :
    s.pid_array p = 1 ↔ ∃ q, live_pcb s q ∧ (s.pcb_mem q).pid = p := by
  obtain ⟨c, hinv⟩ := kinv_run evs s0 _ s (kinv_boot s0 hboot) hfit hrun
  rw [hinv.present p hp, mem_all_pids]
  constructor
  · rintro ⟨t, ht, hm⟩
    obtain ⟨k, rest, hk⟩ := mem_drop_cons _ p hm
    have hch := is_chain_follow s k _ _ (hinv.chains t ht)
    rw [hk] at hch
    simp only [is_chain] at hch
    obtain ⟨h1, h2, h3, _⟩ := hch
    exact ⟨_, ⟨by rw [h1]; exact pcb_addr_ne_zero p h2, t, ht, k, rfl⟩, h3⟩
  · rintro ⟨q, ⟨hq0, t, ht, k, hk⟩, hpid⟩
    have hch := is_chain_follow s k _ _ (hinv.chains t ht)
    rw [hk] at hch
    obtain ⟨p1, rest, hl, _, _, h3, _⟩ := is_chain_head s q _ hch hq0
    refine ⟨t, ht, List.mem_of_mem_drop (?_ : p ∈ (c t).drop k)⟩
    rw [hl, ← hpid, h3]
    exact List.mem_cons_self _ _

set_option maxRecDepth 100000 in
theorem parent_links_spec_witness :
    is_boot (boot_state shellFS) ∧ (∀ e ∈ tick_trace, event_fits e) ∧
    krun (boot_state shellFS) tick_trace = some tick_state ∧
    live_pcb tick_state (pcb_addr 3) ∧
    ((tick_state.pcb_mem (pcb_addr 3)).pid < MAX_PROC ∧
      pcb_addr 3 = pcb_addr (tick_state.pcb_mem (pcb_addr 3)).pid ∧
      ((tick_state.pcb_mem (pcb_addr 3)).parent_pcb ≠ 0 →
        live_pcb tick_state (tick_state.pcb_mem (pcb_addr 3)).parent_pcb ∧
        (tick_state.pcb_mem (tick_state.pcb_mem (pcb_addr 3)).parent_pcb).pid
          ≠ (tick_state.pcb_mem (pcb_addr 3)).pid) ∧
      ∃ k, k < MAX_PROC ∧ follow_parent tick_state k (pcb_addr 3) ≠ 0 ∧
        (tick_state.pcb_mem (follow_parent tick_state k (pcb_addr 3))).parent_pcb = 0) := by
  have hboot : is_boot (boot_state shellFS) := ⟨rfl, fun _ _ => rfl, fun _ _ => rfl⟩
  have hfit : ∀ e ∈ tick_trace, event_fits e := by decide!
  have hsome : (krun (boot_state shellFS) tick_trace).isSome = true := by decide!
  have hrun : krun (boot_state shellFS) tick_trace = some tick_state := by
    unfold tick_state
    cases hk : krun (boot_state shellFS) tick_trace with
    | none =>
      rw [hk] at hsome
      cases hsome
    | some v => rfl
  have hlive : live_pcb tick_state (pcb_addr 3) :=
    ⟨by decide, 1, by decide, 0, by decide!⟩
  exact ⟨hboot, hfit, hrun, hlive,
    parent_links_spec (boot_state shellFS) tick_trace tick_state (pcb_addr 3) hboot hfit hrun
      hlive⟩


/-! ### init_pit -/

/-- Claim C27: `init_pit` should load the divisor `DIV_100HZ = 11932` into
channel 0, low byte first. The low byte is computed as `div && LOWER_8`, a
logical and, which is 1: the bytes written to port 0x40 are 1 and 46, and they
compose to 11777. -/
theorem init_pit_divisor :
    init_pit [] = [(0x43, 0x36), (0x40, 1), (0x40, 46)] ∧
      channel0_divisor (init_pit []) = some 11777 ∧
      DIV_100HZ % 256 = 156 ∧ DIV_100HZ / 256 = 46 ∧
      channel0_divisor (init_pit []) ≠ some DIV_100HZ := by
  decide

/-! ### rtc_open, rtc_write -/

theorem to_u32_of_nat (n : Nat) (h : n < U32) : to_u32 (n : Int) = n := by
  unfold to_u32
  simp only [U32] at h
  omega

theorem and_pred_eq_zero : ∀ n, n ≤ 512 → 2 ≤ n → n &&& (n - 1) = 0 → ∃ k, k ≤ 9 ∧ n = 2 ^ k := by
  decide!

theorem pow_two_and_pred : ∀ k, k ≤ 9 → 1 ≤ k → (2 ^ k) &&& (2 ^ k - 1) = 0 := by
  decide!

/-- The test of `rtc_write` on the rate rejects exactly the values that are not
a power of two between 2 and 512. -/
theorem rtc_write_test (v : Int) :
    (v ≤ 1 ∨ (to_u32 v &&& to_u32 (v - 1)) ≠ 0 ∨ v > (_512HZ_ : Int)) ↔
      ¬ (power_of_two v ∧ 2 ≤ v ∧ v ≤ 512) := by
  by_cases hr : 2 ≤ v ∧ v ≤ 512
  · obtain ⟨n, rfl⟩ := Int.eq_ofNat_of_zero_le (show 0 ≤ v by omega)
    have hn2 : 2 ≤ n := by omega
    have hn5 : n ≤ 512 := by omega
    have e1 : to_u32 (n : Int) = n := to_u32_of_nat n (by simp only [U32]; omega)
    have e2 : to_u32 ((n : Int) - 1) = n - 1 := by
      have := to_u32_of_nat (n - 1) (by simp only [U32]; omega)
      rw [← this]
      congr 1
      omega
    rw [e1, e2]
    constructor
    · rintro (h | h | h)
      · omega
      · rintro ⟨⟨k, hk⟩, _, _⟩
        have hk1 : n = 2 ^ k := by exact_mod_cast hk
        have hk9 : k ≤ 9 := by
          by_contra hc
          have : 2 ^ 10 ≤ 2 ^ k := Nat.pow_le_pow_right (by decide) (by omega)
          omega
        have hk0 : 1 ≤ k := by
          rcases Nat.eq_zero_or_pos k with h0 | h0
          · rw [h0] at hk1
            omega
          · exact h0
        rw [hk1] at h
        exact h (pow_two_and_pred k hk9 hk0)
      · simp only [_512HZ_] at h
        omega
    · intro h
      right
      left
      intro hz
      obtain ⟨k, _, hk⟩ := and_pred_eq_zero n hn5 hn2 hz
      exact h ⟨⟨k, by exact_mod_cast hk⟩, hr.1, hr.2⟩
  · constructor
    · intro _ h
      exact hr ⟨h.2.1, h.2.2⟩
    · intro _
      simp only [_512HZ_]
      omega

/-- Claim C21: `rtc_open` sets the period of the scheduled terminal to 256.
`rtc_write(fd, buf, n)`, with `f` the 32-bit integer in the buffer, returns 0
and sets the period to `512 / f`, so that period times `f` is 512, when the
buffer is not null, `n = 4` and `f` is a power of two from 2 to 512; in every
other case it returns -1 and changes nothing. -/
theorem rtc_write_spec (s : KState) (buf_addr : Nat) (buf : Nat → Nat) (nbytes : Int) :
    ((rtc_open s).1 = 0 ∧ ((rtc_open s).2.terminal s.sched_term).rtc_constant = 256) ∧
    ((buf_addr ≠ 0 ∧ nbytes = 4 ∧ power_of_two (to_i32 (from_le32 buf)) ∧
        2 ≤ to_i32 (from_le32 buf) ∧ to_i32 (from_le32 buf) ≤ 512) →
      (rtc_write s buf_addr buf nbytes).1 = 0 ∧
      (((rtc_write s buf_addr buf nbytes).2.terminal s.sched_term).rtc_constant : Int)
        = 512 / to_i32 (from_le32 buf) ∧
      (((rtc_write s buf_addr buf nbytes).2.terminal s.sched_term).rtc_constant : Int)
        * to_i32 (from_le32 buf) = 512) ∧
    (¬ (buf_addr ≠ 0 ∧ nbytes = 4 ∧ power_of_two (to_i32 (from_le32 buf)) ∧
        2 ≤ to_i32 (from_le32 buf) ∧ to_i32 (from_le32 buf) ≤ 512) →
      rtc_write s buf_addr buf nbytes = (-1, s)) := by
  refine ⟨⟨rfl, ?_⟩, fun h => ?_, fun h => ?_⟩
  · simp [rtc_open, KState.set_term, _512HZ_, _2HZ_]
  · obtain ⟨h1, h2, h3, h4, h5⟩ := h
    have ht := (rtc_write_test (to_i32 (from_le32 buf))).not.mpr (not_not.mpr ⟨h3, h4, h5⟩)
    unfold rtc_write
    rw [if_neg (by rintro (a | a); exact h1 a; exact a h2)]
    dsimp only
    rw [if_neg ht]
    generalize to_i32 (from_le32 buf) = v at h3 h4 h5
    obtain ⟨k, hk⟩ := h3
    have hk9 : k ≤ 9 := by
      by_contra hc
      have : (2 : Int) ^ 10 ≤ 2 ^ k := pow_le_pow_right₀ (by decide) (by omega)
      omega
    subst hk
    have hto : ((2 : Int) ^ k).toNat = 2 ^ k := by
      have e : ((2 : Int) ^ k) = ((2 ^ k : Nat) : Int) := by
        push_cast
        rfl
      rw [e, Int.toNat_ofNat]
    have hval : (((s.set_term { s.terminal s.sched_term with
        rtc_constant := _512HZ_ / ((2 : Int) ^ k).toNat }).terminal s.sched_term).rtc_constant)
        = 512 / 2 ^ k := by
      rw [hto]
      simp [KState.set_term, _512HZ_]
    refine ⟨rfl, ?_, ?_⟩
    · dsimp only
      rw [hval]
      interval_cases k <;> decide
    · dsimp only
      rw [hval]
      interval_cases k <;> decide
  · unfold rtc_write
    by_cases a : buf_addr = 0 ∨ nbytes ≠ 4
    · rw [if_pos a]
    · rw [if_neg a]
      dsimp only
      rw [if_pos]
      apply (rtc_write_test _).mpr
      intro hp
      apply h
      refine ⟨fun e => a (Or.inl e), ?_, hp⟩
      by_contra hn
      exact a (Or.inr hn)

theorem rtc_write_spec_witness :
    ((1 : Nat) ≠ 0 ∧ (4 : Int) = 4 ∧
        power_of_two (to_i32 (from_le32 (Function.update (fun _ => 0) 0 8))) ∧
        2 ≤ to_i32 (from_le32 (Function.update (fun _ => 0) 0 8)) ∧
        to_i32 (from_le32 (Function.update (fun _ => 0) 0 8)) ≤ 512) ∧
      (rtc_write shell_running 1 (Function.update (fun _ => 0) 0 8) 4).1 = 0 ∧
      ((rtc_write shell_running 1 (Function.update (fun _ => 0) 0 8) 4).2.terminal
        shell_running.sched_term).rtc_constant = 64 := by
  have hyp : (1 : Nat) ≠ 0 ∧ (4 : Int) = 4 ∧
      power_of_two (to_i32 (from_le32 (Function.update (fun _ => 0) 0 8))) ∧
      2 ≤ to_i32 (from_le32 (Function.update (fun _ => 0) 0 8)) ∧
      to_i32 (from_le32 (Function.update (fun _ => 0) 0 8)) ≤ 512 :=
    ⟨by decide, rfl, ⟨3, by decide⟩, by decide, by decide⟩
  exact ⟨hyp, ((rtc_write_spec shell_running 1 (Function.update (fun _ => 0) 0 8) 4).2.1 hyp).1,
    by decide!⟩


/-! ### paging_init -/

theorem paging_init_defaults_spec :
    ∀ (rem i : Nat) (p : paging_t) (j : Nat),
      (paging_init_defaults rem i p).page_directory j
        = (if i ≤ j ∧ j < i + rem then RW &&& c_not32 PRESENT else p.page_directory j) ∧
      (paging_init_defaults rem i p).page_table j
        = (if i ≤ j ∧ j < i + rem then ((j * PAGE_SIZE) % U32) ||| (RW &&& c_not32 PRESENT)
          else p.page_table j) := by
  intro rem
  induction rem with
  | zero =>
    intro i p j
    rw [paging_init_defaults, if_neg (by omega), if_neg (by omega)]
    exact ⟨rfl, rfl⟩
  | succ n ih =>
    intro i p j
    rw [paging_init_defaults]
    obtain ⟨h1, h2⟩ := ih (i + 1)
      { page_directory := Function.update p.page_directory i (RW &&& c_not32 PRESENT)
        page_table := Function.update p.page_table i
          (((i * PAGE_SIZE) % U32) ||| (RW &&& c_not32 PRESENT))
        user_video_page_table := Function.update p.user_video_page_table i
          (((i * PAGE_SIZE) % U32) ||| (RW &&& c_not32 PRESENT)) } j
    rw [h1, h2]
    dsimp only
    by_cases e : j = i
    · have c1 : ¬ (i + 1 ≤ i ∧ i < i + 1 + n) := by omega
      have c2 : i ≤ i ∧ i < i + (n + 1) := by omega
      rw [e, if_neg c1, if_neg c1, if_pos c2, if_pos c2, Function.update_same,
        Function.update_same]
      exact ⟨rfl, rfl⟩
    · rw [Function.update_noteq e, Function.update_noteq e]
      by_cases c : i + 1 ≤ j ∧ j < i + 1 + n
      · have c2 : i ≤ j ∧ j < i + (n + 1) := by omega
        rw [if_pos c, if_pos c, if_pos c2, if_pos c2]
        exact ⟨rfl, rfl⟩
      · have c2 : ¬ (i ≤ j ∧ j < i + (n + 1)) := by omega
        rw [if_neg c, if_neg c, if_neg c2, if_neg c2]
        exact ⟨rfl, rfl⟩

theorem paging_init_video_spec :
    ∀ (rem i : Nat) (pt : Nat → Nat) (j : Nat),
      paging_init_video rem i pt j
        = if VIDEO_MEM_PAGE + i ≤ j ∧ j < VIDEO_MEM_PAGE + i + rem then pt j ||| (RW ||| PRESENT)
          else pt j := by
  intro rem
  induction rem with
  | zero =>
    intro i pt j
    rw [paging_init_video, if_neg (by omega)]
  | succ n ih =>
    intro i pt j
    rw [paging_init_video, ih]
    by_cases e : j = VIDEO_MEM_PAGE + i
    · have c1 : ¬ (VIDEO_MEM_PAGE + (i + 1) ≤ VIDEO_MEM_PAGE + i ∧
          VIDEO_MEM_PAGE + i < VIDEO_MEM_PAGE + (i + 1) + n) := by omega
      have c2 : VIDEO_MEM_PAGE + i ≤ VIDEO_MEM_PAGE + i ∧
          VIDEO_MEM_PAGE + i < VIDEO_MEM_PAGE + i + (n + 1) := by omega
      rw [e, if_neg c1, if_pos c2, Function.update_same]
    · rw [Function.update_noteq e]
      by_cases c : VIDEO_MEM_PAGE + (i + 1) ≤ j ∧ j < VIDEO_MEM_PAGE + (i + 1) + n
      · have c2 : VIDEO_MEM_PAGE + i ≤ j ∧ j < VIDEO_MEM_PAGE + i + (n + 1) := by omega
        rw [if_pos c, if_pos c2]
      · have c2 : ¬ (VIDEO_MEM_PAGE + i ≤ j ∧ j < VIDEO_MEM_PAGE + i + (n + 1)) := by omega
        rw [if_neg c, if_neg c2]

theorem lor_three_present (a : Nat) : entry_present (a ||| (RW ||| PRESENT)) := by
  unfold entry_present
  show (a ||| 3) &&& 1 ≠ 0
  rw [Nat.and_one_is_mod]
  have h : Nat.testBit (a ||| 3) 0 = true := by
    rw [Nat.testBit_or]
    simp
  rw [Nat.testBit_zero] at h
  have h2 := of_decide_eq_true h
  omega

theorem page_table_entries :
    ∀ i, i < MAX_ENTRIES →
      (((if VIDEO_MEM_PAGE + 0 ≤ i ∧ i < VIDEO_MEM_PAGE + 0 + (TERMINAL_COUNT + 1) then
            (((i * PAGE_SIZE) % U32) ||| (RW &&& c_not32 PRESENT)) ||| (RW ||| PRESENT)
          else ((i * PAGE_SIZE) % U32) ||| (RW &&& c_not32 PRESENT)) &&& PRESENT ≠ 0
        ↔ 0xB8 ≤ i ∧ i ≤ 0xBB) ∧
      (0xB8 ≤ i → i ≤ 0xBB →
        (if VIDEO_MEM_PAGE + 0 ≤ i ∧ i < VIDEO_MEM_PAGE + 0 + (TERMINAL_COUNT + 1) then
            (((i * PAGE_SIZE) % U32) ||| (RW &&& c_not32 PRESENT)) ||| (RW ||| PRESENT)
          else ((i * PAGE_SIZE) % U32) ||| (RW &&& c_not32 PRESENT))
        = i * 4096 + 3)) := by
  decide!

/-- Claim C26: after `paging_init`, the entries of the first page table with the
present bit are those of index 0xB8 to 0xBB, each the page address `i * 4096`
with read/write and present; page directory entries 0 and 1 are present, entry 1
is `0x00400000 | 0x83` with the user bit clear, and entry 32 is not present. -/
theorem paging_init_spec (p : paging_t) (page_table_addr user_video_page_table_addr : Nat) :
    (∀ i, i < MAX_ENTRIES →
      (entry_present
          ((paging_init p page_table_addr user_video_page_table_addr).page_table i)
        ↔ 0xB8 ≤ i ∧ i ≤ 0xBB)) ∧
    (∀ i, 0xB8 ≤ i → i ≤ 0xBB →
      (paging_init p page_table_addr user_video_page_table_addr).page_table i
        = i * 4096 + 3) ∧
    entry_present
      ((paging_init p page_table_addr user_video_page_table_addr).page_directory 0) ∧
    entry_present
      ((paging_init p page_table_addr user_video_page_table_addr).page_directory 1) ∧
    (paging_init p page_table_addr user_video_page_table_addr).page_directory 1
      = 0x00400000 + 0x83 ∧
    (paging_init p page_table_addr user_video_page_table_addr).page_directory 1 &&& USER = 0 ∧
    ¬ entry_present
      ((paging_init p page_table_addr user_video_page_table_addr).page_directory 32) := by
  have hpt : ∀ i,
      (paging_init p page_table_addr user_video_page_table_addr).page_table i
        = if VIDEO_MEM_PAGE + 0 ≤ i ∧ i < VIDEO_MEM_PAGE + 0 + (TERMINAL_COUNT + 1) then
            (paging_init_defaults MAX_ENTRIES 0 p).page_table i ||| (RW ||| PRESENT)
          else (paging_init_defaults MAX_ENTRIES 0 p).page_table i := by
    intro i
    unfold paging_init
    dsimp only
    rw [paging_init_video_spec]
  have hdef : ∀ i, i < MAX_ENTRIES → (paging_init_defaults MAX_ENTRIES 0 p).page_table i
      = ((i * PAGE_SIZE) % U32) ||| (RW &&& c_not32 PRESENT) := by
    intro i hi
    rw [(paging_init_defaults_spec MAX_ENTRIES 0 p i).2, if_pos (by omega)]
  have hpd1 : (paging_init p page_table_addr user_video_page_table_addr).page_directory 1
      = KERNEL_MEM_START ||| (FOUR_MB_PAGE ||| RW ||| PRESENT) := by
    unfold paging_init
    dsimp only
    rw [Function.update_noteq (by decide), Function.update_same]
  refine ⟨fun i hi => ?_, fun i h1 h2 => ?_, ?_, ?_, ?_, ?_, ?_⟩
  · unfold entry_present
    rw [hpt, hdef i hi]
    exact (page_table_entries i hi).1
  · rw [hpt, hdef i (by simp only [MAX_ENTRIES]; omega)]
    exact (page_table_entries i (by simp only [MAX_ENTRIES]; omega)).2 h1 h2
  · unfold paging_init
    dsimp only
    rw [Function.update_noteq (by decide), Function.update_noteq (by decide),
      Function.update_same]
    exact lor_three_present _
  · rw [hpd1]
    unfold entry_present
    decide
  · rw [hpd1]
    decide
  · rw [hpd1]
    decide
  · unfold paging_init
    dsimp only
    rw [Function.update_noteq (by decide), Function.update_noteq (by decide),
      Function.update_noteq (by decide),
      (paging_init_defaults_spec MAX_ENTRIES 0 p 32).1, if_pos (by decide)]
    unfold entry_present
    decide


theorem paging_init_spec_witness :
    0xB9 < MAX_ENTRIES ∧
      (entry_present
          ((paging_init ⟨fun _ => 0, fun _ => 0, fun _ => 0⟩ 0x1000 0x2000).page_table 0xB9)
        ↔ 0xB8 ≤ 0xB9 ∧ 0xB9 ≤ 0xBB) :=
  ⟨by decide,
    (paging_init_spec ⟨fun _ => 0, fun _ => 0, fun _ => 0⟩ 0x1000 0x2000).1 0xB9 (by decide)⟩

/-! ### terminal_switch -/

/-- Claim C28: `terminal_switch` should leave the interrupt-enable flag as it
found it on every path. On `boot_screen`, where interrupts are enabled and
terminal 0 is in the foreground, `terminal_switch(0)` returns right after
`cli_and_save` and leaves interrupts disabled; `terminal_switch(1)` reaches
`restore_flags` and leaves them enabled. -/
theorem terminal_switch_same_terminal_flag :
    boot_screen.intr_flag = 1 ∧ boot_screen.ks.curr_term = 0 ∧
      (terminal_switch boot_screen 0).intr_flag = 0 ∧
      (terminal_switch boot_screen 1).intr_flag = 1 := by
  decide!

theorem memcpy_mem_spec (dest src : Nat) :
    ∀ (rem i : Nat) (m : Nat → Nat) (a : Nat),
      dest + i + rem ≤ U32 → src + i + rem ≤ U32 →
      (dest + i + rem ≤ src ∨ src + i + rem ≤ dest) →
      memcpy_mem dest src rem i m a
        = if dest + i ≤ a ∧ a < dest + i + rem then m (src + (a - dest)) else m a := by
  intro rem
  induction rem with
  | zero =>
    intro i m a _ _ _
    have c : ¬ (dest + i ≤ a ∧ a < dest + i + 0) := by omega
    rw [memcpy_mem, if_neg c]
  | succ n ih =>
    intro i m a h1 h2 h3
    have e1 : (dest + i) % U32 = dest + i := Nat.mod_eq_of_lt (by omega)
    have e2 : (src + i) % U32 = src + i := Nat.mod_eq_of_lt (by omega)
    rw [memcpy_mem, ih (i + 1) _ a (by omega) (by omega) (by omega), e1, e2]
    by_cases c : dest + (i + 1) ≤ a ∧ a < dest + (i + 1) + n
    · have c2 : dest + i ≤ a ∧ a < dest + i + (n + 1) := by omega
      rw [if_pos c, if_pos c2, Function.update_noteq (by omega)]
    · rw [if_neg c]
      by_cases e : a = dest + i
      · have c2 : dest + i ≤ a ∧ a < dest + i + (n + 1) := by omega
        rw [if_pos c2, e, Function.update_same]
        congr 1
        omega
      · have c2 : ¬ (dest + i ≤ a ∧ a < dest + i + (n + 1)) := by omega
        rw [if_neg c2, Function.update_noteq e]

theorem terminal_switch_other (v : VState) (t : Nat) (h : v.ks.curr_term ≠ t) :
    (terminal_switch v t).ks.curr_term = t ∧
    (terminal_switch v t).video_mem = v.video_mem ∧
    (terminal_switch v t).intr_flag = v.intr_flag ∧
    (terminal_switch v t).mem
      = memcpy_mem VIDEO (v.video_mem t) PAGE_SIZE 0
          (memcpy_mem (v.video_mem v.ks.curr_term) VIDEO PAGE_SIZE 0 v.mem) := by
  unfold terminal_switch cli_and_save restore_flags
  dsimp only
  rw [if_neg h]
  simp only [and_self]

theorem terminal_init_loop_video_mem :
    ∀ (rem i : Nat) (v : VState) (j : Nat),
      (terminal_init_loop rem i v).video_mem j
        = if i ≤ j ∧ j < i + rem then (VIDEO + (j + 1) * PAGE_SIZE) % U32 else v.video_mem j := by
  intro rem
  induction rem with
  | zero =>
    intro i v j
    have c : ¬ (i ≤ j ∧ j < i + 0) := by omega
    rw [terminal_init_loop, if_neg c]
  | succ n ih =>
    intro i v j
    rw [terminal_init_loop, ih]
    dsimp only
    by_cases c : i + 1 ≤ j ∧ j < i + 1 + n
    · have c2 : i ≤ j ∧ j < i + (n + 1) := by omega
      rw [if_pos c, if_pos c2]
    · rw [if_neg c]
      by_cases e : j = i
      · have c2 : i ≤ j ∧ j < i + (n + 1) := by omega
        rw [if_pos c2, e, Function.update_same]
      · have c2 : ¬ (i ≤ j ∧ j < i + (n + 1)) := by omega
        rw [if_neg c2, Function.update_noteq e]

theorem terminal_init_video_mem (v : VState) (i : Nat) (h : i < TERMINAL_COUNT) :
    (terminal_init v).video_mem i = backing_page i := by
  unfold terminal_init
  dsimp only
  rw [terminal_init_loop_video_mem, if_pos (by omega)]
  simp only [backing_page, VIDEO, PAGE_SIZE, KBYTE_4, U32, TERMINAL_COUNT] at *
  omega

/-- Claim C24: with terminal `A` in the foreground, `B` another terminal and the
backing pages where `terminal_init` puts them, `terminal_switch(B)` followed by
`terminal_switch(A)` leaves every byte of the VGA page as it was and `curr_term =
A`; `terminal_switch(A)` with `A` in the foreground changes no byte of memory, no
`video_mem` and not `curr_term`. -/
theorem terminal_switch_round_trip (v : VState) (A B : Nat) :
    (A < TERMINAL_COUNT → B < TERMINAL_COUNT → A ≠ B → v.ks.curr_term = A →
      (∀ i, i < TERMINAL_COUNT → v.video_mem i = backing_page i) →
      (terminal_switch (terminal_switch v B) A).ks.curr_term = A ∧
      ∀ a, 0xB8000 ≤ a → a < 0xB8000 + 4096 →
        (terminal_switch (terminal_switch v B) A).mem a = v.mem a) ∧
    (v.ks.curr_term = A →
      (terminal_switch v A).mem = v.mem ∧ (terminal_switch v A).video_mem = v.video_mem ∧
      (terminal_switch v A).ks.curr_term = A) ∧
    (∀ (v0 : VState) (i : Nat), i < TERMINAL_COUNT →
      (terminal_init v0).video_mem i = backing_page i) := by
  refine ⟨fun hA hB hne hcur hvm => ?_, fun hcur => ?_, terminal_init_video_mem⟩
  · obtain ⟨b1, b2, _, b4⟩ := terminal_switch_other v B (by rw [hcur]; exact hne)
    obtain ⟨a1, _, _, a4⟩ := terminal_switch_other (terminal_switch v B) A
      (by rw [b1]; exact fun e => hne e.symm)
    refine ⟨a1, fun a ha1 ha2 => ?_⟩
    rw [a4, b1, b2, b4, hcur, hvm A hA, hvm B hB]
    simp only [backing_page, VIDEO, PAGE_SIZE, KBYTE_4, U32, TERMINAL_COUNT] at *
    have hU : U32 = 4294967296 := rfl
    rw [memcpy_mem_spec _ _ _ _ _ _ (by omega) (by omega) (by omega),
      if_pos (by omega),
      memcpy_mem_spec _ _ _ _ _ _ (by omega) (by omega) (by omega),
      if_neg (by omega),
      memcpy_mem_spec _ _ _ _ _ _ (by omega) (by omega) (by omega),
      if_neg (by omega),
      memcpy_mem_spec _ _ _ _ _ _ (by omega) (by omega) (by omega),
      if_pos (by omega)]
    congr 1
    omega
  · unfold terminal_switch cli_and_save
    dsimp only
    rw [if_pos hcur]
    exact ⟨rfl, rfl, hcur⟩

theorem terminal_switch_round_trip_witness :
    (0 < TERMINAL_COUNT ∧ 2 < TERMINAL_COUNT ∧ (0 : Nat) ≠ 2 ∧ boot_screen.ks.curr_term = 0 ∧
      (∀ i, i < TERMINAL_COUNT → boot_screen.video_mem i = backing_page i)) ∧
    (terminal_switch (terminal_switch boot_screen 2) 0).ks.curr_term = 0 ∧
    (terminal_switch (terminal_switch boot_screen 2) 0).mem 0xB8005 = boot_screen.mem 0xB8005 :=
  ⟨⟨by decide, by decide, by decide, rfl, fun i hi => terminal_init_video_mem _ i hi⟩,
    ((terminal_switch_round_trip boot_screen 0 2).1 (by decide) (by decide) (by decide) rfl
      (fun i hi => terminal_init_video_mem _ i hi)).1,
    ((terminal_switch_round_trip boot_screen 0 2).1 (by decide) (by decide) (by decide) rfl
      (fun i hi => terminal_init_video_mem _ i hi)).2 0xB8005 (by decide) (by decide)⟩

/-! ### scheduler -/

/-- Claim C23: `scheduler(prev, next)` with `prev = next` changes nothing. With
`prev ≠ next`, `next` active and running a process (pid below 6, terminal id in a
byte), it sets `sched_term = next`, directory entry 32 to `(0x800000 + pid *
0x400000) | 0x87` and `user_video_page_table[0]` to `0xB8000 | 7` when the
terminal of the process is `curr_term`, else to the backing page of that
terminal, `0xB8000 + (terminal_id + 1) * 4096`, `| 7`. -/
theorem scheduler_spec (s : KState) (prev next esp ebp : Nat) :
    (prev = next → scheduler s prev next esp ebp = some s) ∧
    (prev ≠ next → (s.terminal next).active ≠ 0 → (s.terminal next).curr_pcb ≠ 0 →
      (s.pcb_mem (s.terminal next).curr_pcb).pid < MAX_PROC →
      (s.pcb_mem (s.terminal next).curr_pcb).terminal_id < 256 →
      ∃ s1, scheduler s prev next esp ebp = some s1 ∧ s1.sched_term = next ∧
        s1.page_directory 32
          = (0x800000 + (s.pcb_mem (s.terminal next).curr_pcb).pid * 0x400000) ||| 0x87 ∧
        s1.user_video_page_table 0
          = (if (s.pcb_mem (s.terminal next).curr_pcb).terminal_id = s.curr_term then
              0xB8000 ||| 7
            else backing_page (s.pcb_mem (s.terminal next).curr_pcb).terminal_id ||| 7)) := by
  refine ⟨fun h => ?_, fun hne hact hcur hpid htid => ?_⟩
  · unfold scheduler
    rw [if_pos h]
  · unfold scheduler
    rw [if_neg hne]
    dsimp only
    generalize hS : (ite ((s.terminal prev).active ≠ 0) _ s : KState) = S1
    have hT : S1.terminal = s.terminal ∧ S1.curr_term = s.curr_term ∧
        ∀ a, (S1.pcb_mem a).pid = (s.pcb_mem a).pid ∧
          (S1.pcb_mem a).terminal_id = (s.pcb_mem a).terminal_id := by
      rw [← hS]
      split_ifs
      · refine ⟨rfl, rfl, fun a => ?_⟩
        dsimp only
        by_cases e : a = (s.terminal prev).curr_pcb
        · rw [e, Function.update_same]
          exact ⟨rfl, rfl⟩
        · rw [Function.update_noteq e]
          exact ⟨rfl, rfl⟩
      · exact ⟨rfl, rfl, fun _ => ⟨rfl, rfl⟩⟩
    obtain ⟨t1, t2, t3⟩ := hT
    rw [t1, if_neg hact, if_neg hcur]
    refine ⟨_, rfl, rfl, ?_, ?_⟩
    · dsimp only
      rw [(t3 _).1]
      have e : USER_PAGE = 32 := by decide
      rw [e, Function.update_same]
      have e2 : (KERNEL_MEM_END + (s.pcb_mem (s.terminal next).curr_pcb).pid * _4MB_) % U32
          = 0x800000 + (s.pcb_mem (s.terminal next).curr_pcb).pid * 0x400000 := by
        simp only [KERNEL_MEM_END, _4MB_, U32, MAX_PROC] at *
        omega
      rw [e2]
      rfl
    · dsimp only
      rw [Function.update_same, (t3 _).2, t2]
      have e2 : (VIDEO + ((s.pcb_mem (s.terminal next).curr_pcb).terminal_id + 1) * KBYTE_4) % U32
          = backing_page (s.pcb_mem (s.terminal next).curr_pcb).terminal_id := by
        simp only [VIDEO, KBYTE_4, U32, backing_page] at *
        omega
      rw [e2]
      rfl

theorem scheduler_spec_witness :
    ((0 : Nat) ≠ 1 ∧ (tick_state.terminal 1).active ≠ 0 ∧ (tick_state.terminal 1).curr_pcb ≠ 0 ∧
      (tick_state.pcb_mem (tick_state.terminal 1).curr_pcb).pid < MAX_PROC ∧
      (tick_state.pcb_mem (tick_state.terminal 1).curr_pcb).terminal_id < 256) ∧
    ∃ s1, scheduler tick_state 0 1 0 0 = some s1 ∧ s1.sched_term = 1 ∧
      s1.page_directory 32
        = (0x800000 + (tick_state.pcb_mem (tick_state.terminal 1).curr_pcb).pid * 0x400000)
          ||| 0x87 ∧
      s1.user_video_page_table 0
        = (if (tick_state.pcb_mem (tick_state.terminal 1).curr_pcb).terminal_id
              = tick_state.curr_term then
            0xB8000 ||| 7
          else backing_page (tick_state.pcb_mem (tick_state.terminal 1).curr_pcb).terminal_id
            ||| 7) := by
  have h2 : (tick_state.terminal 1).active ≠ 0 := by decide!
  have h3 : (tick_state.terminal 1).curr_pcb ≠ 0 := by decide!
  have h4 : (tick_state.pcb_mem (tick_state.terminal 1).curr_pcb).pid < MAX_PROC := by decide!
  have h5 : (tick_state.pcb_mem (tick_state.terminal 1).curr_pcb).terminal_id < 256 := by
    decide!
  exact ⟨⟨by decide, h2, h3, h4, h5⟩,
    (scheduler_spec tick_state 0 1 0 0).2 (by decide) h2 h3 h4 h5⟩


/-! ### terminal_read -/

theorem terminal_read_count_spec (nbytes : Int) :
    ∀ (rem i : Nat), terminal_read_count nbytes rem i
      = if (i : Int) < nbytes - 1 then min (i + rem) (nbytes - 1).toNat else i := by
  intro rem
  induction rem with
  | zero =>
    intro i
    rw [terminal_read_count]
    split_ifs with h
    · rw [Nat.min_def]
      split_ifs <;> omega
    · rfl
  | succ n ih =>
    intro i
    rw [terminal_read_count]
    by_cases h : (i : Int) < nbytes - 1
    · rw [if_pos h, if_pos h, ih]
      by_cases h2 : ((i + 1 : Nat) : Int) < nbytes - 1
      · rw [if_pos h2]
        congr 1
        omega
      · rw [if_neg h2, Nat.min_def]
        split_ifs <;> omega
    · rw [if_neg h, if_neg h]

/-- What `terminal_read` does for a buffer that is not null and `nbytes` of at
least 1, when at most 127 characters are in the line at Enter: it returns `c +
1` with `c` the smaller of the number of characters and `nbytes - 1`, the first
`c` bytes of the buffer are those of the line, byte `c` is the newline, and the
line buffer is cleared. -/
theorem terminal_read_spec (s : KState) (buf_addr : Nat) (buf : Nat → Nat) (nbytes : Int)
    (kbd : kbd_line) (hbuf : buf_addr ≠ 0) (hn : 1 ≤ nbytes) (hidx : kbd.index ≤ 127) :
    ∃ c : Nat, c = min kbd.index (nbytes - 1).toNat ∧
      (terminal_read s buf_addr buf nbytes kbd).1 = (c : Int) + 1 ∧
      1 ≤ (terminal_read s buf_addr buf nbytes kbd).1 ∧
      (terminal_read s buf_addr buf nbytes kbd).1 ≤ min nbytes 128 ∧
      (∀ i, i < c → (terminal_read s buf_addr buf nbytes kbd).2.2 i = kbd.line i) ∧
      (terminal_read s buf_addr buf nbytes kbd).2.2 c = NEWLINE ∧
      ((terminal_read s buf_addr buf nbytes kbd).2.1.terminal s.sched_term).buffer_index = 0 ∧
      ∀ i, i < MAX_BUFFER_SIZE →
        ((terminal_read s buf_addr buf nbytes kbd).2.1.terminal s.sched_term).internal_buffer i
          = 0 := by
  have hc : terminal_read_count nbytes kbd.index 0 = min kbd.index (nbytes - 1).toNat := by
    rw [terminal_read_count_spec]
    by_cases h : ((0 : Nat) : Int) < nbytes - 1
    · rw [if_pos h, Nat.zero_add]
    · rw [if_neg h, Nat.min_def]
      split_ifs <;> omega
  have hle : min kbd.index (nbytes - 1).toNat ≤ 127 := by
    rw [Nat.min_def]
    split_ifs <;> omega
  have hle2 : ((min kbd.index (nbytes - 1).toNat : Nat) : Int) + 1 ≤ nbytes := by
    rw [Nat.min_def]
    split_ifs <;> omega
  have hret : to_i32 (min kbd.index (nbytes - 1).toNat + 1)
      = ((min kbd.index (nbytes - 1).toNat : Nat) : Int) + 1 := by
    unfold to_i32
    simp only [U32]
    rw [if_pos (by omega)]
    omega
  refine ⟨min kbd.index (nbytes - 1).toNat, rfl, ?_⟩
  unfold terminal_read
  rw [if_neg (by rintro (a | a); exact hbuf a; omega)]
  dsimp only
  rw [hc, hret]
  refine ⟨rfl, by omega, by omega, fun i hi => ?_, ?_, ?_, fun i hi => ?_⟩
  · rw [Function.update_noteq (by omega)]
    unfold memcpy
    rw [if_pos hi]
  · rw [Function.update_same]
  · split_ifs <;> simp [KState.set_term]
  · split_ifs <;> simp [KState.set_term, memset_getD_lt _ _ _ _ hi]

set_option maxRecDepth 100000 in
/-- Claim C25: `terminal_read` should return a value between 1 and
`min(nbytes, 128)` for every `nbytes >= 0`. With `nbytes = 0` and a buffer that
is not null it returns 1 and stores the newline at index 0 of a buffer of no
bytes. With 127 characters in the line it returns 10 for `nbytes = 10` and 128
for `nbytes = 128` and `200`; for a null buffer and for `nbytes < 0` it returns
-1. -/
theorem terminal_read_zero_nbytes :
    (terminal_read shell_running 1 (fun _ => 7) 0 empty_line).1 = 1 ∧
      (terminal_read shell_running 1 (fun _ => 7) 0 empty_line).2.2 0 = NEWLINE ∧
      (terminal_read shell_running 1 (fun _ => 7) 0 full_line).1 = 1 ∧
      (terminal_read shell_running 1 (fun _ => 7) 10 full_line).1 = 10 ∧
      (terminal_read shell_running 1 (fun _ => 7) 128 full_line).1 = 128 ∧
      (terminal_read shell_running 1 (fun _ => 7) 200 full_line).1 = 128 ∧
      (terminal_read shell_running 0 (fun _ => 7) 10 full_line).1 = -1 ∧
      (terminal_read shell_running 1 (fun _ => 7) (-1) full_line).1 = -1 := by
  decide!

/-! ### halt and the value returned by execute -/

set_option maxRecDepth 100000 in
/-- Claim C22: with the exception flag set, `execute` should return 256. In the
state `three_shells` an exception in pid 2 sets the flag and halts with 255: the
`execute` of pid 1 returns 256 and the flag stays set. When pid 1 then calls
`halt(0)`, `halt` hands 1 to the frame of pid 0, and `execute` returns 1 there:
the test of the flag that follows the label `EXEC_FIN` is not reached, and
neither 0 nor 256 is returned. With the flag clear, `halt(7)` makes `execute`
return 7. -/
theorem execute_return_after_exception :
    three_shells.exception_flag = 0 ∧
      (halt three_shells 7).map (fun r => r.1.map execute_return) = some (some 7) ∧
      (exception_handler three_shells).map
        (fun r => (r.1.map execute_return, r.2.exception_flag)) = some (some 256, 1) ∧
      ((exception_handler three_shells).bind (fun r => halt r.2 0)).map
        (fun r => r.1.map execute_return) = some (some 1) := by
  decide!

/-! ### Reading a file to its end -/

set_option maxRecDepth 100000 in
/-- Claim C30: reading a regular file of length `L` until `read` returns 0
should deliver `L` bytes in all. On the image `shellFS` the file "shell" has
length 30; with descriptor 2 open on it, `read(2, buf, 16)` returns 16, then 15,
then 0, and the position ends at 31: the counts sum to 31, the second call
having handed out the byte at file position 30 as well. -/
theorem read_repeat_one_past_length :
    inode_length shellFS 1 = 30 ∧
      ((after_open (ascii "shell")).cur.fd_array 2).file_position = 0 ∧
      (read_repeat 5 (after_open (ascii "shell")) 2 16).map
        (fun x => (x.1, (x.2.cur.fd_array 2).file_position))
        = some ([(16, 127), (15, 0), (0, 0)], 31) := by
  decide!


/-! ### The line buffer of the keyboard -/

theorem same_lines_refl (s : KState) : same_lines s s :=
  ⟨rfl, rfl, fun _ => Or.inl rfl⟩

theorem same_lines_trans (a b c : KState) (h1 : same_lines a b) (h2 : same_lines b c) :
    same_lines a c := by
  obtain ⟨a1, a2, a3⟩ := h1
  obtain ⟨b1, b2, b3⟩ := h2
  refine ⟨b1.trans a1, b2.trans a2, fun t => ?_⟩
  rcases b3 t with h | h
  · rcases a3 t with g | g
    · exact Or.inl (h.trans g)
    · exact Or.inr (h.trans g)
  · exact Or.inr h

theorem update_term_index (m : Nat → term_t) (a : Nat) (q : term_t)
    (hq : q.buffer_index = (m a).buffer_index) (t : Nat) :
    (Function.update m a q t).buffer_index = (m t).buffer_index := by
  by_cases e : t = a
  · rw [e, Function.update_same]
    exact hq
  · rw [Function.update_noteq e]

theorem execute_entry_lines (s : KState) (esp ebp : Nat) :
    same_lines s (execute_entry s esp ebp) := by
  unfold execute_entry KState.set_term KState.set_cur KState.cur
  dsimp only
  split_ifs with h
  · exact ⟨rfl, rfl, fun t => Or.inl (update_term_index s.terminal s.sched_term _ (by rfl) t)⟩
  · exact ⟨rfl, rfl, fun t => Or.inl (update_term_index s.terminal s.sched_term _ (by rfl) t)⟩

theorem execute_lines (s : KState) (command : List Nat) (esp ebp : Nat) :
    same_lines s (execute s (some command) esp ebp).2 := by
  have he := execute_entry_lines s esp ebp
  unfold execute
  dsimp only
  generalize execute_entry s esp ebp = s3 at he ⊢
  apply same_lines_trans s s3 _ he
  split_ifs
  · exact same_lines_refl s3
  · exact same_lines_refl s3
  · exact ⟨rfl, rfl, fun _ => Or.inl rfl⟩
  · refine ⟨rfl, rfl, fun t => Or.inl ?_⟩
    unfold execute_context_switch execute_create_pcb execute_program_paging
    dsimp only
    exact update_term_index s3.terminal s3.sched_term _ (by rfl) t

/-- The call `close(fd)` changes nothing but the PCB of the running process. -/
theorem close_frame (s : KState) (fd : Int) (r : Int × KState) (h : close s fd = some r) :
    r.2.terminal = s.terminal ∧ r.2.curr_term = s.curr_term ∧
    r.2.placeholder_buf_index = s.placeholder_buf_index ∧
    r.2.exception_flag = s.exception_flag ∧ r.2.sched_term = s.sched_term := by
  unfold close at h
  split_ifs at h with a b c
  · simp only [Option.some.injEq] at h
    rw [← h]
    exact ⟨rfl, rfl, rfl, rfl, rfl⟩
  · simp only [Option.some.injEq] at h
    rw [← h]
    exact ⟨rfl, rfl, rfl, rfl, rfl⟩
  · simp only [Option.some.injEq] at h
    rw [← h]
    exact ⟨rfl, rfl, rfl, rfl, rfl⟩
  · cases hc : call_close (s.cur.fd_array fd.toNat).file_operations_table_ptr.op_close s with
    | none =>
      rw [hc] at h
      simp at h
    | some r1 =>
      rw [hc] at h
      have hr := call_close_state _ _ _ hc
      dsimp only at h
      split_ifs at h with d
      · simp only [Option.some.injEq] at h
        rw [← h, hr]
        exact ⟨rfl, rfl, rfl, rfl, rfl⟩
      · simp only [Option.some.injEq] at h
        rw [← h, hr]
        exact ⟨rfl, rfl, rfl, rfl, rfl⟩

theorem halt_close_all_frame :
    ∀ (rem i : Nat) (s s1 : KState), halt_close_all rem i s = some s1 →
      s1.terminal = s.terminal ∧ s1.curr_term = s.curr_term ∧
      s1.placeholder_buf_index = s.placeholder_buf_index ∧
      s1.exception_flag = s.exception_flag ∧ s1.sched_term = s.sched_term := by
  intro rem
  induction rem with
  | zero =>
    intro i s s1 h
    simp only [halt_close_all, Option.some.injEq] at h
    rw [← h]
    exact ⟨rfl, rfl, rfl, rfl, rfl⟩
  | succ n ih =>
    intro i s s1 h
    rw [halt_close_all] at h
    cases hc : close s (i : Int) with
    | none =>
      rw [hc] at h
      simp at h
    | some r =>
      rw [hc] at h
      dsimp only at h
      obtain ⟨a1, a2, a3, a4, a5⟩ := close_frame s _ r hc
      obtain ⟨b1, b2, b3, b4, b5⟩ := ih _ _ _ h
      exact ⟨b1.trans a1, b2.trans a2, b3.trans a3, b4.trans a4, b5.trans a5⟩

theorem halt_lines (s : KState) (status : Nat) (r : Option exec_fin × KState)
    (h : halt s status = some r) : same_lines s r.2 := by
  unfold halt at h
  cases hc : halt_close_all FD_ARRAY_SIZE 0 s with
  | none =>
    rw [hc] at h
    simp at h
  | some s1 =>
    rw [hc] at h
    obtain ⟨f1, f2, f3, _, _⟩ := halt_close_all_frame _ _ _ _ hc
    simp only [KState.cur, KState.set_term] at h
    by_cases hroot : (s1.pcb_mem (s1.terminal s1.sched_term).curr_pcb).parent_pcb = 0
    · rw [if_pos hroot] at h
      generalize hres : execute _ (some (ascii "shell")) 0 0 = res at h
      have k1 : same_lines s res.2 := by
        rw [← hres]
        refine same_lines_trans s _ _ ?_ (execute_lines _ _ _ _)
        refine ⟨f2, f3, fun t => Or.inl ?_⟩
        show (Function.update s1.terminal s1.sched_term _ t).buffer_index = _
        rw [← f1]
        exact update_term_index s1.terminal s1.sched_term _ (by rfl) t
      rcases res with ⟨_ | v, s4⟩
      · simp only [Option.some.injEq] at h
        rw [← h]
        exact k1
      · simp at h
    · rw [if_neg hroot] at h
      simp only [Option.some.injEq] at h
      rw [← h]
      refine ⟨f2, f3, fun t => ?_⟩
      dsimp only
      by_cases e : t = s1.sched_term
      · right
        rw [e]
        simp only [Function.update_same]
      · left
        rw [Function.update_noteq e, Function.update_noteq e, f1]

theorem scheduler_lines (s : KState) (prev next esp ebp : Nat) (s1 : KState)
    (h : scheduler s prev next esp ebp = some s1) : same_lines s s1 := by
  unfold scheduler at h
  by_cases e : prev = next
  · rw [if_pos e] at h
    simp only [Option.some.injEq] at h
    rw [← h]
    exact same_lines_refl s
  · rw [if_neg e] at h
    dsimp only at h
    generalize hS : (ite ((s.terminal prev).active ≠ 0) _ s : KState) = S1 at h
    have hST : same_lines s S1 := by
      rw [← hS]
      split_ifs
      · exact ⟨rfl, rfl, fun _ => Or.inl rfl⟩
      · exact same_lines_refl s
    have hS2 : same_lines s { S1 with sched_term := next } := hST
    by_cases a : (S1.terminal next).active = 0
    · rw [if_pos a] at h
      simp only [Option.some.injEq] at h
      rw [← h]
      exact same_lines_trans _ _ _ hS2 (execute_lines _ _ _ _)
    · rw [if_neg a] at h
      by_cases b : (S1.terminal next).curr_pcb = 0
      · rw [if_pos b] at h
        simp at h
      · rw [if_neg b] at h
        simp only [Option.some.injEq] at h
        rw [← h]
        exact hST

theorem kstep_lines (s : KState) (e : kevent) (s1 : KState) (h : kstep s e = some s1) :
    same_lines s s1 := by
  cases e with
  | execute command esp ebp =>
    simp only [kstep, Option.some.injEq] at h
    rw [← h]
    exact execute_lines s command esp ebp
  | halt status =>
    simp only [kstep] at h
    split_ifs at h with h0
    cases hh : halt s status with
    | none =>
      rw [hh] at h
      simp at h
    | some r =>
      rw [hh] at h
      simp only [Option.some.injEq] at h
      rw [← h]
      exact halt_lines s status r hh
  | tick esp ebp =>
    unfold kstep pit_intr_handler at h
    split_ifs at h with h0
    · simp only [Option.some.injEq] at h
      rw [← h]
      exact same_lines_refl s
    · exact scheduler_lines s _ _ esp ebp s1 h

theorem kbd_inv_set_ks (k : kbd_t) (s1 : KState) (h : same_lines k.vs.ks s1)
    (hinv : kbd_inv k) : kbd_inv (k.set_ks s1) := by
  obtain ⟨h1, h2, h3⟩ := h
  obtain ⟨i1, i2, i3, i4⟩ := hinv
  refine ⟨?_, fun t ht => ?_, ?_, i4⟩
  · show s1.curr_term < TERMINAL_COUNT
    rw [h1]
    exact i1
  · show (s1.terminal t).buffer_index ≤ 127
    rcases h3 t with e | e
    · rw [e]
      exact i2 t ht
    · rw [e]
      omega
  · show s1.placeholder_buf_index ≤ 127
    rw [h2]
    exact i3

theorem kbd_inv_of_eq (k k1 : kbd_t) (h1 : k1.vs = k.vs) (h2 : k1.stores = k.stores)
    (hinv : kbd_inv k) : kbd_inv k1 := by
  unfold kbd_inv at *
  rw [h1, h2]
  exact hinv

theorem kbd_inv_set_cur (k : kbd_t) (t : term_t) (ht : t.buffer_index ≤ 127)
    (hinv : kbd_inv k) : kbd_inv (k.set_cur t) := by
  obtain ⟨i1, i2, i3, i4⟩ := hinv
  refine ⟨i1, fun j hj => ?_, i3, i4⟩
  show (Function.update k.vs.ks.terminal k.vs.ks.curr_term t j).buffer_index ≤ 127
  by_cases e : j = k.vs.ks.curr_term
  · rw [e, Function.update_same]
    exact ht
  · rw [Function.update_noteq e]
    exact i2 j hj

theorem kbd_inv_stores (k : kbd_t) (i : Nat) (hi : i < MAX_BUFFER_SIZE) (hinv : kbd_inv k) :
    kbd_inv { k with stores := k.stores ++ [i] } := by
  obtain ⟨i1, i2, i3, i4⟩ := hinv
  refine ⟨i1, i2, i3, fun j hj => ?_⟩
  rcases List.mem_append.mp hj with h | h
  · exact i4 j h
  · rw [List.mem_singleton.mp h]
    exact hi

theorem keyboard_store_inv (k : kbd_t) (c : Nat) (hinv : kbd_inv k) :
    kbd_inv (keyboard_store k c) := by
  unfold keyboard_store
  split_ifs with h
  · have h1 := kbd_inv_set_cur k
      { k.cur with
        internal_buffer := Function.update k.cur.internal_buffer k.cur.buffer_index c
        buffer_index := (k.cur.buffer_index + 1) % U32 }
      (by
        simp only [MAX_BUFFER_SIZE, U32] at *
        omega) hinv
    have h2 := kbd_inv_stores _ k.cur.buffer_index
      (by
        simp only [MAX_BUFFER_SIZE] at *
        omega) h1
    exact h2
  · exact hinv

theorem keyboard_tab_inv :
    ∀ (n : Nat) (k : kbd_t) (c : Nat), kbd_inv k → kbd_inv (keyboard_tab n k c) := by
  intro n
  induction n with
  | zero =>
    intro k c h
    exact h
  | succ m ih =>
    intro k c h
    rw [keyboard_tab]
    exact ih _ c (keyboard_store_inv k c h)

theorem keyboard_modifiers_eq (k : kbd_t) (sc : Nat) :
    (keyboard_modifiers k sc).vs = k.vs ∧ (keyboard_modifiers k sc).stores = k.stores := by
  unfold keyboard_modifiers
  dsimp only
  split_ifs <;> exact ⟨rfl, rfl⟩

theorem keyboard_release_inv (k : kbd_t) (sc : Nat) (hinv : kbd_inv k) :
    kbd_inv (keyboard_release k sc) := by
  unfold keyboard_release
  dsimp only
  generalize hk : (ite (sc - RELEASED_OFFSET = LEFT_ALT) _ _ : kbd_t) = k3
  have h3 : k3.vs = k.vs ∧ k3.stores = k.stores := by
    rw [← hk]
    split_ifs <;> exact ⟨rfl, rfl⟩
  have i3 := kbd_inv_of_eq k k3 h3.1 h3.2 hinv
  split_ifs
  · exact kbd_inv_set_cur k3 _ (i3.2.1 _ i3.1) i3
  · exact i3

theorem terminal_switch_ks (v : VState) (n : Nat) :
    (terminal_switch v n).ks.curr_term = n ∧
    (terminal_switch v n).ks.terminal = v.ks.terminal ∧
    (terminal_switch v n).ks.placeholder_buf_index = v.ks.placeholder_buf_index := by
  unfold terminal_switch cli_and_save restore_flags
  dsimp only
  split_ifs with h
  · exact ⟨h, rfl, rfl⟩
  · exact ⟨rfl, rfl, rfl⟩

theorem kbd_inv_switch (k : kbd_t) (n : Nat) (hn : n < TERMINAL_COUNT) (hinv : kbd_inv k) :
    kbd_inv { k with vs := terminal_switch k.vs n } := by
  obtain ⟨i1, i2, i3, i4⟩ := hinv
  obtain ⟨t1, t2, t3⟩ := terminal_switch_ks k.vs n
  refine ⟨?_, fun t ht => ?_, ?_, i4⟩
  · show (terminal_switch k.vs n).ks.curr_term < TERMINAL_COUNT
    rw [t1]
    exact hn
  · show ((terminal_switch k.vs n).ks.terminal t).buffer_index ≤ 127
    rw [t2]
    exact i2 t ht
  · show (terminal_switch k.vs n).ks.placeholder_buf_index ≤ 127
    rw [t3]
    exact i3

theorem keyboard_intr_handler_inv (k : kbd_t) (sc : Nat) (hinv : kbd_inv k) :
    kbd_inv (keyboard_intr_handler k sc) := by
  unfold keyboard_intr_handler
  by_cases hrel : sc > RELEASED_OFFSET
  · rw [if_pos hrel]
    exact keyboard_release_inv k sc hinv
  · rw [if_neg hrel]
    dsimp only
    obtain ⟨hv, hs⟩ := keyboard_modifiers_eq k sc
    have h4 := kbd_inv_of_eq k _ hv hs hinv
    generalize keyboard_modifiers k sc = k4 at h4 ⊢
    have hcur : k4.cur.buffer_index ≤ 127 := h4.2.1 _ h4.1
    by_cases c1 : k4.ctrl_flag ≠ 0 ∧ sc = L_KEY
    · rw [if_pos c1]
      have h5 := kbd_inv_set_cur k4
        { k4.cur with
          internal_buffer := memset k4.cur.internal_buffer 0 MAX_BUFFER_SIZE
          enter_flag := 1 } hcur h4
      exact ⟨h5.1, h5.2.1, hcur, h4.2.2.2⟩
    · rw [if_neg c1]
      by_cases c2 : k4.alt_flag ≠ 0 ∧ sc = F_ONE
      · rw [if_pos c2]
        exact kbd_inv_switch k4 0 (by decide) h4
      · rw [if_neg c2]
        by_cases c3 : k4.alt_flag ≠ 0 ∧ sc = F_TWO
        · rw [if_pos c3]
          exact kbd_inv_switch k4 1 (by decide) h4
        · rw [if_neg c3]
          by_cases c4 : k4.alt_flag ≠ 0 ∧ sc = F_THREE
          · rw [if_pos c4]
            exact kbd_inv_switch k4 2 (by decide) h4
          · rw [if_neg c4]
            by_cases c5 : sc = ENTER
            · rw [if_pos c5]
              exact kbd_inv_set_cur k4 _ hcur h4
            · rw [if_neg c5]
              generalize hk5 : (ite (sc = BACKSPACE ∧ k4.cur.buffer_index ≠ 0) _ k4 : kbd_t)
                = k5
              have h5 : kbd_inv k5 := by
                rw [← hk5]
                split_ifs
                · exact kbd_inv_stores _ k4.cur.buffer_index
                    (by
                      simp only [MAX_BUFFER_SIZE]
                      omega)
                    (kbd_inv_set_cur k4 _ (by
                      show k4.cur.buffer_index - 1 ≤ 127
                      omega) h4)
                · exact h4
              generalize (ite (k4.shft_flag ≠ 0) _ _ : Nat) = out
              by_cases c6 : out ≠ 0
              · rw [if_pos c6]
                by_cases c7 : sc = TAB
                · rw [if_pos c7]
                  exact keyboard_tab_inv 4 k5 _ h5
                · rw [if_neg c7]
                  exact keyboard_store_inv k5 _ h5
              · rw [if_neg c6]
                exact h5


/-- The function `terminal_read` is its part ahead of the wait, the keyboard
line that the wait ends with, and its part after the wait. -/
theorem terminal_read_split (s : KState) (buf_addr : Nat) (buf : Nat → Nat) (nbytes : Int)
    (kbd : kbd_line) (h : ¬ (buf_addr = 0 ∨ nbytes < 0)) :
    terminal_read s buf_addr buf nbytes kbd
      = terminal_read_end
          ((terminal_read_begin s).set_term
            { (terminal_read_begin s).terminal (terminal_read_begin s).sched_term with
              internal_buffer := kbd.line
              buffer_index := kbd.index })
          buf nbytes := by
  unfold terminal_read terminal_read_end terminal_read_begin
  rw [if_neg h]
  split_ifs <;> simp [KState.set_term]

theorem terminal_read_begin_inv (k : kbd_t) (hinv : kbd_inv k) :
    kbd_inv (k.set_ks (terminal_read_begin k.vs.ks)) := by
  obtain ⟨i1, i2, i3, i4⟩ := hinv
  unfold terminal_read_begin
  split_ifs with h
  · refine ⟨i1, fun t ht => ?_, i3, i4⟩
    show (Function.update k.vs.ks.terminal k.vs.ks.sched_term _ t).buffer_index ≤ 127
    by_cases e : t = k.vs.ks.sched_term
    · rw [e, Function.update_same]
      exact i3
    · rw [Function.update_noteq e]
      exact i2 t ht
  · exact ⟨i1, i2, i3, i4⟩

theorem terminal_read_end_lines (s : KState) (buf : Nat → Nat) (nbytes : Int) :
    same_lines s (terminal_read_end s buf nbytes).2.1 := by
  unfold terminal_read_end
  refine ⟨rfl, rfl, fun t => ?_⟩
  show (Function.update s.terminal s.sched_term _ t).buffer_index = _ ∨
    (Function.update s.terminal s.sched_term _ t).buffer_index = 0
  by_cases e : t = s.sched_term
  · right
    rw [e, Function.update_same]
  · left
    rw [Function.update_noteq e]

theorem kbd_step_inv (k : kbd_t) (e : kbd_event) (k1 : kbd_t) (hinv : kbd_inv k)
    (h : kbd_step k e = some k1) : kbd_inv k1 := by
  cases e with
  | key scancode =>
    simp only [kbd_step, Option.some.injEq] at h
    rw [← h]
    exact keyboard_intr_handler_inv k _ hinv
  | read_begin buf_addr nbytes =>
    simp only [kbd_step] at h
    split_ifs at h with a
    · simp only [Option.some.injEq] at h
      rw [← h]
      exact hinv
    · simp only [Option.some.injEq] at h
      rw [← h]
      exact terminal_read_begin_inv k hinv
  | read_end buf nbytes =>
    simp only [kbd_step] at h
    split_ifs at h with a
    simp only [Option.some.injEq] at h
    rw [← h]
    exact kbd_inv_set_ks k _ (terminal_read_end_lines _ _ _) hinv
  | kernel ev =>
    simp only [kbd_step] at h
    cases hk : kstep k.vs.ks ev with
    | none =>
      rw [hk] at h
      simp at h
    | some s1 =>
      rw [hk] at h
      simp only [Option.map_some', Option.some.injEq] at h
      rw [← h]
      exact kbd_inv_set_ks k s1 (kstep_lines _ _ _ hk) hinv

theorem kbd_run_inv :
    ∀ (evs : List kbd_event) (k k1 : kbd_t), kbd_inv k → kbd_run k evs = some k1 →
      kbd_inv k1 := by
  intro evs
  induction evs with
  | nil =>
    intro k k1 hinv h
    simp only [kbd_run, Option.some.injEq] at h
    rw [← h]
    exact hinv
  | cons e es ih =>
    intro k k1 hinv h
    rw [kbd_run] at h
    cases hk : kbd_step k e with
    | none =>
      rw [hk] at h
      simp at h
    | some k2 =>
      rw [hk] at h
      exact ih k2 k1 (kbd_step_inv k e k2 hinv hk) h

theorem terminal_init_loop_index :
    ∀ (rem i : Nat) (v : VState) (j : Nat),
      ((terminal_init_loop rem i v).ks.terminal j).buffer_index
        = if i ≤ j ∧ j < i + rem then 0 else (v.ks.terminal j).buffer_index := by
  intro rem
  induction rem with
  | zero =>
    intro i v j
    have c : ¬ (i ≤ j ∧ j < i + 0) := by omega
    rw [terminal_init_loop, if_neg c]
  | succ n ih =>
    intro i v j
    rw [terminal_init_loop, ih]
    dsimp only
    by_cases c : i + 1 ≤ j ∧ j < i + 1 + n
    · have c2 : i ≤ j ∧ j < i + (n + 1) := by omega
      rw [if_pos c, if_pos c2]
    · rw [if_neg c]
      by_cases e : j = i
      · have c2 : i ≤ j ∧ j < i + (n + 1) := by omega
        rw [if_pos c2, e, Function.update_same]
      · have c2 : ¬ (i ≤ j ∧ j < i + (n + 1)) := by omega
        rw [if_neg c2, Function.update_noteq e]

theorem kbd_inv_boot (k : kbd_t) (h : is_kbd_boot k) : kbd_inv k := by
  obtain ⟨⟨v, hv⟩, h2, h3⟩ := h
  refine ⟨?_, fun t ht => ?_, by omega, ?_⟩
  · rw [hv]
    show (0 : Nat) < TERMINAL_COUNT
    decide
  · rw [hv]
    show ((terminal_init_loop TERMINAL_COUNT 0 v).ks.terminal t).buffer_index ≤ 127
    rw [terminal_init_loop_index, if_pos (by omega)]
    omega
  · rw [h3]
    intro i hi
    cases hi

/-- Claim C29: in every state reached from `terminal_init` by scan codes given to
`keyboard_intr_handler`, `terminal_read` calls and kernel steps (`execute`,
`halt`, timer ticks), the `buffer_index` of the foreground terminal is at most
127, and every store of the keyboard handler into the 128-byte line buffer was
at an index below 128. -/
theorem keyboard_buffer_index_spec (k0 : kbd_t) (evs : List kbd_event) (k : kbd_t)
    (hboot : is_kbd_boot k0) (hrun : kbd_run k0 evs = some k) :
    (k.vs.ks.terminal k.vs.ks.curr_term).buffer_index ≤ 127 ∧
    ∀ i ∈ k.stores, i < MAX_BUFFER_SIZE := by
  have hinv := kbd_run_inv evs k0 k (kbd_inv_boot k0 hboot) hrun
  exact ⟨hinv.2.1 _ hinv.1, hinv.2.2.2⟩

set_option maxRecDepth 100000 in
theorem keyboard_buffer_index_spec_witness :
    is_kbd_boot boot_kbd ∧ kbd_run boot_kbd kbd_trace = some kbd_trace_state ∧
    ((kbd_trace_state.vs.ks.terminal kbd_trace_state.vs.ks.curr_term).buffer_index ≤ 127 ∧
      ∀ i ∈ kbd_trace_state.stores, i < MAX_BUFFER_SIZE) := by
  have hboot : is_kbd_boot boot_kbd := ⟨⟨_, rfl⟩, rfl, rfl⟩
  have hsome : (kbd_run boot_kbd kbd_trace).isSome = true := by decide!
  have hrun : kbd_run boot_kbd kbd_trace = some kbd_trace_state := by
    unfold kbd_trace_state
    cases hk : kbd_run boot_kbd kbd_trace with
    | none =>
      rw [hk] at hsome
      cases hsome
    | some v => rfl
  exact ⟨hboot, hrun, keyboard_buffer_index_spec boot_kbd kbd_trace kbd_trace_state hboot hrun⟩

end NaanOS
